import Mathlib

/-
Verification of the broyale archetype-based entity/component storage engine.

The definitions below are a shallow embedding of the TypeScript sources
src/ecs/columnStore.ts, src/ecs/archetype.ts and the World class
(src/ecs/world.ts): pure functions over explicit state values.  JavaScript
machine values are idealized as follows:

* a JS `number` is modelled as `JNum`: either NaN, a signed infinity, or an
  exact rational.  Width-dependent floating-point rounding of the
  `f16/f32/f64` buffer kinds is idealized to the identity (every concrete
  value appearing in a theorem below is exactly representable at the
  relevant width); the integer buffer kinds truncate and wrap exactly as
  the ECMAScript conversions do.
* a JS `bigint` is an unbounded `Int`; the 64-bit buffer kinds wrap mod 2^64.
* JS exceptions are modelled with an explicit error component: ColumnStore
  methods return the (possibly partially) mutated store together with
  `Option CsErr`; Archetype and World methods return `Option _`, `none`
  meaning the call threw.
* object identity of Archetypes is modelled by keying them through the
  World's signature map: the JS World reaches every Archetype it references
  through `archetypeBySignature`, so map updates at a signature model
  in-place mutation of the shared object.
-/

/-- JavaScript numbers, idealized: NaN, signed infinities, or an exact
rational for every finite value. -/
inductive JNum where
  | nan : JNum
  | inf : Bool → JNum
  | fin : ℚ → JNum
deriving DecidableEq

/-- JavaScript runtime values that can appear as a component field value,
classified the way the `typeof` switch in `ColumnStore.set` classifies them.
`other` stands for the object/function/symbol shapes that the source rejects
with `UnsupportedFieldTypeError`. -/
inductive JsValue where
  | num : JNum → JsValue
  | big : ℤ → JsValue
  | bool : Bool → JsValue
  | str : String → JsValue
  | undefined : JsValue
  | other : JsValue
deriving DecidableEq

/-- One slot of a typed-array buffer: number-kind arrays hold a `JNum`,
BigInt64Array/BigUint64Array hold an `Int`. -/
inductive Elem where
  | num : JNum → Elem
  | big : ℤ → Elem
deriving DecidableEq

/-- Field kinds of src/ecs/types.ts (`FieldType`). -/
inductive FieldType where
  | f16 | f32 | f64 | i8 | i16 | i32 | u8 | u16 | u32 | u8c | bi64 | biu64 | bool
deriving DecidableEq

/-- Errors thrown by ColumnStore methods. -/
inductive CsErr where
  | rangeErr      -- RangeError
  | outOfRange    -- Error "Index out of range"
  | unsupported   -- UnsupportedFieldTypeError on an unsupported value shape
  | typeErr       -- TypeError: number written to a BigInt array or vice versa
  | internalErr   -- Error "Array for field ... not found"
deriving DecidableEq

/-- Whether the field kind is stored in a BigInt64Array/BigUint64Array. -/
def FieldType.isBig : FieldType → Bool
  | .bi64 => true
  | .biu64 => true
  | _ => false

/-- Freshly created typed arrays are zero-filled (`createArrayForType`). -/
def defaultElem (ft : FieldType) : Elem :=
  if ft.isBig then .big 0 else .num (.fin 0)

/-- Truncation toward zero of a rational, as the ECMAScript ToIntN/ToUintN
conversions perform before wrapping. -/
def jsTrunc (q : ℚ) : ℤ :=
  if q < 0 then -(Rat.floor (-q)) else Rat.floor q

/-- Integer value a JS number contributes to an integer-kind typed-array
store: NaN and the infinities become 0, finite values truncate toward 0. -/
def jsToIntZ : JNum → ℤ
  | .nan => 0
  | .inf _ => 0
  | .fin q => jsTrunc q

/-- Wrap into the unsigned `w`-bit range. -/
def wrapU (w : ℕ) (i : ℤ) : ℤ := i % ((2 : ℤ) ^ w)

/-- Wrap into the signed two's-complement `w`-bit range. -/
def wrapS (w : ℕ) (i : ℤ) : ℤ :=
  let u := wrapU w i
  if (2 : ℤ) ^ (w - 1) ≤ u then u - (2 : ℤ) ^ w else u

/-- Round to the nearest integer, ties to even (used by Uint8ClampedArray).
The fractional part `q - ⌊q⌋ = (q.num - ⌊q⌋·q.den) / q.den` is compared to
`1/2` by cross-multiplication, keeping the computation in `ℤ`. -/
def roundTiesEven (q : ℚ) : ℤ :=
  if 2 * (q.num - Rat.floor q * (q.den : ℤ)) < (q.den : ℤ) then Rat.floor q
  else if (q.den : ℤ) < 2 * (q.num - Rat.floor q * (q.den : ℤ)) then
    Rat.floor q + 1
  else if Rat.floor q % 2 = 0 then Rat.floor q else Rat.floor q + 1

/-- ECMAScript ToUint8Clamp. -/
def clamp255 : JNum → ℤ
  | .nan => 0
  | .inf b => if b then 255 else 0
  | .fin q => if q ≤ 0 then 0 else if 255 ≤ q then 255 else roundTiesEven q

/-- Conversion a JS number undergoes when assigned into the typed array of a
(non-BigInt) field kind.  Float kinds are idealized to the identity. -/
def coerceJNum : FieldType → JNum → JNum
  | .f16, x => x
  | .f32, x => x
  | .f64, x => x
  | .i8, x => .fin (wrapS 8 (jsToIntZ x))
  | .i16, x => .fin (wrapS 16 (jsToIntZ x))
  | .i32, x => .fin (wrapS 32 (jsToIntZ x))
  | .u8, x => .fin (wrapU 8 (jsToIntZ x))
  | .u16, x => .fin (wrapU 16 (jsToIntZ x))
  | .u32, x => .fin (wrapU 32 (jsToIntZ x))
  | .u8c, x => .fin (clamp255 x)
  | .bool, x => .fin (wrapU 8 (jsToIntZ x))  -- "bool" fields use a Uint8Array
  | .bi64, _ => .fin 0   -- unreachable: numbers are never written to BigInt arrays
  | .biu64, _ => .fin 0  -- unreachable likewise

/-- Conversion a JS bigint undergoes when assigned into a 64-bit array. -/
def wrapBig (ft : FieldType) (i : ℤ) : ℤ :=
  if ft = .biu64 then wrapU 64 i else wrapS 64 i

/-- Digit helpers for the model of `parseInt` / `parseFloat`. -/
def isDigitChar (c : Char) : Bool :=
  48 ≤ c.val.toNat && c.val.toNat ≤ 57

def digitVal (c : Char) : ℕ := c.val.toNat - 48

/-- Longest leading run of decimal digits. -/
def leadDigits : List Char → List ℕ × List Char
  | [] => ([], [])
  | c :: t =>
    if isDigitChar c then
      let (ds, rest) := leadDigits t
      (digitVal c :: ds, rest)
    else ([], c :: t)

def digitsToNat (ds : List ℕ) : ℕ := ds.foldl (fun acc d => acc * 10 + d) 0

/-- Leading JS whitespace (the forms relevant here) is skipped by both
`parseInt` and `parseFloat`. -/
def skipWs (cs : List Char) : List Char :=
  cs.dropWhile (fun c => c = ' ' || c = '\t' || c = '\n' || c = '\r')

/-- Optional sign; returns `true` for negative. -/
def readSign : List Char → Bool × List Char
  | '-' :: t => (true, t)
  | '+' :: t => (false, t)
  | cs => (false, cs)

/-- Model of `parseInt(s, 10)`: leading whitespace, optional sign, the
longest leading digit run; NaN when there is no digit. -/
def parseIntJS (s : String) : JNum :=
  let cs := skipWs s.data
  let (neg, cs₁) := readSign cs
  let (ds, _) := leadDigits cs₁
  if ds.isEmpty then .nan
  else .fin (((if neg then (-1 : ℤ) else 1) * (digitsToNat ds : ℤ) : ℤ) : ℚ)

/-- Model of `parseFloat(s)`: leading whitespace, optional sign, `Infinity`,
or the longest valid prefix `digits [. digits] [e|E [sign] digits]`; NaN when
neither integer nor fraction digits are present.  The decimal value
`sign · (int.frac) · 10^expo` is assembled with integer arithmetic and one
exact division. -/
def parseFloatJS (s : String) : JNum :=
  let cs := skipWs s.data
  let (neg, cs₁) := readSign cs
  match cs₁ with
  | 'I' :: 'n' :: 'f' :: 'i' :: 'n' :: 'i' :: 't' :: 'y' :: _ => .inf (!neg)
  | _ =>
    let (ds, cs₂) := leadDigits cs₁
    let (fs, cs₃) :=
      match cs₂ with
      | '.' :: t => leadDigits t
      | _ => ([], cs₂)
    if ds.isEmpty && fs.isEmpty then .nan
    else
      let sgn : ℤ := if neg then -1 else 1
      let mantNum : ℤ :=
        (digitsToNat ds : ℤ) * (10 : ℤ) ^ fs.length + (digitsToNat fs : ℤ)
      let expo : ℤ :=
        match cs₃ with
        | 'e' :: t =>
          let (eneg, t₁) := readSign t
          let (es, _) := leadDigits t₁
          if es.isEmpty then 0 else (if eneg then -1 else 1) * (digitsToNat es : ℤ)
        | 'E' :: t =>
          let (eneg, t₁) := readSign t
          let (es, _) := leadDigits t₁
          if es.isEmpty then 0 else (if eneg then -1 else 1) * (digitsToNat es : ℤ)
        | _ => 0
      if 0 ≤ expo then
        .fin (Rat.divInt (sgn * mantNum * (10 : ℤ) ^ expo.toNat)
          ((10 : ℤ) ^ fs.length))
      else
        .fin (Rat.divInt (sgn * mantNum)
          ((10 : ℤ) ^ fs.length * (10 : ℤ) ^ (-expo).toNat))

/-- The string-dispatch test of `ColumnStore.set`: `parseFloat` is used
exactly when the string contains a decimal point or exponent marker. -/
def strHasDotE (s : String) : Bool :=
  s.data.any (fun c => c = '.' || c = 'e' || c = 'E')

/-- One step of the `typeof`-switch of `ColumnStore.set` (src lines 152-184):
the element actually stored for a supplied field value, or the error thrown. -/
def writeVal (ft : FieldType) (v : JsValue) : Except CsErr Elem :=
  match v with
  | .big i => if ft.isBig then .ok (.big (wrapBig ft i)) else .error .typeErr
  | .str s =>
    let n := if strHasDotE s then parseFloatJS s else parseIntJS s
    if ft.isBig then .error .typeErr else .ok (.num (coerceJNum ft n))
  | .num x => if ft.isBig then .error .typeErr else .ok (.num (coerceJNum ft x))
  | .bool b =>
    if ft.isBig then .error .typeErr
    else .ok (.num (coerceJNum ft (.fin (if b then 1 else 0))))
  | .undefined =>
    if ft.isBig then .error .typeErr
    else .ok (.num (coerceJNum ft (.fin 0)))
  | .other => .error .unsupported

/-- Conversion performed by the single-element assignment
`dst[indexTarget] = src[indexSrc]` in `ColumnStore.copyFrom`: a raw element
is re-coerced per the destination kind; cross-kind BigInt/number assignments
throw a TypeError. -/
def recoerce (ft : FieldType) (e : Elem) : Except CsErr Elem :=
  match e with
  | .num x => if ft.isBig then .error .typeErr else .ok (.num (coerceJNum ft x))
  | .big i => if ft.isBig then .ok (.big (wrapBig ft i)) else .error .typeErr

/-- Decoding step of `ColumnStore.get` (src lines 215-242) for an in-range
raw element.  The mismatched-kind cases are unreachable for buffers created
by this module and decode to `undef`. -/
def decodeElem : FieldType → Elem → JsValue
  | .bool, .num x => .bool (decide (x ≠ .fin 0))
  | .bi64, .big i => .big i
  | .biu64, .big i => .big i
  | .f16, .num x => .num x
  | .f32, .num x => .num x
  | .f64, .num x => .num x
  | .i8, .num x => .num x
  | .i16, .num x => .num x
  | .i32, .num x => .num x
  | .u8, .num x => .num x
  | .u16, .num x => .num x
  | .u32, .num x => .num x
  | .u8c, .num x => .num x
  | _, _ => .undefined

/-- Value `get` reconstructs for an index at or beyond `size`: the raw value
read is the literal `0`, which decodes per the field kind. -/
def zeroJs (ft : FieldType) : JsValue :=
  match ft with
  | .bool => .bool false
  | .bi64 => .big 0
  | .biu64 => .big 0
  | _ => .num (.fin 0)

/-- Code-point comparison of characters (localeCompare and the default
Array.prototype.sort comparator agree with it on the identifiers used
here). -/
def charLtB (a b : Char) : Bool := a.val.toNat < b.val.toNat

/-- Lexicographic less-or-equal on character lists. -/
def listStrLeB : List Char → List Char → Bool
  | [], _ => true
  | _ :: _, [] => false
  | a :: as, b :: bs =>
    if charLtB a b then true
    else if charLtB b a then false
    else listStrLeB as bs

/-- Model of the string order used by `localeCompare`-based sorting and by
`Array.prototype.sort()` on strings. -/
def strLeB (a b : String) : Bool := listStrLeB a.data b.data

/-- The order as a relation, to instantiate Mathlib's insertion sort. -/
def strLe (a b : String) : Prop := strLeB a b = true

instance : DecidableRel strLe := fun a b =>
  inferInstanceAs (Decidable (strLeB a b = true))

/-- `Array.prototype.join("|")` on the (string) type-id list. -/
def joinBar : List String → String
  | [] => ""
  | [t] => t
  | t :: rest => t ++ "|" ++ joinBar rest

/-- Lookup in an insertion-ordered association list (JS `Map.prototype.get`).
-/
def alGet {κ β : Type} [DecidableEq κ] (m : List (κ × β)) (k : κ) : Option β :=
  match m with
  | [] => none
  | (k', v) :: t => if k' = k then some v else alGet t k

/-- JS `Map.prototype.set`: update in place keeping the entry's position, or
append a new entry. -/
def alSet {κ β : Type} [DecidableEq κ] (m : List (κ × β)) (k : κ) (v : β) :
    List (κ × β) :=
  match m with
  | [] => [(k, v)]
  | (k', v') :: t => if k' = k then (k, v) :: t else (k', v') :: alSet t k v

/-- JS `Map.prototype.delete` (keys are unique in a real Map, so deleting the
first match is exact). -/
def alRemove {κ β : Type} [DecidableEq κ] (m : List (κ × β)) (k : κ) :
    List (κ × β) :=
  match m with
  | [] => []
  | (k', v') :: t => if k' = k then t else (k', v') :: alRemove t k

/-- A component record: a JS object, field name to value.  Missing
properties read as `undefined`. -/
abbrev JsRecord := List (String × JsValue)

/-- JS property access `value[key]`. -/
def recGet (r : JsRecord) (k : String) : JsValue := (alGet r k).getD .undefined

/-- One field of a ColumnStore together with its typed-array buffer; the
store's `typedArrayMap` keyed by schema order. -/
structure SField where
  name : String
  ftype : FieldType
  buf : List Elem
deriving DecidableEq

/-- src/ecs/columnStore.ts `ColumnStore`: one growable homogeneous buffer
per schema field, plus `capacity` and `size`. -/
structure ColumnStore where
  fields : List SField
  capacity : ℕ
  size : ℕ
deriving DecidableEq

/-- The schema the store was built from. -/
def ColumnStore.schema (s : ColumnStore) : List (String × FieldType) :=
  s.fields.map (fun f => (f.name, f.ftype))

/-- The ColumnStore constructor: `capacity = max(initialCapacity, 1)`, one
zero-filled array per schema field, `size = 0`. -/
def ColumnStore.init (schema : List (String × FieldType))
    (initialCapacity : ℕ) : ColumnStore :=
  { fields := schema.map (fun kt =>
      ⟨kt.1, kt.2, List.replicate (max initialCapacity 1) (defaultElem kt.2)⟩)
    capacity := max initialCapacity 1
    size := 0 }

/-- The doubling loop of `ensureCapacity`, with explicit fuel (the loop
terminates for every `capacity ≥ 1`, which `init` guarantees; `minCap` fuel
is always enough since `2 ^ n > n`). -/
def growCapFuel : ℕ → ℕ → ℕ → ℕ
  | 0, cap, _ => cap
  | fuel + 1, cap, minCap =>
    if cap < minCap then growCapFuel fuel (cap * 2) minCap else cap

def growCap (cap minCap : ℕ) : ℕ := growCapFuel minCap cap minCap

/-- `ensureCapacity(minCapacity)`: double `capacity` until it reaches
`minCapacity`, recreating every buffer with the old data copied to the
front.  The mismatched-kind throw in the source is unreachable: the old and
new array of a field are created from the same field type. -/
def ColumnStore.ensureCapacity (s : ColumnStore) (minCap : ℕ) : ColumnStore :=
  if minCap ≤ s.capacity then s
  else
    { fields := s.fields.map (fun f =>
        ⟨f.name, f.ftype,
         f.buf ++ List.replicate (growCap s.capacity minCap - f.buf.length)
           (defaultElem f.ftype)⟩)
      capacity := growCap s.capacity minCap
      size := s.size }

/-- The per-field loop of `ColumnStore.set`: fields already processed stay
written when a later field throws. -/
def setFieldsAux (idx : ℕ) (v : JsRecord) :
    List SField → List SField × Option CsErr
  | [] => ([], none)
  | f :: t =>
    match writeVal f.ftype (recGet v f.name) with
    | .error e => (f :: t, some e)
    | .ok el =>
      let rest := setFieldsAux idx v t
      (⟨f.name, f.ftype, f.buf.set idx el⟩ :: rest.1, rest.2)

/-- `ColumnStore.set(index, value)` (src lines 139-190). -/
def ColumnStore.set (s : ColumnStore) (index : ℤ) (v : JsRecord) :
    ColumnStore × Option CsErr :=
  if index < 0 then (s, some .rangeErr)
  else
    let s₁ := if (s.capacity : ℤ) ≤ index
              then s.ensureCapacity (index.toNat + 1) else s
    let fs := setFieldsAux index.toNat v s₁.fields
    match fs.2 with
    | some e => ({ s₁ with fields := fs.1 }, some e)
    | none =>
      ({ fields := fs.1
         capacity := s₁.capacity
         size := if (s₁.size : ℤ) ≤ index then index.toNat + 1 else s₁.size },
       none)

/-- `ColumnStore.get(index)` (src lines 206-245).  Negative indices are not
range-checked by the source and never exercised by the theorems below; they
are modelled like reads beyond `size`. -/
def ColumnStore.get (s : ColumnStore) (index : ℤ) : JsRecord :=
  s.fields.map (fun f =>
    (f.name,
     if 0 ≤ index ∧ index < (s.size : ℤ)
     then decodeElem f.ftype (f.buf.getD index.toNat (defaultElem f.ftype))
     else zeroJs f.ftype))

/-- `ColumnStore.swapRemove(index)` (src lines 257-276). -/
def ColumnStore.swapRemove (s : ColumnStore) (index : ℤ) :
    ColumnStore × Option CsErr :=
  if index < 0 ∨ (s.size : ℤ) ≤ index then (s, some .outOfRange)
  else
    let last := s.size - 1
    if index.toNat = last then ({ s with size := last }, none)
    else
      ({ fields := s.fields.map (fun f =>
           ⟨f.name, f.ftype,
            f.buf.set index.toNat (f.buf.getD last (defaultElem f.ftype))⟩)
         capacity := s.capacity
         size := last }, none)

/-- The per-field loop of `copyFrom`: each destination slot receives the
source element re-coerced per the destination kind (the JS single-element
assignment); negative target indices write nowhere, as typed arrays ignore
out-of-range keys. -/
def copyFieldsAux (other : ColumnStore) (it is : ℤ) :
    List SField → List SField × Option CsErr
  | [] => ([], none)
  | f :: t =>
    match (other.fields.find? (fun g => g.name = f.name)) with
    | none => (f :: t, some .internalErr)
    | some g =>
      match recoerce f.ftype (g.buf.getD is.toNat (defaultElem g.ftype)) with
      | .error e => (f :: t, some e)
      | .ok el =>
        let rest := copyFieldsAux other it is t
        (⟨f.name, f.ftype,
          if 0 ≤ it then f.buf.set it.toNat el else f.buf⟩ :: rest.1, rest.2)

/-- `ColumnStore.copyFrom(indexTarget, other, indexSrc)` (src lines 292-317).
Note the source grows `this` before validating `indexSrc`. -/
def ColumnStore.copyFrom (s : ColumnStore) (other : ColumnStore)
    (indexTarget indexSrc : ℤ) : ColumnStore × Option CsErr :=
  let s₁ := if (s.capacity : ℤ) ≤ indexTarget
            then s.ensureCapacity (indexTarget.toNat + 1) else s
  if indexSrc < 0 ∨ (other.size : ℤ) ≤ indexSrc then (s₁, some .rangeErr)
  else
    let fs := copyFieldsAux other indexTarget indexSrc s₁.fields
    match fs.2 with
    | some e => ({ s₁ with fields := fs.1 }, some e)
    | none =>
      ({ fields := fs.1
         capacity := s₁.capacity
         size := if (s₁.size : ℤ) ≤ indexTarget
                 then indexTarget.toNat + 1 else s₁.size },
       none)

/-- A component constructor as the engine sees it: a stable `typeId`, an
ordered field schema, and the record produced by the no-argument
construction `new c()`. -/
structure Ctor where
  typeId : String
  schema : List (String × FieldType)
  defaultVal : JsRecord
deriving DecidableEq

/-- Comparator `(a, b) => a.typeId.localeCompare(b.typeId)` as a relation. -/
def ctorLe (a b : Ctor) : Prop := strLeB a.typeId b.typeId = true

instance : DecidableRel ctorLe := fun a b =>
  inferInstanceAs (Decidable (strLeB a.typeId b.typeId = true))

/-- `ctors.slice().sort((a, b) => a.typeId.localeCompare(b.typeId))`: the JS
sort is stable and total on the comparator, so any stable sorting function
computes it; insertion sort is one. -/
def sortCtors (l : List Ctor) : List Ctor := List.insertionSort ctorLe l

/-- `Array.prototype.sort()` on a string array (World.query's `sigSet`). -/
def sortStrings (l : List String) : List String := List.insertionSort strLe l

/-- Entities are bigints. -/
abbrev Entity := ℤ

/-- src/ecs/archetype.ts `Archetype`. -/
structure Archetype where
  ctors : List Ctor
  typeIds : List String
  entityIds : List Entity
  indexByEntity : List (Entity × ℕ)
  stores : List (String × ColumnStore)
deriving DecidableEq

/-- The Archetype constructor (src lines 105-120): sort the constructors by
`typeId`, extract the type ids, build one ColumnStore (default capacity 8)
per constructor, keyed by `typeId` in a Map. -/
def Archetype.init (cs : List Ctor) : Archetype :=
  let sorted := sortCtors cs
  { ctors := sorted
    typeIds := sorted.map Ctor.typeId
    entityIds := []
    indexByEntity := []
    stores := sorted.foldl
      (fun m c => alSet m c.typeId (ColumnStore.init c.schema 8)) [] }

/-- `get signature()`: the type ids joined with `"|"`. -/
def Archetype.signature (a : Archetype) : String := joinBar a.typeIds

/-- `containsTypeId`. -/
def Archetype.containsTypeId (a : Archetype) (t : String) : Bool :=
  a.typeIds.any (fun u => u = t)

/-- `copyConstructorList` (returns a copy; value semantics make the copy
implicit here). -/
def Archetype.copyConstructorList (a : Archetype) : List Ctor := a.ctors

/-- `indexOf`. -/
def Archetype.indexOf (a : Archetype) (e : Entity) : Option ℕ :=
  alGet a.indexByEntity e

/-- `size`. -/
def Archetype.size (a : Archetype) : ℕ := a.entityIds.length

/-- The value stored for constructor `c`: the caller-provided record for its
`typeId`, or a default instance when none was provided. -/
def valFor (vals : List (String × JsRecord)) (c : Ctor) : JsRecord :=
  match alGet vals c.typeId with
  | none => c.defaultVal
  | some r => r

/-- The store-update loop of `Archetype.addEntity`: for each constructor,
write the caller-provided value for its `typeId`, or a default instance when
none was provided; a missing store or a failing `set` throws. -/
def addEntityStores (index : ℕ) (vals : List (String × JsRecord)) :
    List Ctor → List (String × ColumnStore) →
    Option (List (String × ColumnStore))
  | [], m => some m
  | c :: t, m =>
    match alGet m c.typeId with
    | none => none
    | some st =>
      match st.set (index : ℤ) (valFor vals c) with
      | (st', none) => addEntityStores index vals t (alSet m c.typeId st')
      | (_, some _) => none

/-- `Archetype.addEntity(entity, componentValues)` (src lines 179-201): the
new row index is the current length; the entity is appended and indexed, and
every owned store receives the provided or default value at that row. -/
def Archetype.addEntity (a : Archetype) (e : Entity)
    (componentValues : List (String × JsRecord)) : Option Archetype :=
  let index := a.entityIds.length
  (addEntityStores index componentValues a.ctors a.stores).map (fun m =>
    { a with
      entityIds := a.entityIds ++ [e]
      indexByEntity := alSet a.indexByEntity e index
      stores := m })

/-- Apply `swapRemove(idx)` to every store, in map order. -/
def swapRemoveStores (idx : ℕ) :
    List (String × ColumnStore) → Option (List (String × ColumnStore))
  | [] => some []
  | (k, st) :: t =>
    match st.swapRemove (idx : ℤ) with
    | (st', none) => (swapRemoveStores idx t).map (fun r => (k, st') :: r)
    | (_, some _) => none

/-- `Archetype.removeEntity(entity)` (src lines 223-244): no-op when absent;
otherwise swap the last entity into the removed row, pop, fix the moved
entity's index, and swap-remove the row in every store. -/
def Archetype.removeEntity (a : Archetype) (e : Entity) : Option Archetype :=
  match alGet a.indexByEntity e with
  | none => some a
  | some idx =>
    let last := a.entityIds.length - 1
    let lastEntity := a.entityIds.getD last 0
    let ids := (a.entityIds.set idx lastEntity).dropLast
    let m₁ := alRemove a.indexByEntity e
    if idx ≠ last then
      (swapRemoveStores idx a.stores).map (fun ss =>
        { a with
          entityIds := ids
          indexByEntity := alSet m₁ lastEntity idx
          stores := ss })
    else
      (swapRemoveStores last a.stores).map (fun ss =>
        { a with entityIds := ids, indexByEntity := m₁, stores := ss })

/-- `Archetype.getComponentAt(ctor, index)`: a missing store throws
(`none`); otherwise delegate to the store's `get`. -/
def Archetype.getComponentAt (a : Archetype) (c : Ctor) (index : ℤ) :
    Option JsRecord :=
  (alGet a.stores c.typeId).map (fun st => st.get index)

/-- `Archetype.copyEntityTo(indexSrc, target)` (src lines 293-312): build a
`typeId → value` map over the target's constructors, reading present types
from this archetype's stores and default-constructing the rest. -/
def Archetype.copyEntityTo (a : Archetype) (indexSrc : ℤ)
    (target : Archetype) : List (String × JsRecord) :=
  target.ctors.foldl (fun out c =>
    match alGet a.stores c.typeId with
    | none => alSet out c.typeId c.defaultVal
    | some st => alSet out c.typeId (st.get indexSrc)) []

/-- src/ecs/world.ts `World`.  Archetype references held by
`entityArchetype` are modelled by signature key into
`archetypeBySignature`, the map every World-reachable archetype lives in. -/
structure World where
  nextEntityId : Entity
  entityArchetype : List (Entity × String)
  archetypeBySignature : List (String × Archetype)
deriving DecidableEq

/-- The World constructor: empty maps, ids start at `1n`. -/
def World.init : World := ⟨1, [], []⟩

/-- `createEntity()`. -/
def World.createEntity (w : World) : Entity × World :=
  (w.nextEntityId, { w with nextEntityId := w.nextEntityId + 1 })

/-- `getOrCreateArchetype(ctors)` (src lines 125-137): canonical signature
from the sorted type ids, reuse the cached archetype or create and cache a
new one.  Returns the signature, which keys the returned archetype. -/
def World.getOrCreateArchetype (w : World) (ctors : List Ctor) :
    String × World :=
  let tmp := sortCtors ctors
  let sig := joinBar (tmp.map Ctor.typeId)
  match alGet w.archetypeBySignature sig with
  | some _ => (sig, w)
  | none =>
    (sig, { w with archetypeBySignature :=
              alSet w.archetypeBySignature sig (Archetype.init tmp) })

/-- Write back a mutated archetype object. -/
def World.updateArchetype (w : World) (sig : String) (a : Archetype) :
    World :=
  { w with archetypeBySignature := alSet w.archetypeBySignature sig a }

/-- `addEntityWithComponents(entity, components)` (src lines 155-169). -/
def World.addEntityWithComponents (w : World) (e : Entity)
    (components : List (Ctor × JsRecord)) : Option World :=
  let ctors := components.map Prod.fst
  let res := w.getOrCreateArchetype ctors
  let mapValues := components.foldl (fun m kv => alSet m kv.1.typeId kv.2) []
  match alGet res.2.archetypeBySignature res.1 with
  | none => none
  | some arch =>
    (arch.addEntity e mapValues).map (fun arch' =>
      let w₂ := res.2.updateArchetype res.1 arch'
      { w₂ with entityArchetype := alSet w₂.entityArchetype e res.1 })

/-- `addComponent(entity, ctor, value)` (src lines 201-255).  The source's
same-signature and different-signature branches execute identical
statements, so they are modelled once.  Archetype objects are re-read from
the signature map after each write-back, which reproduces the aliasing of
`current` and `target` when the signatures coincide. -/
def World.addComponent (w : World) (e : Entity) (c : Ctor)
    (value : JsRecord) : Option World :=
  match alGet w.entityArchetype e with
  | none =>
    let res := w.getOrCreateArchetype [c]
    match alGet res.2.archetypeBySignature res.1 with
    | none => none
    | some target =>
      (target.addEntity e [(c.typeId, value)]).map (fun t' =>
        let w₂ := res.2.updateArchetype res.1 t'
        { w₂ with entityArchetype := alSet w₂.entityArchetype e res.1 })
  | some curSig =>
    match alGet w.archetypeBySignature curSig with
    | none => none
    | some current =>
      let curCtors := current.copyConstructorList
      let newCtors :=
        if curCtors.any (fun d => d.typeId = c.typeId)
        then curCtors else curCtors ++ [c]
      let res := w.getOrCreateArchetype newCtors
      match alGet res.2.archetypeBySignature res.1 with
      | none => none
      | some target =>
        match alGet current.indexByEntity e with
        | none => none
        | some idx =>
          let values :=
            alSet (current.copyEntityTo (idx : ℤ) target) c.typeId value
          match current.removeEntity e with
          | none => none
          | some current' =>
            let w₂ := res.2.updateArchetype curSig current'
            match alGet w₂.archetypeBySignature res.1 with
            | none => none
            | some target₂ =>
              (target₂.addEntity e values).map (fun t' =>
                let w₃ := w₂.updateArchetype res.1 t'
                { w₃ with
                    entityArchetype := alSet w₃.entityArchetype e res.1 })

/-- `removeComponent(entity, ctor)` (src lines 280-306).  When the entity's
row cannot be resolved the source returns after `getOrCreateArchetype` has
already run, keeping any newly cached archetype. -/
def World.removeComponent (w : World) (e : Entity) (c : Ctor) :
    Option World :=
  match alGet w.entityArchetype e with
  | none => some w
  | some curSig =>
    match alGet w.archetypeBySignature curSig with
    | none => none
    | some current =>
      if ¬ current.containsTypeId c.typeId then some w
      else
        let newCtors :=
          current.copyConstructorList.filter (fun d => ¬ d.typeId = c.typeId)
        let res := w.getOrCreateArchetype newCtors
        match alGet current.indexByEntity e with
        | none => some res.2
        | some idx =>
          match alGet res.2.archetypeBySignature res.1 with
          | none => none
          | some target =>
            let values := current.copyEntityTo (idx : ℤ) target
            match current.removeEntity e with
            | none => none
            | some current' =>
              let w₂ := res.2.updateArchetype curSig current'
              match alGet w₂.archetypeBySignature res.1 with
              | none => none
              | some target₂ =>
                (target₂.addEntity e values).map (fun t' =>
                  let w₃ := w₂.updateArchetype res.1 t'
                  { w₃ with
                      entityArchetype := alSet w₃.entityArchetype e res.1 })

/-- `destroyEntity(entity)` (src lines 323-330). -/
def World.destroyEntity (w : World) (e : Entity) : Option World :=
  match alGet w.entityArchetype e with
  | none => some w
  | some sig =>
    match alGet w.archetypeBySignature sig with
    | none => none
    | some current =>
      (current.removeEntity e).map (fun current' =>
        let w₁ := w.updateArchetype sig current'
        { w₁ with entityArchetype := alRemove w₁.entityArchetype e })

/-- `getComponent(entity, ctor)` (src lines 408-424): `none` models both the
explicit absence results and the unreachable missing-store throw. -/
def World.getComponent (w : World) (e : Entity) (c : Ctor) :
    Option JsRecord :=
  match alGet w.entityArchetype e with
  | none => none
  | some sig =>
    match alGet w.archetypeBySignature sig with
    | none => none
    | some current =>
      match alGet current.indexByEntity e with
      | none => none
      | some idx =>
        if current.containsTypeId c.typeId
        then current.getComponentAt c (idx : ℤ)
        else none

/-- Rows a single matching archetype contributes to a query: every occupied
row in physical order, each component read in the order the constructors
were passed. -/
def queryArch (ctors : List Ctor) (a : Archetype) :
    Option (List (Entity × List JsRecord)) :=
  a.entityIds.enum.mapM (fun ie =>
    (ctors.mapM (fun c => a.getComponentAt c (ie.1 : ℤ))).map
      (fun comps => (ie.2, comps)))

/-- `query(...ctors)` (src lines 351-389): sort the requested type ids, keep
archetypes containing them all, and emit one result per occupied row with
the component tuple in argument order. -/
def World.query (w : World) (ctors : List Ctor) :
    Option (List (Entity × List JsRecord)) :=
  let sigSet := sortStrings (ctors.map Ctor.typeId)
  (w.archetypeBySignature.mapM (fun p =>
    if sigSet.all (fun s => p.2.containsTypeId s)
    then queryArch ctors p.2
    else some [])).map List.flatten

/-- An element is faithful to its field kind: re-coercing it per the kind
returns it unchanged.  Every freshly created element and every element
written by `set`/`copyFrom` satisfies this. -/
def elemWF (ft : FieldType) (e : Elem) : Prop := recoerce ft e = .ok e

/-- Well-formedness of one field's buffer relative to the store capacity. -/
def SField.WF (cap : ℕ) (f : SField) : Prop :=
  f.buf.length = cap ∧ ∀ e ∈ f.buf, elemWF f.ftype e

/-- ColumnStore invariant: positive capacity, `size ≤ capacity`, unique field
names (a JS schema is an object, so its keys are unique), and every buffer
allocated at `capacity` with kind-faithful elements. -/
def ColumnStore.WF (s : ColumnStore) : Prop :=
  1 ≤ s.capacity ∧ s.size ≤ s.capacity ∧
  (s.fields.map SField.name).Nodup ∧
  ∀ f ∈ s.fields, SField.WF s.capacity f

/-- Archetype invariant, as stated in the specification: canonical sorted
type-id list; duplicate-free entity rows; `indexByEntity` holding exactly
the pairs `(entityIds[i], i)`; one store per constructor (in order), sharing
its schema, well-formed, and sized to the entity count. -/
def Archetype.WF (a : Archetype) : Prop :=
  a.typeIds = a.ctors.map Ctor.typeId ∧
  List.Pairwise strLe a.typeIds ∧
  a.typeIds.Nodup ∧
  a.entityIds.Nodup ∧
  (a.indexByEntity.map Prod.fst).Nodup ∧
  (∀ p ∈ a.indexByEntity,
    p.2 < a.entityIds.length ∧ a.entityIds.getD p.2 0 = p.1) ∧
  (∀ q ∈ a.entityIds.enum, alGet a.indexByEntity q.2 = some q.1) ∧
  a.stores.map Prod.fst = a.typeIds ∧
  (∀ p ∈ a.stores, p.2.WF ∧ p.2.size = a.entityIds.length) ∧
  (∀ c ∈ a.ctors, ∃ st, alGet a.stores c.typeId = some st ∧
    st.schema = c.schema)

/-- World invariant: unique directory keys; every cached archetype
well-formed and keyed by its own signature; every directory entry backed by
a row of its archetype; every stored row owned by the directory. -/
def World.WF (w : World) : Prop :=
  (w.entityArchetype.map Prod.fst).Nodup ∧
  (w.archetypeBySignature.map Prod.fst).Nodup ∧
  (∀ p ∈ w.archetypeBySignature, p.2.WF ∧ p.2.signature = p.1) ∧
  (∀ q ∈ w.entityArchetype, ∃ p ∈ w.archetypeBySignature,
    p.1 = q.2 ∧ q.1 ∈ p.2.entityIds) ∧
  (∀ p ∈ w.archetypeBySignature, ∀ e ∈ p.2.entityIds,
    alGet w.entityArchetype e = some p.1)

/-- A type id that keys signatures unambiguously: nonempty and free of the
separator character. -/
def pipeFreeT (t : String) : Prop := t ≠ "" ∧ '|' ∉ t.data

/-- No type id cached anywhere in the world contains the separator, so
signatures decompose uniquely. -/
def World.PipeFree (w : World) : Prop :=
  ∀ p ∈ w.archetypeBySignature, ∀ t ∈ p.2.typeIds, pipeFreeT t

/-- The constructors of every cached archetype. -/
def World.allCtors (w : World) : List Ctor :=
  (w.archetypeBySignature.map (fun p => p.2.ctors)).flatten

/-- Type ids are stable unique identifiers: within the given pool, equal
`typeId` means the same component type. -/
def CtorsCoherent (cs : List Ctor) : Prop :=
  ∀ c₁ ∈ cs, ∀ c₂ ∈ cs, c₁.typeId = c₂.typeId → c₁ = c₂

/-- All entities currently stored in some archetype row. -/
def World.storedEntities (w : World) : List Entity :=
  (w.archetypeBySignature.map (fun p => p.2.entityIds)).flatten

/- Concrete component types and worlds used by witnesses and
counterexamples. -/

/-- A `Position {x: f32, y: f32}` component type (mirrors the repository's
test components). -/
def cPos : Ctor :=
  ⟨"Position", [("x", .f32), ("y", .f32)],
   [("x", .num (.fin 0)), ("y", .num (.fin 0))]⟩

/-- A `Velocity {vx: f32, vy: f32}` component type. -/
def cVel : Ctor :=
  ⟨"Velocity", [("vx", .f32), ("vy", .f32)],
   [("vx", .num (.fin 0)), ("vy", .num (.fin 0))]⟩

/-- A `Health {hp: f32}` component type. -/
def cHp : Ctor := ⟨"Health", [("hp", .f32)], [("hp", .num (.fin 100))]⟩

def vPos : JsRecord := [("x", .num (.fin 5)), ("y", .num (.fin 7))]
def vVel : JsRecord := [("vx", .num (.fin 1)), ("vy", .num (.fin 2))]
def vHp : JsRecord := [("hp", .num (.fin 80))]

/-- Component types with single-letter ids, plus one whose id contains the
signature separator `|` — legal per the component contract, and the source
never forbids it. -/
def cA : Ctor := ⟨"a", [("x", .f64)], [("x", .num (.fin 0))]⟩
def cB : Ctor := ⟨"b", [("y", .f64)], [("y", .num (.fin 0))]⟩
def cC : Ctor := ⟨"c", [("z", .f64)], [("z", .num (.fin 0))]⟩
def cBC : Ctor := ⟨"b|c", [("w", .f64)], [("w", .num (.fin 0))]⟩

def vA : JsRecord := [("x", .num (.fin 3))]
def vB : JsRecord := [("y", .num (.fin 7))]
def vC : JsRecord := [("z", .num (.fin 9))]
def vBC : JsRecord := [("w", .num (.fin 4))]

/-- World holding entity 1 with `{a, b|c}` — its archetype is cached under
the signature `"a|b|c"` — and entity 2 with `{a, b}`. -/
def wColl : World :=
  ((World.init.addEntityWithComponents 1 [(cA, vA), (cBC, vBC)]).bind
    (fun w => w.addEntityWithComponents 2 [(cA, vA), (cB, vB)])).getD
    World.init

/-- World with entity 1 double-inserted into the `Position` archetype by
calling `addEntityWithComponents` twice with the same id. -/
def wDup : World :=
  ((World.init.addEntityWithComponents 1 [(cPos, vPos)]).bind
    (fun w => w.addEntityWithComponents 1 [(cPos, vPos)])).getD World.init

/-- Well-formed world with a single entity owning `{Position, Velocity}`. -/
def wPV : World :=
  (World.init.addEntityWithComponents 1 [(cPos, vPos), (cVel, vVel)]).getD
    World.init

/-- A mixed-kind schema exercising each coercion rule of claim C4. -/
def mixSchema : List (String × FieldType) :=
  [("b", .bool), ("n", .bi64), ("f", .f64), ("i", .i32)]

def mixStore : ColumnStore := ColumnStore.init mixSchema 8

def mixVal : JsRecord :=
  [("b", .bool true), ("n", .big 1234), ("f", .str "3.5"), ("i", .str "42")]

instance : DecidableEq (Except CsErr Elem) := fun x y =>
  match x, y with
  | .ok a, .ok b => decidable_of_iff (a = b) (by simp)
  | .error a, .error b => decidable_of_iff (a = b) (by simp)
  | .ok _, .error _ => isFalse (by simp)
  | .error _, .ok _ => isFalse (by simp)

instance (ft : FieldType) (e : Elem) : Decidable (elemWF ft e) :=
  inferInstanceAs (Decidable (recoerce ft e = .ok e))

instance (cap : ℕ) (f : SField) : Decidable (SField.WF cap f) :=
  inferInstanceAs
    (Decidable (f.buf.length = cap ∧ ∀ e ∈ f.buf, elemWF f.ftype e))

instance (s : ColumnStore) : Decidable s.WF :=
  inferInstanceAs (Decidable (1 ≤ s.capacity ∧ s.size ≤ s.capacity ∧
    (s.fields.map SField.name).Nodup ∧
    ∀ f ∈ s.fields, SField.WF s.capacity f))

instance (a : Archetype) : Decidable a.WF :=
  inferInstanceAs (Decidable (a.typeIds = a.ctors.map Ctor.typeId ∧
    List.Pairwise strLe a.typeIds ∧
    a.typeIds.Nodup ∧
    a.entityIds.Nodup ∧
    (a.indexByEntity.map Prod.fst).Nodup ∧
    (∀ p ∈ a.indexByEntity,
      p.2 < a.entityIds.length ∧ a.entityIds.getD p.2 0 = p.1) ∧
    (∀ q ∈ a.entityIds.enum, alGet a.indexByEntity q.2 = some q.1) ∧
    a.stores.map Prod.fst = a.typeIds ∧
    (∀ p ∈ a.stores, p.2.WF ∧ p.2.size = a.entityIds.length) ∧
    (∀ c ∈ a.ctors, ∃ st, alGet a.stores c.typeId = some st ∧
      st.schema = c.schema)))

instance (w : World) : Decidable w.WF :=
  inferInstanceAs (Decidable ((w.entityArchetype.map Prod.fst).Nodup ∧
    (w.archetypeBySignature.map Prod.fst).Nodup ∧
    (∀ p ∈ w.archetypeBySignature, p.2.WF ∧ p.2.signature = p.1) ∧
    (∀ q ∈ w.entityArchetype, ∃ p ∈ w.archetypeBySignature,
      p.1 = q.2 ∧ q.1 ∈ p.2.entityIds) ∧
    (∀ p ∈ w.archetypeBySignature, ∀ e ∈ p.2.entityIds,
      alGet w.entityArchetype e = some p.1)))

instance (t : String) : Decidable (pipeFreeT t) :=
  inferInstanceAs (Decidable (t ≠ "" ∧ '|' ∉ t.data))

instance (w : World) : Decidable w.PipeFree :=
  inferInstanceAs
    (Decidable (∀ p ∈ w.archetypeBySignature, ∀ t ∈ p.2.typeIds, pipeFreeT t))

instance (cs : List Ctor) : Decidable (CtorsCoherent cs) :=
  inferInstanceAs
    (Decidable (∀ c₁ ∈ cs, ∀ c₂ ∈ cs, c₁.typeId = c₂.typeId → c₁ = c₂))

/-- Total extraction of a successful write (used to state the effect of a
successful `set`). -/
def writeValD (ft : FieldType) (v : JsValue) : Elem :=
  match writeVal ft v with
  | .ok e => e
  | .error _ => defaultElem ft

/-- An archetype matches a requested type set when its signature is a
superset of it. -/
def archMatches (ts : List String) (a : Archetype) : Prop :=
  ∀ t ∈ ts, t ∈ a.typeIds

instance (ts : List String) (a : Archetype) : Decidable (archMatches ts a) :=
  inferInstanceAs (Decidable (∀ t ∈ ts, t ∈ a.typeIds))

/-- The intermediate store after the capacity check of `set`/`copyFrom`. -/
def preGrow (s : ColumnStore) (index : ℤ) : ColumnStore :=
  if (s.capacity : ℤ) ≤ index then s.ensureCapacity (index.toNat + 1) else s

/-- The store produced by a successful `set` at natural index `i` (the
error-free branch of `ColumnStore.set`). -/
def setResult (s : ColumnStore) (i : ℕ) (v : JsRecord) : ColumnStore :=
  { fields := (setFieldsAux i v (preGrow s (i : ℤ)).fields).1
    capacity := (preGrow s (i : ℤ)).capacity
    size := if ((preGrow s (i : ℤ)).size : ℤ) ≤ (i : ℤ) then i + 1
            else (preGrow s (i : ℤ)).size }

/-- The value `copyEntityTo` produces for one target constructor: the source
row's record when the source owns the type, the default instance otherwise.
-/
def copyVal (a : Archetype) (indexSrc : ℤ) (c : Ctor) : JsRecord :=
  match alGet a.stores c.typeId with
  | none => c.defaultVal
  | some st => st.get indexSrc

/-- `getComponentAt` with the (unreachable under a present store) `none`
defaulted away; used to state query results totally. -/
def compAtD (a : Archetype) (c : Ctor) (i : ℤ) : JsRecord :=
  (a.getComponentAt c i).getD []

/-- The rows one matching archetype contributes to `query`. -/
def queryRowsArch (ctors : List Ctor) (a : Archetype) :
    List (Entity × List JsRecord) :=
  a.entityIds.enum.map (fun ie =>
    (ie.2, ctors.map (fun c => compAtD a c (ie.1 : ℤ))))

/-- The full result list of a successful `query`. -/
def queryRows (w : World) (ctors : List Ctor) :
    List (Entity × List JsRecord) :=
  (w.archetypeBySignature.map (fun p =>
    if (sortStrings (ctors.map Ctor.typeId)).all
        (fun s => p.2.containsTypeId s)
      then queryRowsArch ctors p.2
      else [])).flatten

/-- The canonical signature `getOrCreateArchetype` computes for a
constructor list. -/
def sigOf (cs : List Ctor) : String :=
  joinBar ((sortCtors cs).map Ctor.typeId)

/-- The `{Position, Velocity}` archetype cached in `wPV`. -/
def archPV : Archetype :=
  (alGet wPV.archetypeBySignature "Position|Velocity").getD
    (Archetype.init [])

/-- A store with a single float field, for the exponent-marker parse rule. -/
def expStore : ColumnStore := ColumnStore.init [("f", .f64)] 4

def expVal : JsRecord := [("f", .str "12e1")]

/-- The `Position` archetype of `wDup`, holding entity 1 twice. -/
def archDup : Archetype :=
  (alGet wDup.archetypeBySignature "Position").getD (Archetype.init [])

/- Association-list lemmas (JS `Map` semantics). -/

/-- The entity list `removeEntity` produces: last entity swapped into the
removed row, then the last slot popped.  Abbreviation for the expression in
`Archetype.removeEntity`, used to characterize it. -/
def removedIds (ids : List Entity) (idx : ℕ) : List Entity :=
  (ids.set idx (ids.getD (ids.length - 1) 0)).dropLast

theorem alGet_alSet_self {κ β : Type} [DecidableEq κ]
    (m : List (κ × β)) (k : κ) (v : β) : alGet (alSet m k v) k = some v := by
  induction m with
  | nil => simp [alSet, alGet]
  | cons p t ih =>
    by_cases h : p.1 = k
    · simp [alSet, h, alGet]
    · simp [alSet, h, alGet, ih]

theorem alGet_alSet_ne {κ β : Type} [DecidableEq κ]
    (m : List (κ × β)) (k k' : κ) (v : β) (h : k ≠ k') :
    alGet (alSet m k v) k' = alGet m k' := by
  induction m with
  | nil => simp [alSet, alGet, h]
  | cons p t ih =>
    by_cases hp : p.1 = k
    · simp [alSet, hp, alGet, h]
    · simp [alSet, hp, alGet, ih]

theorem alGet_alRemove_ne {κ β : Type} [DecidableEq κ]
    (m : List (κ × β)) (k k' : κ) (h : k ≠ k') :
    alGet (alRemove m k) k' = alGet m k' := by
  induction m with
  | nil => simp [alRemove, alGet]
  | cons p t ih =>
    by_cases hp : p.1 = k
    · simp [alRemove, hp, alGet, h]
    · simp [alRemove, hp, alGet, ih]

theorem mem_of_alGet_eq_some {κ β : Type} [DecidableEq κ]
    {m : List (κ × β)} {k : κ} {v : β} (h : alGet m k = some v) :
    (k, v) ∈ m := by
  induction m with
  | nil => simp [alGet] at h
  | cons p t ih =>
    by_cases hp : p.1 = k
    · obtain ⟨k1, v1⟩ := p
      subst hp
      simp [alGet] at h
      subst h
      exact List.mem_cons_self _ _
    · simp [alGet, hp] at h
      exact List.mem_cons_of_mem _ (ih h)

theorem alGet_eq_none_iff {κ β : Type} [DecidableEq κ]
    (m : List (κ × β)) (k : κ) :
    alGet m k = none ↔ k ∉ m.map Prod.fst := by
  induction m with
  | nil => simp [alGet]
  | cons p t ih =>
    by_cases hp : p.1 = k
    · simp [alGet, hp]
    · simp [alGet, hp, ih, Ne.symm hp]

theorem alGet_isSome_iff {κ β : Type} [DecidableEq κ]
    (m : List (κ × β)) (k : κ) :
    (alGet m k).isSome ↔ k ∈ m.map Prod.fst := by
  rcases h : alGet m k with _ | v
  · simp [(alGet_eq_none_iff m k).1 h]
  · simp only [Option.isSome_some, true_iff]
    exact List.mem_map_of_mem Prod.fst (mem_of_alGet_eq_some h)

theorem alGet_eq_some_of_mem {κ β : Type} [DecidableEq κ]
    {m : List (κ × β)} (hn : (m.map Prod.fst).Nodup)
    {k : κ} {v : β} (h : (k, v) ∈ m) : alGet m k = some v := by
  induction m with
  | nil => simp at h
  | cons p t ih =>
    simp only [List.map_cons, List.nodup_cons] at hn
    rcases List.mem_cons.1 h with h₁ | h₂
    · subst h₁
      simp [alGet]
    · have hk : p.1 ≠ k := by
        intro hk
        exact hn.1 (hk ▸ List.mem_map_of_mem Prod.fst h₂)
      simp [alGet, hk, ih hn.2 h₂]

theorem alGet_eq_some_iff_mem {κ β : Type} [DecidableEq κ]
    {m : List (κ × β)} (hn : (m.map Prod.fst).Nodup) (k : κ) (v : β) :
    alGet m k = some v ↔ (k, v) ∈ m :=
  ⟨mem_of_alGet_eq_some, alGet_eq_some_of_mem hn⟩

theorem alSet_not_mem_eq_append {κ β : Type} [DecidableEq κ]
    {m : List (κ × β)} {k : κ} (h : k ∉ m.map Prod.fst) (v : β) :
    alSet m k v = m ++ [(k, v)] := by
  induction m with
  | nil => simp [alSet]
  | cons p t ih =>
    simp only [List.map_cons, List.mem_cons] at h
    push_neg at h
    simp [alSet, Ne.symm h.1, ih h.2]

theorem map_fst_alSet {κ β : Type} [DecidableEq κ]
    (m : List (κ × β)) (k : κ) (v : β) :
    (alSet m k v).map Prod.fst =
      if k ∈ m.map Prod.fst then m.map Prod.fst
      else m.map Prod.fst ++ [k] := by
  induction m with
  | nil => simp [alSet]
  | cons p t ih =>
    by_cases hp : p.1 = k
    · simp [alSet, hp]
    · simp only [alSet, if_neg hp, List.map_cons, ih, Ne.symm hp]
      by_cases hm : k ∈ t.map Prod.fst <;> simp [hm, Ne.symm hp]

theorem nodup_map_fst_alSet {κ β : Type} [DecidableEq κ]
    {m : List (κ × β)} (hn : (m.map Prod.fst).Nodup) (k : κ) (v : β) :
    ((alSet m k v).map Prod.fst).Nodup := by
  rw [map_fst_alSet]
  by_cases hm : k ∈ m.map Prod.fst
  · simpa [hm] using hn
  · simp only [hm, if_false]
    simpa [List.nodup_append, hm] using hn

theorem alRemove_sublist {κ β : Type} [DecidableEq κ]
    (m : List (κ × β)) (k : κ) : (alRemove m k).Sublist m := by
  induction m with
  | nil => simp [alRemove]
  | cons p t ih =>
    by_cases hp : p.1 = k
    · rw [alRemove, if_pos hp]
      exact List.sublist_cons_self p t
    · simpa [alRemove, hp] using ih.cons₂ p

theorem nodup_map_fst_alRemove {κ β : Type} [DecidableEq κ]
    {m : List (κ × β)} (hn : (m.map Prod.fst).Nodup) (k : κ) :
    ((alRemove m k).map Prod.fst).Nodup :=
  (((alRemove_sublist m k).map Prod.fst).nodup hn)

theorem alGet_alRemove_self {κ β : Type} [DecidableEq κ]
    {m : List (κ × β)} (hn : (m.map Prod.fst).Nodup) (k : κ) :
    alGet (alRemove m k) k = none := by
  induction m with
  | nil => simp [alRemove, alGet]
  | cons p t ih =>
    simp only [List.map_cons, List.nodup_cons] at hn
    by_cases hp : p.1 = k
    · rw [alRemove, if_pos hp, alGet_eq_none_iff]
      exact hp ▸ hn.1
    · simp [alRemove, hp, alGet, ih hn.2]

/- String order: totality, transitivity, antisymmetry of the code-point
lexicographic comparison, and the instances insertion sort needs. -/

theorem charEq_of_toNat {a b : Char} (h : a.val.toNat = b.val.toNat) :
    a = b := Char.ext (UInt32.ext h)

theorem listStrLeB_total (a b : List Char) :
    listStrLeB a b = true ∨ listStrLeB b a = true := by
  induction a generalizing b with
  | nil => left; simp [listStrLeB]
  | cons x xs ih =>
    cases b with
    | nil => right; simp [listStrLeB]
    | cons y ys =>
      by_cases h₁ : charLtB x y
      · left; simp [listStrLeB, h₁]
      · by_cases h₂ : charLtB y x
        · right; simp [listStrLeB, h₂]
        · rcases ih ys with h | h
          · left; simp [listStrLeB, h₁, h₂, h]
          · right; simp [listStrLeB, h₁, h₂, h]

theorem listStrLeB_cons_cons (x y : Char) (xs ys : List Char) :
    listStrLeB (x :: xs) (y :: ys) = true ↔
      (x.val.toNat < y.val.toNat ∨
       (x.val.toNat = y.val.toNat ∧ listStrLeB xs ys = true)) := by
  simp only [listStrLeB, charLtB]
  by_cases h1 : x.val.toNat < y.val.toNat
  · simp [h1]
  · by_cases h2 : y.val.toNat < x.val.toNat
    · simp [h1, h2]
      omega
    · simp [h1, h2]
      omega

theorem listStrLeB_trans {a b c : List Char} (h1 : listStrLeB a b = true)
    (h2 : listStrLeB b c = true) : listStrLeB a c = true := by
  induction a generalizing b c with
  | nil => simp [listStrLeB]
  | cons x xs ih =>
    cases b with
    | nil => simp [listStrLeB] at h1
    | cons y ys =>
      cases c with
      | nil => simp [listStrLeB] at h2
      | cons z zs =>
        rw [listStrLeB_cons_cons] at h1 h2 ⊢
        rcases h1 with h1 | ⟨h1e, h1r⟩
        · rcases h2 with h2 | ⟨h2e, _⟩
          · left; omega
          · left; omega
        · rcases h2 with h2 | ⟨h2e, h2r⟩
          · left; omega
          · right
            exact ⟨by omega, ih h1r h2r⟩

theorem listStrLeB_antisymm {a b : List Char} (h1 : listStrLeB a b = true)
    (h2 : listStrLeB b a = true) : a = b := by
  induction a generalizing b with
  | nil =>
    cases b with
    | nil => rfl
    | cons y ys => simp [listStrLeB] at h2
  | cons x xs ih =>
    cases b with
    | nil => simp [listStrLeB] at h1
    | cons y ys =>
      rw [listStrLeB_cons_cons] at h1 h2
      rcases h1 with h1 | ⟨h1e, h1r⟩
      · rcases h2 with h2 | ⟨h2e, _⟩
        · omega
        · omega
      · rcases h2 with h2 | ⟨h2e, h2r⟩
        · omega
        · rw [charEq_of_toNat h1e, ih h1r h2r]

theorem strLeB_total (a b : String) : strLeB a b = true ∨ strLeB b a = true :=
  listStrLeB_total a.data b.data

theorem strLeB_trans {a b c : String} (h₁ : strLeB a b = true)
    (h₂ : strLeB b c = true) : strLeB a c = true :=
  listStrLeB_trans h₁ h₂

theorem strLeB_antisymm {a b : String} (h₁ : strLeB a b = true)
    (h₂ : strLeB b a = true) : a = b :=
  String.ext (listStrLeB_antisymm h₁ h₂)

instance : IsTotal String strLe := ⟨strLeB_total⟩

instance : IsTrans String strLe := ⟨fun _ _ _ => strLeB_trans⟩

instance : IsAntisymm String strLe := ⟨fun _ _ => strLeB_antisymm⟩

instance : IsTotal Ctor ctorLe := ⟨fun a b => strLeB_total a.typeId b.typeId⟩

instance : IsTrans Ctor ctorLe := ⟨fun _ _ _ => strLeB_trans⟩

/- Sorting: the canonicalization used by Archetype's constructor,
`getOrCreateArchetype` and `query`. -/

theorem sortCtors_perm (l : List Ctor) : (sortCtors l).Perm l :=
  List.perm_insertionSort ctorLe l

theorem sortCtors_sorted (l : List Ctor) : List.Pairwise ctorLe (sortCtors l) :=
  List.sorted_insertionSort ctorLe l

theorem sortStrings_perm (l : List String) : (sortStrings l).Perm l :=
  List.perm_insertionSort strLe l

theorem sortStrings_sorted (l : List String) :
    List.Pairwise strLe (sortStrings l) :=
  List.sorted_insertionSort strLe l

theorem sortCtors_map_sorted (l : List Ctor) :
    List.Pairwise strLe ((sortCtors l).map Ctor.typeId) :=
  List.Pairwise.map Ctor.typeId (fun _ _ h => h) (sortCtors_sorted l)

/-- Sorting a permutation of a string list gives the same list. -/
theorem sortStrings_eq_of_perm {l₁ l₂ : List String} (h : l₁.Perm l₂) :
    sortStrings l₁ = sortStrings l₂ :=
  List.eq_of_perm_of_sorted
    (((sortStrings_perm l₁).trans h).trans (sortStrings_perm l₂).symm)
    (sortStrings_sorted l₁) (sortStrings_sorted l₂)

/-- Permuting the constructor list does not change the sorted type-id
list. -/
theorem sortCtors_map_eq_of_perm {l₁ l₂ : List Ctor} (h : l₁.Perm l₂) :
    (sortCtors l₁).map Ctor.typeId = (sortCtors l₂).map Ctor.typeId :=
  List.eq_of_perm_of_sorted
    ((((sortCtors_perm l₁).map Ctor.typeId).trans (h.map Ctor.typeId)).trans
      ((sortCtors_perm l₂).map Ctor.typeId).symm)
    (sortCtors_map_sorted l₁) (sortCtors_map_sorted l₂)

/- Signature strings: `joinBar` is injective on separator-safe type-id
lists, so the signature cache keys archetypes uniquely exactly when type
ids are nonempty and `|`-free. -/

theorem pipe_append_inj :
    ∀ {a₁ a₂ r₁ r₂ : List Char}, '|' ∉ a₁ → '|' ∉ a₂ →
    a₁ ++ '|' :: r₁ = a₂ ++ '|' :: r₂ → a₁ = a₂ ∧ r₁ = r₂ := by
  intro a₁
  induction a₁ with
  | nil =>
    intro a₂ r₁ r₂ _ h₂ h
    cases a₂ with
    | nil => simpa using h
    | cons c t =>
      simp only [List.nil_append, List.cons_append, List.cons_eq_cons] at h
      exact absurd (h.1 ▸ List.mem_cons_self c t) h₂
  | cons c t ih =>
    intro a₂ r₁ r₂ h₁ h₂ h
    cases a₂ with
    | nil =>
      simp only [List.nil_append, List.cons_append, List.cons_eq_cons] at h
      exact absurd (h.1 ▸ List.mem_cons_self c t) h₁
    | cons c' t' =>
      simp only [List.cons_append, List.cons_eq_cons] at h
      have ht := ih (fun hm => h₁ (List.mem_cons_of_mem c hm))
        (fun hm => h₂ (List.mem_cons_of_mem c' hm)) h.2
      exact ⟨by rw [h.1, ht.1], ht.2⟩

theorem joinBar_cons_cons (t x : String) (xs : List String) :
    (joinBar (t :: x :: xs)).data =
      t.data ++ '|' :: (joinBar (x :: xs)).data := by
  show (t ++ "|" ++ joinBar (x :: xs)).data = _
  simp [String.data_append]

theorem joinBar_ne_empty {l : List String} (hp : ∀ t ∈ l, pipeFreeT t)
    (hl : l ≠ []) : joinBar l ≠ "" := by
  match l with
  | [] => exact absurd rfl hl
  | [t] => exact (hp t (by simp)).1
  | t :: x :: xs =>
    intro h
    have hd := congrArg String.data h
    rw [joinBar_cons_cons] at hd
    simp at hd

theorem joinBar_inj :
    ∀ {l₁ l₂ : List String}, (∀ t ∈ l₁, pipeFreeT t) →
    (∀ t ∈ l₂, pipeFreeT t) → joinBar l₁ = joinBar l₂ → l₁ = l₂ := by
  intro l₁
  induction l₁ with
  | nil =>
    intro l₂ _ hp₂ h
    cases hl₂ : l₂ with
    | nil => rfl
    | cons x xs =>
      subst hl₂
      exact absurd h.symm (joinBar_ne_empty hp₂ (by simp))
  | cons t₁ r₁ ih =>
    intro l₂ hp₁ hp₂ h
    cases l₂ with
    | nil =>
      exact absurd h (joinBar_ne_empty hp₁ (by simp))
    | cons t₂ r₂ =>
      cases r₁ with
      | nil =>
        cases r₂ with
        | nil => simpa [joinBar] using h
        | cons x₂ xs₂ =>
          have hd := congrArg String.data h
          rw [joinBar_cons_cons] at hd
          have : '|' ∈ t₁.data := by
            rw [show (joinBar [t₁]).data = t₁.data from rfl] at hd
            rw [hd]
            simp
          exact absurd this (hp₁ t₁ (by simp)).2
      | cons x₁ xs₁ =>
        cases r₂ with
        | nil =>
          have hd := congrArg String.data h
          rw [joinBar_cons_cons] at hd
          have : '|' ∈ t₂.data := by
            rw [show (joinBar [t₂]).data = t₂.data from rfl] at hd
            rw [← hd]
            simp
          exact absurd this (hp₂ t₂ (by simp)).2
        | cons x₂ xs₂ =>
          have hd := congrArg String.data h
          rw [joinBar_cons_cons, joinBar_cons_cons] at hd
          have hsplit := pipe_append_inj (hp₁ t₁ (by simp)).2
            (hp₂ t₂ (by simp)).2 hd
          have ht : t₁ = t₂ := String.ext hsplit.1
          have hr : x₁ :: xs₁ = x₂ :: xs₂ :=
            ih (fun u hu => hp₁ u (List.mem_cons_of_mem t₁ hu))
              (fun u hu => hp₂ u (List.mem_cons_of_mem t₂ hu))
              (String.ext hsplit.2)
          rw [ht, hr]

/- Coercion round trips: elements written by the store are fixed points of
their kind's coercion, and decode-then-rewrite preserves the decoded value.
-/

theorem jsTrunc_intCast (n : ℤ) : jsTrunc (n : ℚ) = n := by
  unfold jsTrunc
  have hf : ∀ m : ℤ, Rat.floor ((m : ℤ) : ℚ) = m := by
    intro m
    rw [Rat.floor_def']
    simp
  by_cases h : (n : ℚ) < 0
  · rw [if_pos h, ← Int.cast_neg, hf]
    ring
  · rw [if_neg h, hf]

theorem jsToIntZ_intCast (k : ℤ) : jsToIntZ (.fin (k : ℚ)) = k :=
  jsTrunc_intCast k

theorem wrapU_idem (w : ℕ) (i : ℤ) : wrapU w (wrapU w i) = wrapU w i :=
  Int.emod_emod_of_dvd i dvd_rfl

theorem wrapU_nonneg (w : ℕ) (i : ℤ) : 0 ≤ wrapU w i :=
  Int.emod_nonneg i (by positivity)

theorem wrapU_lt (w : ℕ) (i : ℤ) : wrapU w i < 2 ^ w :=
  Int.emod_lt_of_pos i (by positivity)

theorem wrapU_wrapS (w : ℕ) (i : ℤ) : wrapU w (wrapS w i) = wrapU w i := by
  unfold wrapS
  by_cases h : (2 : ℤ) ^ (w - 1) ≤ wrapU w i
  · rw [if_pos h]
    unfold wrapU
    calc (i % (2:ℤ)^w - (2:ℤ)^w) % (2:ℤ)^w
        = (i % (2:ℤ)^w + (2:ℤ)^w * (-1)) % (2:ℤ)^w := by ring_nf
      _ = i % (2:ℤ)^w % (2:ℤ)^w := Int.add_mul_emod_self_left _ _ _
      _ = i % (2:ℤ)^w := Int.emod_emod_of_dvd i dvd_rfl
  · rw [if_neg h]
    exact wrapU_idem w i

theorem wrapS_idem (w : ℕ) (i : ℤ) : wrapS w (wrapS w i) = wrapS w i := by
  conv_lhs => rw [wrapS]
  rw [wrapU_wrapS]
  rfl

theorem two_pow_split {w : ℕ} (hw : 1 ≤ w) :
    (2 : ℤ) ^ w = 2 * 2 ^ (w - 1) := by
  cases w with
  | zero => omega
  | succ k => rw [pow_succ]; ring_nf; simp [Nat.add_sub_cancel]

theorem wrapS_eq_self {w : ℕ} (hw : 1 ≤ w) {n : ℤ}
    (h₁ : -(2 ^ (w - 1)) ≤ n) (h₂ : n < 2 ^ (w - 1)) : wrapS w n = n := by
  have hsplit := two_pow_split hw
  have hpos : (0 : ℤ) < 2 ^ (w - 1) := by positivity
  unfold wrapS wrapU
  by_cases hn : 0 ≤ n
  · have : n % (2:ℤ)^w = n := Int.emod_eq_of_lt hn (by omega)
    rw [this, if_neg (by omega)]
  · have hn' : n % (2:ℤ)^w = n + 2^w := by
      have : n + 2^w = n + 2^w * 1 := by ring
      rw [← Int.add_mul_emod_self_left n ((2:ℤ)^w) 1, mul_one]
      exact Int.emod_eq_of_lt (by omega) (by omega)
    rw [hn']
    rw [if_pos (by omega)]
    omega

theorem roundTiesEven_intCast (k : ℤ) : roundTiesEven (k : ℚ) = k := by
  unfold roundTiesEven
  have hf : Rat.floor ((k : ℤ) : ℚ) = k := by rw [Rat.floor_def']; simp
  rw [hf]
  simp [Rat.num_intCast, Rat.den_intCast]

theorem clamp255_nonneg (x : JNum) : 0 ≤ clamp255 x := by
  unfold clamp255
  rcases x with _ | b | q
  · simp
  · by_cases hb : b <;> simp [hb]
  · by_cases h₀ : q ≤ 0
    · simp [h₀]
    · by_cases h₂ : (255 : ℚ) ≤ q
      · simp [h₀, h₂]
      · simp only [h₀, h₂, if_false]
        unfold roundTiesEven
        have hq : (0 : ℚ) ≤ q := (not_le.mp h₀).le
        have hfl : 0 ≤ Rat.floor q := Rat.le_floor.2 (by push_cast; linarith)
        split
        · omega
        · split
          · omega
          · split <;> omega

theorem clamp255_le (x : JNum) : clamp255 x ≤ 255 := by
  unfold clamp255
  rcases x with _ | b | q
  · simp
  · by_cases hb : b <;> simp [hb]
  · by_cases h₀ : q ≤ 0
    · simp [h₀]
    · by_cases h₂ : (255 : ℚ) ≤ q
      · simp [h₀, h₂]
      · simp only [h₀, h₂, if_false]
        unfold roundTiesEven
        have hfl : Rat.floor q ≤ 254 := by
          by_contra hc
          push_neg at hc
          have h255 : (255 : ℤ) ≤ Rat.floor q := by omega
          have := Rat.le_floor.1 h255
          push_cast at this
          linarith [lt_of_not_le h₂]
        split
        · omega
        · split
          · omega
          · split <;> omega

theorem clamp255_intCast {k : ℤ} (h₁ : 0 ≤ k) (h₂ : k ≤ 255) :
    clamp255 (.fin (k : ℚ)) = k := by
  simp only [clamp255]
  by_cases hk0 : (k : ℚ) ≤ 0
  · have hz : k = 0 := le_antisymm (by exact_mod_cast hk0) h₁
    rw [if_pos hk0, hz]
  · rw [if_neg hk0]
    by_cases hk255 : (255 : ℚ) ≤ (k : ℚ)
    · have he : k = 255 := le_antisymm h₂ (by exact_mod_cast hk255)
      rw [if_pos hk255, he]
    · rw [if_neg hk255, roundTiesEven_intCast]

theorem coerceJNum_idem {ft : FieldType} (hft : ft.isBig = false)
    (x : JNum) : coerceJNum ft (coerceJNum ft x) = coerceJNum ft x := by
  cases ft
  case f16 => rfl
  case f32 => rfl
  case f64 => rfl
  case i8 => simp [coerceJNum, jsToIntZ, jsTrunc_intCast, wrapS_idem]
  case i16 => simp [coerceJNum, jsToIntZ, jsTrunc_intCast, wrapS_idem]
  case i32 => simp [coerceJNum, jsToIntZ, jsTrunc_intCast, wrapS_idem]
  case u8 => simp [coerceJNum, jsToIntZ, jsTrunc_intCast, wrapU_idem]
  case u16 => simp [coerceJNum, jsToIntZ, jsTrunc_intCast, wrapU_idem]
  case u32 => simp [coerceJNum, jsToIntZ, jsTrunc_intCast, wrapU_idem]
  case u8c =>
    simp [coerceJNum, clamp255_intCast (clamp255_nonneg x) (clamp255_le x)]
  case bool => simp [coerceJNum, jsToIntZ, jsTrunc_intCast, wrapU_idem]
  case bi64 => simp [FieldType.isBig] at hft
  case biu64 => simp [FieldType.isBig] at hft

theorem wrapBig_idem (ft : FieldType) (i : ℤ) :
    wrapBig ft (wrapBig ft i) = wrapBig ft i := by
  unfold wrapBig
  by_cases h : ft = .biu64
  · simp [h, wrapU_idem]
  · simp [h, wrapS_idem]

theorem writeVal_ok_elemWF {ft : FieldType} {v : JsValue} {e : Elem}
    (h : writeVal ft v = .ok e) : elemWF ft e := by
  by_cases hb : ft.isBig = true
  · rcases v with x | i | b | s | _ | _
    · simp [writeVal, hb] at h
    · simp [writeVal, hb] at h
      subst h
      simp [elemWF, recoerce, hb, wrapBig_idem]
    · simp [writeVal, hb] at h
    · simp [writeVal, hb] at h
    · simp [writeVal, hb] at h
    · simp [writeVal] at h
  · have hb' : ft.isBig = false := by simpa using hb
    rcases v with x | i | b | s | _ | _
    · simp [writeVal, hb'] at h
      subst h
      simp [elemWF, recoerce, hb', coerceJNum_idem hb']
    · simp [writeVal, hb'] at h
    · simp [writeVal, hb'] at h
      subst h
      simp [elemWF, recoerce, hb', coerceJNum_idem hb']
    · simp [writeVal, hb'] at h
      subst h
      simp [elemWF, recoerce, hb', coerceJNum_idem hb']
    · simp [writeVal, hb'] at h
      subst h
      simp [elemWF, recoerce, hb', coerceJNum_idem hb']
    · simp [writeVal] at h

theorem elemWF_defaultElem (ft : FieldType) : elemWF ft (defaultElem ft) := by
  cases ft <;> decide

theorem decodeElem_defaultElem (ft : FieldType) :
    decodeElem ft (defaultElem ft) = zeroJs ft := by
  cases ft <;> decide

theorem writeVal_zeroJs (ft : FieldType) :
    writeVal ft (zeroJs ft) = .ok (defaultElem ft) := by
  cases ft <;> decide

/-- Shape of a kind-faithful element of a number field. -/
theorem elemWF_num {ft : FieldType} (hb : ft.isBig = false) {e : Elem}
    (h : elemWF ft e) : ∃ x, e = .num x ∧ coerceJNum ft x = x := by
  rcases e with x | i
  · refine ⟨x, rfl, ?_⟩
    unfold elemWF recoerce at h
    simp [hb] at h
    exact h
  · unfold elemWF recoerce at h
    simp [hb] at h

/-- Shape of a kind-faithful element of a 64-bit integer field. -/
theorem elemWF_big {ft : FieldType} (hb : ft.isBig = true) {e : Elem}
    (h : elemWF ft e) : ∃ i, e = .big i ∧ wrapBig ft i = i := by
  rcases e with x | i
  · unfold elemWF recoerce at h
    simp [hb] at h
  · refine ⟨i, rfl, ?_⟩
    unfold elemWF recoerce at h
    simp [hb] at h
    exact h

/-- Writing back the decoded value of a kind-faithful element succeeds and
decodes to the same value again (the stored element is bit-identical except
for boolean fields, whose nonzero encodings collapse to 1). -/
theorem writeVal_decode {ft : FieldType} {e : Elem} (h : elemWF ft e) :
    ∃ e', writeVal ft (decodeElem ft e) = .ok e' ∧
      decodeElem ft e' = decodeElem ft e ∧ elemWF ft e' := by
  by_cases hb : ft.isBig = true
  · obtain ⟨i, rfl, hw⟩ := elemWF_big hb h
    have hd : decodeElem ft (.big i) = .big i := by
      cases ft <;> simp_all [FieldType.isBig, decodeElem]
    refine ⟨.big i, ?_, by rw [hd], h⟩
    rw [hd]
    simp [writeVal, hb, hw]
  · have hb' : ft.isBig = false := by simpa using hb
    obtain ⟨x, rfl, hc⟩ := elemWF_num hb' h
    by_cases hbool : ft = .bool
    · subst hbool
      have hwr : writeVal .bool (decodeElem .bool (.num x)) =
          .ok (.num (coerceJNum .bool
            (.fin (if decide (x ≠ .fin 0) then 1 else 0)))) := rfl
      refine ⟨_, hwr, ?_, writeVal_ok_elemWF hwr⟩
      have hall : ∀ b : Bool, decodeElem .bool
          (.num (coerceJNum .bool (.fin (if b then 1 else 0)))) = .bool b := by
        decide
      exact (hall (decide (x ≠ .fin 0))).trans rfl
    · have hd : decodeElem ft (.num x) = .num x := by
        cases ft <;> simp_all [FieldType.isBig, decodeElem]
      refine ⟨.num x, ?_, by rw [hd], h⟩
      rw [hd]
      simp [writeVal, hb', hc]

/- ColumnStore: capacity growth. -/

theorem growCapFuel_spec :
    ∀ (fuel cap minCap : ℕ), 1 ≤ cap → minCap ≤ cap * 2 ^ fuel →
    ∃ k, growCapFuel fuel cap minCap = cap * 2 ^ k ∧ minCap ≤ cap * 2 ^ k ∧
      ∀ j, minCap ≤ cap * 2 ^ j → cap * 2 ^ k ≤ cap * 2 ^ j := by
  intro fuel
  induction fuel with
  | zero =>
    intro cap minCap hcap hle
    simp only [pow_zero, mul_one] at hle
    refine ⟨0, by simp [growCapFuel], by simpa using hle, ?_⟩
    intro j _
    simp only [pow_zero, mul_one]
    exact Nat.le_mul_of_pos_right cap (Nat.pos_pow_of_pos j (by omega))
  | succ fuel ih =>
    intro cap minCap hcap hle
    by_cases h : cap < minCap
    · have hle' : minCap ≤ cap * 2 * 2 ^ fuel := by
        rw [mul_assoc, ← pow_succ']
        exact hle
      obtain ⟨k, hk, hmin, hopt⟩ := ih (cap * 2) minCap (by omega) hle'
      refine ⟨k + 1, ?_, ?_, ?_⟩
      · simp only [growCapFuel, if_pos h, hk]
        ring
      · calc minCap ≤ cap * 2 * 2 ^ k := hmin
          _ = cap * 2 ^ (k + 1) := by ring
      · intro j hj
        cases j with
        | zero =>
          simp only [pow_zero, mul_one] at hj
          omega
        | succ j' =>
          have : minCap ≤ cap * 2 * 2 ^ j' := by
            calc minCap ≤ cap * 2 ^ (j' + 1) := hj
              _ = cap * 2 * 2 ^ j' := by ring
          calc cap * 2 ^ (k + 1) = cap * 2 * 2 ^ k := by ring
            _ ≤ cap * 2 * 2 ^ j' := hopt j' this
            _ = cap * 2 ^ (j' + 1) := by ring
    · refine ⟨0, ?_, ?_, ?_⟩
      · simp [growCapFuel, h]
      · simpa using (by omega : minCap ≤ cap)
      · intro j _
        simp only [pow_zero, mul_one]
        exact Nat.le_mul_of_pos_right cap (Nat.pos_pow_of_pos j (by omega))

theorem growCap_spec {cap : ℕ} (minCap : ℕ) (hcap : 1 ≤ cap) :
    ∃ k, growCap cap minCap = cap * 2 ^ k ∧ minCap ≤ cap * 2 ^ k ∧
      ∀ j, minCap ≤ cap * 2 ^ j → cap * 2 ^ k ≤ cap * 2 ^ j := by
  apply growCapFuel_spec minCap cap minCap hcap
  calc minCap ≤ 2 ^ minCap := (Nat.lt_two_pow minCap).le
    _ ≤ cap * 2 ^ minCap := Nat.le_mul_of_pos_left _ (by omega)

theorem growCap_le {cap : ℕ} (minCap : ℕ) (hcap : 1 ≤ cap) :
    minCap ≤ growCap cap minCap := by
  obtain ⟨k, hk, hmin, _⟩ := growCap_spec minCap hcap
  omega

theorem le_growCap {cap : ℕ} (minCap : ℕ) (hcap : 1 ≤ cap) :
    cap ≤ growCap cap minCap := by
  obtain ⟨k, hk, _, _⟩ := growCap_spec minCap hcap
  rw [hk]
  exact Nat.le_mul_of_pos_right cap (Nat.pos_pow_of_pos k (by omega))

/- ColumnStore: `ensureCapacity` preserves names, kinds, size and every
readable slot; it only reallocates buffers with zero padding at the end. -/

theorem ensureCapacity_schema (s : ColumnStore) (m : ℕ) :
    (s.ensureCapacity m).schema = s.schema := by
  unfold ColumnStore.ensureCapacity
  split
  · rfl
  · simp [ColumnStore.schema]

theorem ensureCapacity_size (s : ColumnStore) (m : ℕ) :
    (s.ensureCapacity m).size = s.size := by
  unfold ColumnStore.ensureCapacity
  split <;> rfl

theorem ensureCapacity_WF {s : ColumnStore} (m : ℕ) (h : s.WF) :
    (s.ensureCapacity m).WF ∧ m ≤ (s.ensureCapacity m).capacity ∧
    s.capacity ≤ (s.ensureCapacity m).capacity := by
  obtain ⟨hcap, hsz, hnames, hflds⟩ := h
  by_cases hle : m ≤ s.capacity
  · rw [ColumnStore.ensureCapacity, if_pos hle]
    exact ⟨⟨hcap, hsz, hnames, hflds⟩, hle, le_refl _⟩
  · rw [ColumnStore.ensureCapacity, if_neg hle]
    have hg := growCap_le m hcap
    have hg' := le_growCap m hcap
    refine ⟨⟨?_, ?_, ?_, ?_⟩, ?_, ?_⟩
    · show 1 ≤ growCap s.capacity m
      omega
    · show s.size ≤ growCap s.capacity m
      omega
    · show ((s.fields.map _).map SField.name).Nodup
      simpa [List.map_map, Function.comp] using hnames
    · intro f hf
      simp only [List.mem_map] at hf
      obtain ⟨f₀, hf₀, rfl⟩ := hf
      obtain ⟨hlen, hwf⟩ := hflds f₀ hf₀
      constructor
      · simp only [List.length_append, List.length_replicate, hlen]
        omega
      · intro e he
        simp only [List.mem_append, List.mem_replicate] at he
        rcases he with he | he
        · exact hwf e he
        · rw [he.2]
          exact elemWF_defaultElem f₀.ftype
    · exact hg
    · exact hg'

theorem ensureCapacity_get {s : ColumnStore} (m : ℕ) (h : s.WF) (i : ℤ) :
    (s.ensureCapacity m).get i = s.get i := by
  obtain ⟨hcap, hsz, hnames, hflds⟩ := h
  by_cases hle : m ≤ s.capacity
  · rw [ColumnStore.ensureCapacity, if_pos hle]
  · rw [ColumnStore.ensureCapacity, if_neg hle]
    show List.map _ (s.fields.map _) = List.map _ s.fields
    rw [List.map_map]
    apply List.map_congr_left
    intro f hf
    obtain ⟨hlen, _⟩ := hflds f hf
    simp only [Function.comp_apply]
    show (f.name, _) = (f.name, _)
    congr 1
    split
    · next hin =>
      rw [List.getD_append]
      omega
    · rfl

/- ColumnStore.set: characterization of a successful write. -/

theorem setFieldsAux_ok {idx : ℕ} {v : JsRecord} :
    ∀ {fs : List SField}, (setFieldsAux idx v fs).2 = none →
    (setFieldsAux idx v fs).1 = fs.map (fun f =>
      ⟨f.name, f.ftype, f.buf.set idx (writeValD f.ftype (recGet v f.name))⟩) ∧
    ∀ f ∈ fs, writeVal f.ftype (recGet v f.name) =
      .ok (writeValD f.ftype (recGet v f.name)) := by
  intro fs
  induction fs with
  | nil => intro _; simp [setFieldsAux]
  | cons f t ih =>
    intro h
    rcases hwv : writeVal f.ftype (recGet v f.name) with e | el
    · rw [setFieldsAux, hwv] at h
      simp at h
    · rw [setFieldsAux, hwv] at h
      simp only at h
      obtain ⟨h₁, h₂⟩ := ih h
      have hd : writeValD f.ftype (recGet v f.name) = el := by
        simp [writeValD, hwv]
      constructor
      · rw [setFieldsAux, hwv]
        simp only [List.map_cons, hd, h₁]
      · intro g hg
        rcases List.mem_cons.1 hg with rfl | hgt
        · rw [hwv, hd]
        · exact h₂ g hgt

theorem setFieldsAux_ok_of {idx : ℕ} {v : JsRecord} :
    ∀ {fs : List SField},
    (∀ f ∈ fs, ∃ e, writeVal f.ftype (recGet v f.name) = .ok e) →
    (setFieldsAux idx v fs).2 = none := by
  intro fs
  induction fs with
  | nil => intro _; simp [setFieldsAux]
  | cons f t ih =>
    intro h
    obtain ⟨e, he⟩ := h f (by simp)
    rw [setFieldsAux, he]
    simp only
    exact ih (fun g hg => h g (List.mem_cons_of_mem f hg))

theorem preGrow_facts {s : ColumnStore} (h : s.WF) (i : ℕ) :
    (preGrow s (i : ℤ)).WF ∧ i < (preGrow s (i : ℤ)).capacity ∧
    (preGrow s (i : ℤ)).schema = s.schema ∧
    (preGrow s (i : ℤ)).size = s.size ∧
    (∀ j : ℤ, (preGrow s (i : ℤ)).get j = s.get j) ∧
    s.capacity ≤ (preGrow s (i : ℤ)).capacity := by
  unfold preGrow
  by_cases hc : (s.capacity : ℤ) ≤ (i : ℤ)
  · rw [if_pos hc]
    have hi : ((i : ℤ)).toNat = i := Int.toNat_natCast i
    rw [hi]
    obtain ⟨hWF, hcap, hcap'⟩ := ensureCapacity_WF (i + 1) h
    exact ⟨hWF, by omega, ensureCapacity_schema s (i+1),
      ensureCapacity_size s (i+1), fun j => ensureCapacity_get (i+1) h j,
      hcap'⟩
  · rw [if_neg hc]
    have : i < s.capacity := by exact_mod_cast not_le.mp hc
    exact ⟨h, this, rfl, rfl, fun _ => rfl, le_refl _⟩

theorem set_eq_preGrow (s : ColumnStore) (i : ℕ) (v : JsRecord) :
    s.set (i : ℤ) v =
      (match (setFieldsAux i v (preGrow s (i : ℤ)).fields).2 with
       | some e => ({ preGrow s (i : ℤ) with
           fields := (setFieldsAux i v (preGrow s (i : ℤ)).fields).1 }, some e)
       | none =>
         ({ fields := (setFieldsAux i v (preGrow s (i : ℤ)).fields).1
            capacity := (preGrow s (i : ℤ)).capacity
            size := if ((preGrow s (i : ℤ)).size : ℤ) ≤ (i : ℤ)
                    then (i : ℤ).toNat + 1
                    else (preGrow s (i : ℤ)).size }, none)) := by
  rw [ColumnStore.set, if_neg (by omega : ¬ (i : ℤ) < 0)]
  rw [show ((i : ℤ)).toNat = i from Int.toNat_natCast i]
  rfl


theorem get_natCast (s : ColumnStore) (j : ℕ) :
    s.get (j : ℤ) = s.fields.map (fun f =>
      (f.name, if j < s.size
               then decodeElem f.ftype (f.buf.getD j (defaultElem f.ftype))
               else zeroJs f.ftype)) := by
  unfold ColumnStore.get
  apply List.map_congr_left
  intro f _
  congr 1
  by_cases hj : j < s.size
  · rw [if_pos ⟨by omega, by exact_mod_cast hj⟩, if_pos hj, Int.toNat_natCast]
  · rw [if_neg (fun hc => hj (by exact_mod_cast hc.2)), if_neg hj]

theorem setResult_fields (s : ColumnStore) (i : ℕ) (v : JsRecord) :
    (setResult s i v).fields = (setFieldsAux i v (preGrow s (i : ℤ)).fields).1 :=
  rfl

theorem setResult_capacity (s : ColumnStore) (i : ℕ) (v : JsRecord) :
    (setResult s i v).capacity = (preGrow s (i : ℤ)).capacity := rfl

theorem setResult_size (s : ColumnStore) (i : ℕ) (v : JsRecord) :
    (setResult s i v).size =
      if ((preGrow s (i : ℤ)).size : ℤ) ≤ (i : ℤ) then i + 1
      else (preGrow s (i : ℤ)).size := rfl

theorem set_ok_eq {s : ColumnStore} {i : ℕ} {v : JsRecord}
    (hok : (s.set (i : ℤ) v).2 = none) :
    (s.set (i : ℤ) v).1 = setResult s i v := by
  rw [set_eq_preGrow] at hok ⊢
  rcases herr : (setFieldsAux i v (preGrow s (i : ℤ)).fields).2 with _ | e
  · rfl
  · rw [herr] at hok
    simp at hok

theorem set_ok_char {s : ColumnStore} (hWF : s.WF) (i : ℕ) (v : JsRecord)
    (hok : (s.set (i : ℤ) v).2 = none) :
    (s.set (i : ℤ) v).1.schema = s.schema ∧
    (s.set (i : ℤ) v).1.WF ∧
    (s.set (i : ℤ) v).1.size = max s.size (i + 1) ∧
    (∀ j : ℕ, j < s.size → j ≠ i →
      (s.set (i : ℤ) v).1.get (j : ℤ) = s.get (j : ℤ)) ∧
    (s.set (i : ℤ) v).1.get (i : ℤ) = s.schema.map (fun kt =>
      (kt.1, decodeElem kt.2 (writeValD kt.2 (recGet v kt.1)))) := by
  obtain ⟨h1WF, hicap, hschema, hsize, hget, hcaple⟩ := preGrow_facts hWF i
  obtain ⟨h1cap, h1sz, h1names, h1flds⟩ := h1WF
  have herr : (setFieldsAux i v (preGrow s (i : ℤ)).fields).2 = none := by
    rw [set_eq_preGrow] at hok
    rcases herr : (setFieldsAux i v (preGrow s (i : ℤ)).fields).2 with _ | e
    · rfl
    · rw [herr] at hok
      simp at hok
  obtain ⟨hfields, hwv⟩ := setFieldsAux_ok herr
  rw [set_ok_eq hok]
  have hbuflen : ∀ f ∈ (preGrow s (i : ℤ)).fields,
      f.buf.length = (preGrow s (i : ℤ)).capacity :=
    fun f hf => (h1flds f hf).1
  have hsmax : (setResult s i v).size = max s.size (i + 1) := by
    rw [setResult_size]
    split
    · next hc =>
      have h₁ : (preGrow s (i : ℤ)).size ≤ i := by exact_mod_cast hc
      rw [hsize] at h₁
      omega
    · next hc =>
      have h₁ : i < (preGrow s (i : ℤ)).size := by
        have := not_le.mp hc
        exact_mod_cast this
      rw [hsize] at h₁
      rw [hsize]
      omega
  refine ⟨?_, ?_, hsmax, ?_, ?_⟩
  · show ((setResult s i v).fields).map _ = _
    rw [setResult_fields, hfields, List.map_map, ← hschema]
    rfl
  · refine ⟨?_, ?_, ?_, ?_⟩
    · rw [setResult_capacity]
      exact h1cap
    · rw [hsmax, setResult_capacity]
      have : s.size ≤ s.capacity := hWF.2.1
      omega
    · rw [setResult_fields, hfields, List.map_map]
      show (List.map _ _).Nodup
      exact h1names
    · intro f hf
      rw [setResult_fields, hfields] at hf
      simp only [List.mem_map] at hf
      obtain ⟨f₀, hf₀, rfl⟩ := hf
      rw [setResult_capacity]
      refine ⟨?_, ?_⟩
      · show (f₀.buf.set i _).length = _
        rw [List.length_set]
        exact hbuflen f₀ hf₀
      · intro e he
        rcases List.mem_or_eq_of_mem_set he with he | rfl
        · exact (h1flds f₀ hf₀).2 e he
        · exact writeVal_ok_elemWF (hwv f₀ hf₀)
  · intro j hj hne
    rw [← hget (j : ℤ), get_natCast, get_natCast,
      setResult_fields, hfields, List.map_map]
    apply List.map_congr_left
    intro f hf
    simp only [Function.comp_apply]
    have hj₁ : j < (preGrow s (i : ℤ)).size := by rw [hsize]; exact hj
    have hjN : j < (setResult s i v).size := by
      rw [hsmax]
      omega
    show (f.name, _) = (f.name, _)
    rw [if_pos hjN, if_pos hj₁]
    show (f.name,
        decodeElem f.ftype ((f.buf.set i _).getD j (defaultElem f.ftype))) = _
    congr 2
    rw [List.getD_eq_getElem?_getD, List.getElem?_set,
      if_neg (by omega : ¬ i = j), ← List.getD_eq_getElem?_getD]
  · rw [get_natCast, setResult_fields, hfields, List.map_map, ← hschema,
      ColumnStore.schema, List.map_map]
    apply List.map_congr_left
    intro f hf
    simp only [Function.comp_apply]
    have hiN : i < (setResult s i v).size := by
      rw [hsmax]
      omega
    show (f.name, _) = (f.name, _)
    rw [if_pos hiN]
    show (f.name,
        decodeElem f.ftype ((f.buf.set i _).getD i (defaultElem f.ftype))) = _
    congr 2
    rw [List.getD_eq_getElem?_getD, List.getElem?_set_self
      (by rw [hbuflen f hf]; exact hicap)]
    rfl

theorem preGrow_schema (s : ColumnStore) (index : ℤ) :
    (preGrow s index).schema = s.schema := by
  unfold preGrow
  split
  · exact ensureCapacity_schema s _
  · rfl

theorem set_ok_of {s : ColumnStore} (i : ℕ) (v : JsRecord)
    (h : ∀ kt ∈ s.schema, ∃ e, writeVal kt.2 (recGet v kt.1) = .ok e) :
    (s.set (i : ℤ) v).2 = none := by
  rw [set_eq_preGrow]
  have herr := @setFieldsAux_ok_of i v
    (preGrow s (i : ℤ)).fields (fun f hf => by
      apply h (f.name, f.ftype)
      rw [← preGrow_schema s (i : ℤ)]
      exact List.mem_map_of_mem _ hf)
  rw [herr]

theorem swapRemove_natCast_eq (s : ColumnStore) (i : ℕ) (hi : i < s.size) :
    s.swapRemove (i : ℤ) =
      (if i = s.size - 1 then ({ s with size := s.size - 1 }, none)
       else
        ({ fields := s.fields.map (fun f =>
             ⟨f.name, f.ftype,
              f.buf.set i (f.buf.getD (s.size - 1) (defaultElem f.ftype))⟩)
           capacity := s.capacity
           size := s.size - 1 }, none)) := by
  rw [ColumnStore.swapRemove, if_neg]
  · rfl
  · omega

theorem swapRemove_ok_char {s : ColumnStore} (hWF : s.WF) (i : ℕ)
    (hi : i < s.size) :
    (s.swapRemove (i : ℤ)).2 = none ∧
    (s.swapRemove (i : ℤ)).1.schema = s.schema ∧
    (s.swapRemove (i : ℤ)).1.WF ∧
    (s.swapRemove (i : ℤ)).1.capacity = s.capacity ∧
    (s.swapRemove (i : ℤ)).1.size = s.size - 1 ∧
    (∀ j : ℕ, j < s.size - 1 → j ≠ i →
      (s.swapRemove (i : ℤ)).1.get (j : ℤ) = s.get (j : ℤ)) ∧
    (i < s.size - 1 →
      (s.swapRemove (i : ℤ)).1.get (i : ℤ) = s.get ((s.size - 1 : ℕ) : ℤ)) := by
  obtain ⟨hcap, hsz, hnames, hflds⟩ := hWF
  rw [swapRemove_natCast_eq s i hi]
  by_cases hlast : i = s.size - 1
  · rw [if_pos hlast]
    refine ⟨rfl, rfl, ⟨hcap, show s.size - 1 ≤ s.capacity by omega, hnames,
      ?_⟩, rfl, rfl, ?_, ?_⟩
    · intro f hf
      exact hflds f hf
    · intro j hj hne
      rw [get_natCast, get_natCast]
      apply List.map_congr_left
      intro f hf
      show (f.name, _) = (f.name, _)
      rw [if_pos hj, if_pos (by omega : j < s.size)]
    · intro hc
      omega
  · rw [if_neg hlast]
    have hszcap : s.size ≤ s.capacity := hsz
    refine ⟨rfl, ?_, ?_, rfl, rfl, ?_, ?_⟩
    · show List.map _ _ = _
      rw [List.map_map]
      rfl
    · refine ⟨hcap, show s.size - 1 ≤ s.capacity by omega, ?_, ?_⟩
      · show ((List.map _ _).map SField.name).Nodup
        rw [List.map_map]
        exact hnames
      · intro f hf
        simp only [List.mem_map] at hf
        obtain ⟨f₀, hf₀, rfl⟩ := hf
        obtain ⟨hlen, hwf⟩ := hflds f₀ hf₀
        refine ⟨?_, ?_⟩
        · show (f₀.buf.set i _).length = _
          rw [List.length_set]
          exact hlen
        · intro e he
          rcases List.mem_or_eq_of_mem_set he with he | rfl
          · exact hwf e he
          · apply hwf
            rw [List.getD_eq_getElem (f₀.buf) _ (by omega)]
            exact List.getElem_mem _
    · intro j hj hne
      rw [get_natCast, get_natCast, List.map_map]
      apply List.map_congr_left
      intro f hf
      simp only [Function.comp_apply]
      show (f.name, _) = (f.name, _)
      rw [if_pos hj, if_pos (by omega : j < s.size)]
      obtain ⟨hlen, _⟩ := hflds f hf
      congr 2
      show (f.buf.set i _).getD j _ = _
      rw [List.getD_eq_getElem?_getD, List.getElem?_set,
        if_neg (by omega : ¬ i = j), ← List.getD_eq_getElem?_getD]
    · intro hc
      rw [get_natCast, get_natCast, List.map_map]
      apply List.map_congr_left
      intro f hf
      simp only [Function.comp_apply]
      obtain ⟨hlen, _⟩ := hflds f hf
      show (f.name, _) = (f.name, _)
      rw [if_pos (by omega : i < s.size - 1),
        if_pos (by omega : s.size - 1 < s.size)]
      congr 2
      show (f.buf.set i _).getD i _ = _
      rw [List.getD_eq_getElem?_getD, List.getElem?_set_self (by omega)]
      rfl

/- ColumnStore.copyFrom: failure condition and fail-state preservation. -/

theorem copyFrom_eq (s other : ColumnStore) (it is : ℤ) :
    s.copyFrom other it is =
      (if is < 0 ∨ (other.size : ℤ) ≤ is then (preGrow s it, some .rangeErr)
       else
        (match (copyFieldsAux other it is (preGrow s it).fields).2 with
         | some e => ({ preGrow s it with
             fields := (copyFieldsAux other it is (preGrow s it).fields).1 },
            some e)
         | none =>
           ({ fields := (copyFieldsAux other it is (preGrow s it).fields).1
              capacity := (preGrow s it).capacity
              size := if ((preGrow s it).size : ℤ) ≤ it then it.toNat + 1
                      else (preGrow s it).size }, none))) := rfl

/-- With matching schemas and a well-formed source, every per-field copy
finds its source column and re-coerces without a type error. -/
theorem copyFieldsAux_ok_of {other : ColumnStore} {it is : ℤ} :
    ∀ {fs : List SField},
    (∀ f ∈ fs, ∃ g el, other.fields.find? (fun g => g.name = f.name) = some g ∧
      recoerce f.ftype (g.buf.getD is.toNat (defaultElem g.ftype)) = .ok el) →
    (copyFieldsAux other it is fs).2 = none := by
  intro fs
  induction fs with
  | nil => intro _; simp [copyFieldsAux]
  | cons f t ih =>
    intro h
    obtain ⟨g, el, hg, hel⟩ := h f (by simp)
    simp only [copyFieldsAux, hg, hel]
    exact ih (fun f' hf' => h f' (List.mem_cons_of_mem f hf'))

theorem find?_of_schema_eq {s other : ColumnStore} (ho : other.WF)
    (hsch : s.schema = other.schema) {f : SField} (hf : f ∈ s.fields) :
    ∃ g ∈ other.fields,
      other.fields.find? (fun g => g.name = f.name) = some g ∧
      g.ftype = f.ftype := by
  have hmem : (f.name, f.ftype) ∈ other.fields.map (fun g => (g.name, g.ftype)) := by
    rw [show other.fields.map (fun g => (g.name, g.ftype)) = other.schema from rfl,
      ← hsch]
    exact List.mem_map_of_mem _ hf
  simp only [List.mem_map] at hmem
  obtain ⟨g₀, hg₀, hg₀eq⟩ := hmem
  have hname : g₀.name = f.name := congrArg Prod.fst hg₀eq
  have hft : g₀.ftype = f.ftype := congrArg Prod.snd hg₀eq
  have hsome : (other.fields.find? (fun g => g.name = f.name)).isSome := by
    rw [List.find?_isSome]
    exact ⟨g₀, hg₀, by simp [hname]⟩
  rcases hfind : other.fields.find? (fun g => g.name = f.name) with _ | g
  · rw [hfind] at hsome
    simp at hsome
  · have hgmem := List.mem_of_find?_eq_some hfind
    have hgname : g.name = f.name := by
      have := List.find?_some hfind
      simpa using this
    have hgg : g = g₀ :=
      List.inj_on_of_nodup_map ho.2.2.1 hgmem hg₀ (by rw [hgname, hname])
    exact ⟨g, hgmem, hfind, by rw [hgg, hft]⟩

theorem copyFrom_char {s other : ColumnStore} (hs : s.WF) (ho : other.WF)
    (hsch : s.schema = other.schema) (it : ℕ) (is : ℤ) :
    ((s.copyFrom other (it : ℤ) is).2 = some .rangeErr ↔
      (is < 0 ∨ (other.size : ℤ) ≤ is)) ∧
    ((is < 0 ∨ (other.size : ℤ) ≤ is) →
      (s.copyFrom other (it : ℤ) is).1.size = s.size ∧
      ∀ j : ℤ, (s.copyFrom other (it : ℤ) is).1.get j = s.get j) := by
  obtain ⟨h1WF, hicap, h1schema, h1size, h1get, hcaple⟩ := preGrow_facts hs it
  rw [copyFrom_eq]
  by_cases hr : is < 0 ∨ (other.size : ℤ) ≤ is
  · rw [if_pos hr]
    exact ⟨by simp [hr], fun _ => ⟨h1size, h1get⟩⟩
  · rw [if_neg hr]
    push_neg at hr
    have herr :
        (copyFieldsAux other (it : ℤ) is (preGrow s (it : ℤ)).fields).2 =
          none := by
      apply copyFieldsAux_ok_of
      intro f hf
      obtain ⟨g, hgmem, hgfind, hgft⟩ :=
        find?_of_schema_eq ho (by rw [h1schema, hsch]) hf
      obtain ⟨hglen, hgwf⟩ := ho.2.2.2 g hgmem
      have hlt : is.toNat < g.buf.length := by
        rw [hglen]
        have hoc : other.size ≤ other.capacity := ho.2.1
        omega
      have hel : g.buf.getD is.toNat (defaultElem g.ftype) ∈ g.buf := by
        rw [List.getD_eq_getElem g.buf _ hlt]
        exact List.getElem_mem _
      have hwf := hgwf _ hel
      refine ⟨g, g.buf.getD is.toNat (defaultElem g.ftype), hgfind, ?_⟩
      show recoerce f.ftype _ = _
      rw [← hgft]
      exact hwf
    rw [herr]
    constructor
    · constructor
      · intro hc
        simp at hc
      · intro hc
        rcases hc with hc | hc
        · omega
        · omega
    · intro hc
      rcases hc with hc | hc
      · omega
      · omega

/- Reading a whole row and writing it into a store with the same schema is
lossless: the written row decodes to the same record. -/

theorem recGet_map_name {fs : List SField}
    (hn : (fs.map SField.name).Nodup) {f : SField} (hf : f ∈ fs)
    (φ : SField → JsValue) :
    recGet (fs.map (fun g => (g.name, φ g))) f.name = φ f := by
  induction fs with
  | nil => simp at hf
  | cons g t ih =>
    simp only [List.map_cons, List.nodup_cons] at hn
    rcases List.mem_cons.1 hf with rfl | hft
    · simp [recGet, alGet]
    · by_cases hname : g.name = f.name
      · exact absurd (hname ▸ List.mem_map_of_mem SField.name hft) hn.1
      · simp only [List.map_cons, recGet, alGet, if_neg hname]
        exact ih hn.2 hft

theorem get_row_values {s : ColumnStore} (r : ℕ)
    (hn : (s.fields.map SField.name).Nodup) {f : SField} (hf : f ∈ s.fields) :
    recGet (s.get (r : ℤ)) f.name =
      (if r < s.size
       then decodeElem f.ftype (f.buf.getD r (defaultElem f.ftype))
       else zeroJs f.ftype) := by
  rw [get_natCast]
  exact recGet_map_name hn hf _

/-- Every field value of a `get` row can be written back successfully, and
decodes to itself again. -/
theorem get_row_storable {s : ColumnStore} (hs : s.WF) (r : ℕ) {f : SField}
    (hf : f ∈ s.fields) :
    ∃ e, writeVal f.ftype (recGet (s.get (r : ℤ)) f.name) = .ok e ∧
      decodeElem f.ftype e = recGet (s.get (r : ℤ)) f.name := by
  rw [get_row_values r hs.2.2.1 hf]
  by_cases hr : r < s.size
  · rw [if_pos hr]
    obtain ⟨hlen, hwf⟩ := hs.2.2.2 f hf
    have hel : f.buf.getD r (defaultElem f.ftype) ∈ f.buf := by
      have hszc : s.size ≤ s.capacity := hs.2.1
      rw [List.getD_eq_getElem f.buf _ (by rw [hlen]; omega)]
      exact List.getElem_mem _
    obtain ⟨e', he', hdec, _⟩ := writeVal_decode (hwf _ hel)
    exact ⟨e', he', hdec⟩
  · rw [if_neg hr]
    exact ⟨defaultElem f.ftype, writeVal_zeroJs f.ftype,
      decodeElem_defaultElem f.ftype⟩

theorem set_get_roundtrip {src dst : ColumnStore} (hsrc : src.WF)
    (hdst : dst.WF) (hsch : dst.schema = src.schema) (r i : ℕ) :
    (dst.set (i : ℤ) (src.get (r : ℤ))).2 = none ∧
    (dst.set (i : ℤ) (src.get (r : ℤ))).1.get (i : ℤ) = src.get (r : ℤ) := by
  have hstorable : ∀ kt ∈ dst.schema,
      ∃ e, writeVal kt.2 (recGet (src.get (r : ℤ)) kt.1) = .ok e ∧
        decodeElem kt.2 e = recGet (src.get (r : ℤ)) kt.1 := by
    intro kt hkt
    rw [hsch] at hkt
    simp only [ColumnStore.schema, List.mem_map] at hkt
    obtain ⟨f, hf, rfl⟩ := hkt
    exact get_row_storable hsrc r hf
  have hok : (dst.set (i : ℤ) (src.get (r : ℤ))).2 = none :=
    set_ok_of i _ (fun kt hkt => ⟨(hstorable kt hkt).choose,
      (hstorable kt hkt).choose_spec.1⟩)
  refine ⟨hok, ?_⟩
  obtain ⟨_, _, _, _, hrow⟩ := set_ok_char hdst i _ hok
  rw [hrow, hsch]
  conv_rhs => rw [get_natCast]
  rw [ColumnStore.schema, List.map_map]
  apply List.map_congr_left
  intro f hf
  simp only [Function.comp_apply]
  obtain ⟨e, he, hdec⟩ := get_row_storable hsrc r hf
  have hD : writeValD f.ftype (recGet (src.get (r : ℤ)) f.name) = e := by
    simp [writeValD, he]
  show (f.name, decodeElem f.ftype (writeValD f.ftype
      (recGet (src.get (r : ℤ)) f.name))) = _
  rw [hD, hdec, get_row_values r hsrc.2.2.1 hf]

/- Archetype construction: canonical sorted constructors and one fresh
well-formed store per constructor. -/

theorem init_store_WF {schema : List (String × FieldType)}
    (hn : (schema.map Prod.fst).Nodup) (cap : ℕ) :
    (ColumnStore.init schema cap).WF ∧
    (ColumnStore.init schema cap).schema = schema ∧
    (ColumnStore.init schema cap).size = 0 := by
  refine ⟨⟨by show 1 ≤ max cap 1; omega, by show 0 ≤ _; omega, ?_, ?_⟩, ?_, rfl⟩
  · show ((schema.map _).map SField.name).Nodup
    rw [List.map_map]
    exact hn
  · intro f hf
    simp only [ColumnStore.init, List.mem_map] at hf
    obtain ⟨kt, hkt, rfl⟩ := hf
    exact ⟨by simp [ColumnStore.init], fun e he => by
      rw [List.eq_of_mem_replicate he]
      exact elemWF_defaultElem _⟩
  · show (schema.map _).map _ = schema
    rw [List.map_map]
    have : ∀ kt : String × FieldType,
        ((fun f : SField => (f.name, f.ftype)) ∘
          (fun kt : String × FieldType =>
            (⟨kt.1, kt.2, List.replicate (max cap 1) (defaultElem kt.2)⟩ :
              SField))) kt = kt := by
      intro kt
      rfl
    rw [List.map_congr_left (fun kt _ => this kt)]
    exact List.map_id' schema

theorem foldl_alSet_stores_aux :
    ∀ (cs : List Ctor) (acc : List (String × ColumnStore)),
    (∀ c ∈ cs, c.typeId ∉ acc.map Prod.fst) →
    (cs.map Ctor.typeId).Nodup →
    cs.foldl (fun m c => alSet m c.typeId (ColumnStore.init c.schema 8)) acc =
      acc ++ cs.map (fun c => (c.typeId, ColumnStore.init c.schema 8)) := by
  intro cs
  induction cs with
  | nil => intro acc _ _; simp
  | cons c t ih =>
    intro acc hdis hn
    simp only [List.map_cons, List.nodup_cons] at hn
    rw [List.foldl_cons,
      alSet_not_mem_eq_append (hdis c (by simp)) (ColumnStore.init c.schema 8),
      ih _ ?_ hn.2]
    · simp
    · intro c' hc'
      rw [List.map_append]
      simp only [List.mem_append]
      push_neg
      refine ⟨hdis c' (List.mem_cons_of_mem c hc'), ?_⟩
      intro hc
      simp at hc
      exact hn.1 (hc ▸ List.mem_map_of_mem Ctor.typeId hc')

theorem init_stores_eq {cs : List Ctor}
    (hn : ((sortCtors cs).map Ctor.typeId).Nodup) :
    (Archetype.init cs).stores =
      (sortCtors cs).map (fun c => (c.typeId, ColumnStore.init c.schema 8)) := by
  show (sortCtors cs).foldl _ [] = _
  rw [foldl_alSet_stores_aux (sortCtors cs) [] (by simp) hn]
  simp

theorem init_WF {cs : List Ctor} (hn : (cs.map Ctor.typeId).Nodup)
    (hsch : ∀ c ∈ cs, (c.schema.map Prod.fst).Nodup) :
    (Archetype.init cs).WF := by
  have hperm : ((sortCtors cs).map Ctor.typeId).Perm (cs.map Ctor.typeId) :=
    (sortCtors_perm cs).map Ctor.typeId
  have hn' : ((sortCtors cs).map Ctor.typeId).Nodup := hperm.nodup_iff.2 hn
  have hstores := @init_stores_eq cs hn'
  refine ⟨rfl, sortCtors_map_sorted cs, hn', List.nodup_nil, List.nodup_nil,
    fun p hp => absurd hp (List.not_mem_nil p),
    fun q hq => absurd hq (List.not_mem_nil q), ?_, ?_, ?_⟩
  · rw [hstores]
    show (List.map _ _).map Prod.fst = (sortCtors cs).map Ctor.typeId
    rw [List.map_map]
    rfl
  · intro p hp
    rw [hstores] at hp
    simp only [List.mem_map] at hp
    obtain ⟨c, hc, rfl⟩ := hp
    have hc' : c ∈ cs := (sortCtors_perm cs).mem_iff.1 hc
    exact ⟨(init_store_WF (hsch c hc') 8).1, (init_store_WF (hsch c hc') 8).2.2⟩
  · intro c hc
    have hc' : c ∈ cs := (sortCtors_perm cs).mem_iff.1 hc
    refine ⟨ColumnStore.init c.schema 8, ?_, (init_store_WF (hsch c hc') 8).2.1⟩
    apply alGet_eq_some_of_mem
    · rw [hstores]
      show ((List.map _ _).map Prod.fst).Nodup
      rw [List.map_map]
      exact hn'
    · rw [hstores]
      exact List.mem_map_of_mem _ hc

/- Archetype.addEntity: effect of the store-update loop and of the method. -/

theorem addEntityStores_char (idx : ℕ) (vals : List (String × JsRecord)) :
    ∀ (cs : List Ctor) (m : List (String × ColumnStore)),
    (cs.map Ctor.typeId).Nodup →
    (∀ c ∈ cs, ∃ st, alGet m c.typeId = some st ∧
      (st.set (idx : ℤ) (valFor vals c)).2 = none) →
    ∃ m', addEntityStores idx vals cs m = some m' ∧
      m'.map Prod.fst = m.map Prod.fst ∧
      (∀ c ∈ cs, ∀ st, alGet m c.typeId = some st →
        alGet m' c.typeId = some ((st.set (idx : ℤ) (valFor vals c)).1)) ∧
      (∀ k, k ∉ cs.map Ctor.typeId → alGet m' k = alGet m k) := by
  intro cs
  induction cs with
  | nil =>
    intro m _ _
    exact ⟨m, rfl, rfl, by simp, fun k _ => rfl⟩
  | cons c t ih =>
    intro m hn h
    simp only [List.map_cons, List.nodup_cons] at hn
    obtain ⟨st, hst, hok⟩ := h c (by simp)
    have hstep : addEntityStores idx vals (c :: t) m =
        addEntityStores idx vals t
          (alSet m c.typeId (st.set (idx : ℤ) (valFor vals c)).1) := by
      rcases hset : st.set (idx : ℤ) (valFor vals c) with ⟨st', err⟩
      rcases err with _ | e
      · simp only [addEntityStores, hst, hset]
      · rw [hset] at hok
        simp at hok
    have hhyp : ∀ c' ∈ t, ∃ st',
        alGet (alSet m c.typeId (st.set (idx : ℤ) (valFor vals c)).1)
          c'.typeId = some st' ∧
        (st'.set (idx : ℤ) (valFor vals c')).2 = none := by
      intro c' hc'
      obtain ⟨st', hst', hok'⟩ := h c' (List.mem_cons_of_mem c hc')
      refine ⟨st', ?_, hok'⟩
      rw [alGet_alSet_ne _ _ _ _ ?_, hst']
      intro hcc
      exact hn.1 (hcc ▸ List.mem_map_of_mem Ctor.typeId hc')
    obtain ⟨m', hm', hkeys, hupd, hother⟩ :=
      ih (alSet m c.typeId (st.set (idx : ℤ) (valFor vals c)).1) hn.2 hhyp
    refine ⟨m', by rw [hstep]; exact hm', ?_, ?_, ?_⟩
    · rw [hkeys, map_fst_alSet]
      have : c.typeId ∈ m.map Prod.fst := by
        rw [← alGet_isSome_iff, hst]
        rfl
      rw [if_pos this]
    · intro c' hc' st₀ hst₀
      rcases List.mem_cons.1 hc' with rfl | hct
      · rw [hst] at hst₀
        injection hst₀ with hst₀
        subst hst₀
        rw [hother c'.typeId hn.1, alGet_alSet_self]
      · have hne : c.typeId ≠ c'.typeId := by
          intro hcc
          exact hn.1 (hcc ▸ List.mem_map_of_mem Ctor.typeId hct)
        apply hupd c' hct
        rw [alGet_alSet_ne _ _ _ _ hne, hst₀]
    · intro k hk
      simp only [List.map_cons, List.mem_cons] at hk
      push_neg at hk
      rw [hother k hk.2, alGet_alSet_ne _ _ _ _ (fun h => hk.1 h.symm)]

theorem indexByEntity_nodup_keys {a : Archetype} (hWF : a.WF) :
    (a.indexByEntity.map Prod.fst).Nodup := hWF.2.2.2.2.1

/-- Every indexed key is a stored entity. -/
theorem indexByEntity_keys_subset {a : Archetype} (hWF : a.WF) :
    ∀ k ∈ a.indexByEntity.map Prod.fst, k ∈ a.entityIds := by
  intro k hk
  simp only [List.mem_map] at hk
  obtain ⟨p, hp, rfl⟩ := hk
  obtain ⟨hlt, hval⟩ := hWF.2.2.2.2.2.1 p hp
  rw [← hval, List.getD_eq_getElem _ _ hlt]
  exact List.getElem_mem _

/-- Membership form of the row-index invariant. -/
theorem indexOf_eq_some_iff {a : Archetype} (hWF : a.WF) (r : Entity)
    (i : ℕ) :
    a.indexOf r = some i ↔
      ∃ h : i < a.entityIds.length, a.entityIds[i] = r := by
  constructor
  · intro h
    have hmem := mem_of_alGet_eq_some h
    obtain ⟨hlt, hval⟩ := hWF.2.2.2.2.2.1 _ hmem
    exact ⟨hlt, by rw [← List.getD_eq_getElem _ 0 hlt]; exact hval⟩
  · intro ⟨hlt, hx⟩
    apply hWF.2.2.2.2.2.2.1 (i, r)
    rw [List.mem_iff_getElem]
    exact ⟨i, by simpa using hlt, by rw [List.getElem_enum, hx]⟩

theorem addEntity_char {a : Archetype} (hWF : a.WF) (e : Entity)
    (vals : List (String × JsRecord)) (hnew : e ∉ a.entityIds)
    (hstorable : ∀ c ∈ a.ctors, ∀ st, alGet a.stores c.typeId = some st →
      (st.set (a.size : ℤ) (valFor vals c)).2 = none) :
    ∃ a', a.addEntity e vals = some a' ∧ a'.WF ∧
      a'.ctors = a.ctors ∧ a'.typeIds = a.typeIds ∧
      a'.entityIds = a.entityIds ++ [e] ∧
      a'.indexOf e = some a.size ∧
      (∀ r, r ≠ e → a'.indexOf r = a.indexOf r) ∧
      (∀ c ∈ a.ctors, ∀ st, alGet a.stores c.typeId = some st →
        alGet a'.stores c.typeId =
          some ((st.set (a.size : ℤ) (valFor vals c)).1)) := by
  obtain ⟨hty, hsorted, htyn, hidsn, hI1, hI2, hI3, hkeys, hstWF, hschema⟩ :=
    hWF
  have hctn : (a.ctors.map Ctor.typeId).Nodup := hty ▸ htyn
  have hstkeysn : (a.stores.map Prod.fst).Nodup := by rw [hkeys]; exact htyn
  have hhyp : ∀ c ∈ a.ctors, ∃ st, alGet a.stores c.typeId = some st ∧
      (st.set ((a.entityIds.length : ℕ) : ℤ) (valFor vals c)).2 = none := by
    intro c hc
    obtain ⟨st, hst, _⟩ := hschema c hc
    exact ⟨st, hst, hstorable c hc st hst⟩
  obtain ⟨m', hm', hmkeys, hupd, hother⟩ :=
    addEntityStores_char a.entityIds.length vals a.ctors a.stores hctn hhyp
  have henotkey : e ∉ a.indexByEntity.map Prod.fst := by
    intro hc
    simp only [List.mem_map] at hc
    obtain ⟨p, hp, rfl⟩ := hc
    obtain ⟨hlt, hval⟩ := hI2 p hp
    refine hnew ?_
    rw [← hval, List.getD_eq_getElem _ 0 hlt]
    exact List.getElem_mem _
  have hidx : alSet a.indexByEntity e a.entityIds.length =
      a.indexByEntity ++ [(e, a.entityIds.length)] :=
    alSet_not_mem_eq_append henotkey _
  refine ⟨{ a with
      entityIds := a.entityIds ++ [e],
      indexByEntity := alSet a.indexByEntity e a.entityIds.length,
      stores := m' }, ?_, ?_, rfl, rfl, rfl, ?_, ?_, ?_⟩
  · rw [Archetype.addEntity, hm']
    rfl
  · refine ⟨hty, hsorted, htyn, ?_, ?_, ?_, ?_, ?_, ?_, ?_⟩
    · rw [List.nodup_append]
      refine ⟨hidsn, List.nodup_singleton e, ?_⟩
      intro x hx hxe
      simp only [List.mem_singleton] at hxe
      exact hnew (hxe ▸ hx)
    · show ((alSet a.indexByEntity e a.entityIds.length).map Prod.fst).Nodup
      rw [hidx, List.map_append, List.nodup_append]
      refine ⟨hI1, List.nodup_singleton e, ?_⟩
      intro x hx hxe
      simp only [List.map_singleton, List.mem_singleton] at hxe
      exact henotkey (hxe ▸ hx)
    · intro p hp
      rw [hidx] at hp
      show p.2 < (a.entityIds ++ [e]).length ∧
        (a.entityIds ++ [e]).getD p.2 0 = p.1
      rw [List.length_append, List.length_singleton]
      rcases List.mem_append.1 hp with hp | hp
      · obtain ⟨hlt, hval⟩ := hI2 p hp
        refine ⟨by omega, ?_⟩
        rw [List.getD_eq_getElem _ 0 (by rw [List.length_append]; omega),
          List.getElem_append_left hlt, ← List.getD_eq_getElem _ 0 hlt, hval]
      · simp only [List.mem_singleton] at hp
        subst hp
        refine ⟨Nat.lt_succ_self _, ?_⟩
        rw [List.getD_eq_getElem _ 0 (by simp)]
        simp
    · intro q hq
      show alGet (alSet a.indexByEntity e a.entityIds.length) q.2 = some q.1
      rw [List.enum_append] at hq
      rcases List.mem_append.1 hq with hq | hq
      · obtain ⟨hlt, hval⟩ := List.mem_enum hq
        have hq2 : q.2 ≠ e := by
          intro hc
          refine hnew ?_
          rw [← hc, hval]
          exact List.getElem_mem _
        rw [alGet_alSet_ne _ _ _ _ (fun h => hq2 h.symm)]
        exact hI3 q hq
      · simp only [List.enumFrom_singleton, List.mem_singleton] at hq
        subst hq
        exact alGet_alSet_self _ _ _
    · show m'.map Prod.fst = a.typeIds
      rw [hmkeys, hkeys]
    · intro p hp
      have hpk : p.1 ∈ a.ctors.map Ctor.typeId := by
        rw [← hty, ← hkeys, ← hmkeys]
        exact List.mem_map_of_mem Prod.fst hp
      simp only [List.mem_map] at hpk
      obtain ⟨c, hc, hcp⟩ := hpk
      obtain ⟨st, hst, _⟩ := hschema c hc
      have hm'n : (m'.map Prod.fst).Nodup := by rw [hmkeys]; exact hstkeysn
      have hlook : alGet m' p.1 = some p.2 := alGet_eq_some_of_mem hm'n hp
      rw [← hcp] at hlook
      rw [hupd c hc st hst] at hlook
      injection hlook with hlook
      have hstmem := mem_of_alGet_eq_some hst
      obtain ⟨hstwf, hstsz⟩ := hstWF _ hstmem
      obtain ⟨_, hwf', hsz', _, _⟩ :=
        set_ok_char hstwf a.entityIds.length (valFor vals c)
          (hstorable c hc st hst)
      constructor
      · rw [← hlook]
        exact hwf'
      · rw [← hlook]
        show _ = (a.entityIds ++ [e]).length
        rw [hsz', hstsz, List.length_append]
        simp
    · intro c hc
      obtain ⟨st, hst, hsch⟩ := hschema c hc
      refine ⟨(st.set ((a.entityIds.length : ℕ) : ℤ) (valFor vals c)).1,
        hupd c hc st hst, ?_⟩
      obtain ⟨hstwf, _⟩ := hstWF _ (mem_of_alGet_eq_some hst)
      obtain ⟨hsch', _, _, _, _⟩ :=
        set_ok_char hstwf a.entityIds.length (valFor vals c)
          (hstorable c hc st hst)
      rw [hsch', hsch]
  · show alGet (alSet a.indexByEntity e a.entityIds.length) e = _
    rw [alGet_alSet_self]
    rfl
  · intro r hr
    show alGet (alSet a.indexByEntity e a.entityIds.length) r = _
    rw [alGet_alSet_ne _ _ _ _ (fun h => hr h.symm)]
    rfl
  · exact hupd

/- Archetype.removeEntity: swap-remove characterization. -/

theorem alGet_map_swapRemove (idx : ℕ) (m : List (String × ColumnStore))
    (k : String) :
    alGet (m.map (fun p => (p.1, (p.2.swapRemove (idx : ℤ)).1))) k =
      (alGet m k).map (fun st => (st.swapRemove (idx : ℤ)).1) := by
  induction m with
  | nil => rfl
  | cons p t ih =>
    obtain ⟨k', v⟩ := p
    by_cases hp : k' = k
    · simp [alGet, hp]
    · simp [alGet, hp, ih]

theorem swapRemove_err_none {s : ColumnStore} (i : ℕ) (hi : i < s.size) :
    (s.swapRemove (i : ℤ)).2 = none := by
  rw [swapRemove_natCast_eq s i hi]
  split
  · rfl
  · rfl

theorem swapRemoveStores_eq (idx : ℕ) (m : List (String × ColumnStore))
    (h : ∀ p ∈ m, idx < p.2.size) :
    swapRemoveStores idx m =
      some (m.map (fun p => (p.1, (p.2.swapRemove (idx : ℤ)).1))) := by
  induction m with
  | nil => rfl
  | cons p t ih =>
    obtain ⟨k, st⟩ := p
    have hnone : (st.swapRemove (idx : ℤ)).2 = none :=
      swapRemove_err_none idx (h (k, st) (List.mem_cons_self _ _))
    have hsw : st.swapRemove (idx : ℤ) =
        ((st.swapRemove (idx : ℤ)).1, none) := by
      rw [← hnone]
    show (match st.swapRemove (idx : ℤ) with
      | (st', none) => (swapRemoveStores idx t).map (fun r => (k, st') :: r)
      | (_, some _) => none) = _
    rw [hsw, ih (fun q hq => h q (List.mem_cons_of_mem _ hq))]
    rfl

theorem removedIds_length (ids : List Entity) (idx : ℕ) :
    (removedIds ids idx).length = ids.length - 1 := by
  show ((ids.set idx (ids.getD (ids.length - 1) 0)).dropLast).length = _
  rw [List.length_dropLast, List.length_set]

theorem removedIds_getD (ids : List Entity) (idx j : ℕ)
    (hj : j < ids.length - 1) :
    (removedIds ids idx).getD j 0 =
      if idx = j then ids.getD (ids.length - 1) 0 else ids.getD j 0 := by
  have hj' : j < (removedIds ids idx).length := by
    rw [removedIds_length]
    exact hj
  rw [List.getD_eq_getElem _ 0 hj']
  show getElem ((ids.set idx (ids.getD (ids.length - 1) 0)).dropLast) j hj' =
    _
  rw [List.getElem_dropLast, List.getElem_set]
  by_cases h : idx = j
  · rw [if_pos h, if_pos h]
  · rw [if_neg h, if_neg h]
    exact (List.getD_eq_getElem _ 0 (by omega)).symm

theorem removedIds_nodup {ids : List Entity} {idx : ℕ}
    (hidx : idx < ids.length) (hn : ids.Nodup) :
    (removedIds ids idx).Nodup := by
  rw [List.nodup_iff_injective_getElem]
  intro ⟨j, hj⟩ ⟨k, hk⟩ hv
  have hj' : j < ids.length - 1 := by rw [removedIds_length] at hj; exact hj
  have hk' : k < ids.length - 1 := by rw [removedIds_length] at hk; exact hk
  have hl : ids.length - 1 < ids.length := by omega
  have hvD : (removedIds ids idx).getD j 0 = (removedIds ids idx).getD k 0 := by
    rw [List.getD_eq_getElem _ 0 hj, List.getD_eq_getElem _ 0 hk]
    exact hv
  rw [removedIds_getD ids idx j hj', removedIds_getD ids idx k hk'] at hvD
  have hinj : ∀ {x y : ℕ}, x < ids.length → y < ids.length →
      ids.getD x 0 = ids.getD y 0 → x = y := by
    intro x y hx hy hxy
    rw [List.getD_eq_getElem _ 0 hx, List.getD_eq_getElem _ 0 hy] at hxy
    exact (List.Nodup.getElem_inj_iff hn).1 hxy
  have hjq : j < ids.length := lt_of_lt_of_le hj' (Nat.sub_le _ _)
  have hkq : k < ids.length := lt_of_lt_of_le hk' (Nat.sub_le _ _)
  by_cases hij : idx = j <;> by_cases hik : idx = k
  · exact Fin.ext (hij ▸ hik)
  · rw [if_pos hij, if_neg hik] at hvD
    exact absurd (hinj hl hkq hvD) (ne_of_gt hk')
  · rw [if_neg hij, if_pos hik] at hvD
    exact absurd (hinj hjq hl hvD) (ne_of_lt hj')
  · rw [if_neg hij, if_neg hik] at hvD
    exact Fin.ext (hinj hjq hkq hvD)

theorem removedIds_mem {ids : List Entity} {idx : ℕ}
    (hidx : idx < ids.length) (hn : ids.Nodup) (r : Entity) :
    r ∈ removedIds ids idx ↔ r ∈ ids ∧ r ≠ ids.getD idx 0 := by
  have hinj : ∀ {x y : ℕ}, x < ids.length → y < ids.length →
      ids.getD x 0 = ids.getD y 0 → x = y := by
    intro x y hx hy hxy
    rw [List.getD_eq_getElem _ 0 hx, List.getD_eq_getElem _ 0 hy] at hxy
    exact (List.Nodup.getElem_inj_iff hn).1 hxy
  constructor
  · intro hr
    rw [List.mem_iff_getElem] at hr
    obtain ⟨j, hj, hval⟩ := hr
    have hj' : j < ids.length - 1 := by rw [removedIds_length] at hj; exact hj
    have hvD : (removedIds ids idx).getD j 0 = r := by
      rw [List.getD_eq_getElem _ 0 hj]
      exact hval
    rw [removedIds_getD ids idx j hj'] at hvD
    by_cases hij : idx = j
    · rw [if_pos hij] at hvD
      constructor
      · rw [← hvD, List.getD_eq_getElem _ 0 (by omega)]
        exact List.getElem_mem _
      · intro hc
        exact absurd (hinj (by omega) hidx (hvD.trans hc)) (by omega)
    · rw [if_neg hij] at hvD
      constructor
      · rw [← hvD, List.getD_eq_getElem _ 0 (by omega)]
        exact List.getElem_mem _
      · intro hc
        exact hij (hinj (by omega) hidx (hvD.trans hc)).symm
  · intro ⟨hr, hne⟩
    rw [List.mem_iff_getElem] at hr
    obtain ⟨i, hi, hval⟩ := hr
    have hiD : ids.getD i 0 = r := by
      rw [List.getD_eq_getElem _ 0 hi]
      exact hval
    have hine : i ≠ idx := by
      intro hc
      exact hne (by rw [← hiD, hc])
    rw [List.mem_iff_getElem]
    by_cases hil : i = ids.length - 1
    · refine ⟨idx, by rw [removedIds_length]; omega, ?_⟩
      have h1 : (removedIds ids idx).getD idx 0 = r := by
        rw [removedIds_getD ids idx idx (by omega), if_pos rfl, ← hil, hiD]
      rw [← h1, List.getD_eq_getElem _ 0 (by rw [removedIds_length]; omega)]
    · refine ⟨i, by rw [removedIds_length]; omega, ?_⟩
      have h1 : (removedIds ids idx).getD i 0 = r := by
        rw [removedIds_getD ids idx i (by omega),
          if_neg (fun hc => hine hc.symm), hiD]
      rw [← h1, List.getD_eq_getElem _ 0 (by rw [removedIds_length]; omega)]

theorem removeEntity_char {a : Archetype} (hWF : a.WF) {e : Entity} {idx : ℕ}
    (hidx : a.indexOf e = some idx) :
    ∃ a', a.removeEntity e = some a' ∧ a'.WF ∧
      a'.ctors = a.ctors ∧ a'.typeIds = a.typeIds ∧
      a'.stores = a.stores.map
        (fun p => (p.1, (p.2.swapRemove (idx : ℤ)).1)) ∧
      a'.entityIds.length = a.entityIds.length - 1 ∧
      (∀ r, r ∈ a'.entityIds ↔ r ∈ a.entityIds ∧ r ≠ e) ∧
      (∀ r i, r ≠ e → a.indexOf r = some i →
        a'.indexOf r =
          some (if i = a.entityIds.length - 1 then idx else i) ∧
        ∀ c ∈ a.ctors,
          a'.getComponentAt c
              (((if i = a.entityIds.length - 1 then idx else i) : ℕ) : ℤ) =
            a.getComponentAt c (i : ℤ)) := by
  have hWF2 := hWF
  obtain ⟨hty, hsorted, htyn, hidsn, hI1, hI2, hI3, hkeys, hstWF, hschema⟩ :=
    hWF2
  obtain ⟨hidxlt, hidxval⟩ := (indexOf_eq_some_iff hWF e idx).1 hidx
  have hget : alGet a.indexByEntity e = some idx := hidx
  have hgetD_idx : a.entityIds.getD idx 0 = e := by
    rw [List.getD_eq_getElem _ 0 hidxlt]
    exact hidxval
  have hinj : ∀ {x y : ℕ}, x < a.entityIds.length → y < a.entityIds.length →
      a.entityIds.getD x 0 = a.entityIds.getD y 0 → x = y := by
    intro x y hx hy hxy
    rw [List.getD_eq_getElem _ 0 hx, List.getD_eq_getElem _ 0 hy] at hxy
    exact (List.Nodup.getElem_inj_iff hidsn).1 hxy
  have hstlt : ∀ p ∈ a.stores, idx < p.2.size := by
    intro p hp
    rw [(hstWF p hp).2]
    exact hidxlt
  have hss := swapRemoveStores_eq idx a.stores hstlt
  have hIget : ∀ j : ℕ, j < a.entityIds.length →
      alGet a.indexByEntity (a.entityIds.getD j 0) = some j := by
    intro j hj
    apply hI3 (j, a.entityIds.getD j 0)
    rw [List.mem_iff_getElem]
    refine ⟨j, by simpa using hj, ?_⟩
    rw [List.getElem_enum, List.getD_eq_getElem _ 0 hj]
  have hstores'keys : (a.stores.map
      (fun p => (p.1, (p.2.swapRemove (idx : ℤ)).1))).map Prod.fst =
      a.typeIds := by
    rw [List.map_map]
    exact hkeys
  have hstores'WF : ∀ p ∈ a.stores.map
      (fun p => (p.1, (p.2.swapRemove (idx : ℤ)).1)),
      p.2.WF ∧ p.2.size = a.entityIds.length - 1 := by
    intro p hp
    simp only [List.mem_map] at hp
    obtain ⟨q, hq, rfl⟩ := hp
    obtain ⟨hwf, hsz⟩ := hstWF q hq
    have hil : idx < q.2.size := by rw [hsz]; exact hidxlt
    obtain ⟨_, _, hwf', _, hsz', _, _⟩ := swapRemove_ok_char hwf idx hil
    exact ⟨hwf', by rw [hsz', hsz]⟩
  have hstores'schema : ∀ c ∈ a.ctors,
      ∃ st, alGet (a.stores.map
        (fun p => (p.1, (p.2.swapRemove (idx : ℤ)).1))) c.typeId = some st ∧
        st.schema = c.schema := by
    intro c hc
    obtain ⟨st, hst, hsch⟩ := hschema c hc
    refine ⟨(st.swapRemove (idx : ℤ)).1, ?_, ?_⟩
    · rw [alGet_map_swapRemove, hst]
      rfl
    · obtain ⟨hwf, hsz⟩ := hstWF _ (mem_of_alGet_eq_some hst)
      have hsz2 : st.size = a.entityIds.length := hsz
      have hil : idx < st.size := by rw [hsz2]; exact hidxlt
      obtain ⟨_, hsch', _, _, _, _, _⟩ := swapRemove_ok_char hwf idx hil
      rw [hsch', hsch]
  have hvalpres : ∀ i : ℕ, i < a.entityIds.length → i ≠ idx →
      ∀ c ∈ a.ctors, ∀ st, alGet a.stores c.typeId = some st →
        ((st.swapRemove (idx : ℤ)).1).get
            (((if i = a.entityIds.length - 1 then idx else i) : ℕ) : ℤ) =
          st.get (i : ℤ) := by
    intro i hilt hine c hc st hst
    obtain ⟨hwf, hsz⟩ := hstWF _ (mem_of_alGet_eq_some hst)
    have hsz2 : st.size = a.entityIds.length := hsz
    have hil : idx < st.size := by rw [hsz2]; exact hidxlt
    obtain ⟨_, _, _, _, _, hpres, hmoved⟩ := swapRemove_ok_char hwf idx hil
    by_cases hl : i = a.entityIds.length - 1
    · rw [if_pos hl]
      have hidxne : idx ≠ a.entityIds.length - 1 := fun hc => hine (by omega)
      have h2 : st.size - 1 = i := by omega
      rw [hmoved (by omega), h2]
    · rw [if_neg hl]
      exact hpres i (by omega) hine
  have hvalgoal : ∀ i : ℕ, i < a.entityIds.length → i ≠ idx →
      ∀ c ∈ a.ctors,
        (alGet (a.stores.map (fun p => (p.1, (p.2.swapRemove (idx : ℤ)).1)))
            c.typeId).map (fun st => st.get
              (((if i = a.entityIds.length - 1 then idx else i) : ℕ) : ℤ)) =
          (alGet a.stores c.typeId).map (fun st => st.get (i : ℤ)) := by
    intro i hilt hine c hc
    obtain ⟨st, hst, _⟩ := hschema c hc
    have hv := hvalpres i hilt hine c hc st hst
    rw [alGet_map_swapRemove, hst]
    exact congrArg some hv
  by_cases hlast : idx = a.entityIds.length - 1
  · -- removed row is the last row: no index fix-up entry is written
    have hlastEe : a.entityIds.getD (a.entityIds.length - 1) 0 = e := by
      rw [← hlast]
      exact hgetD_idx
    have hm'n : ((alRemove a.indexByEntity e).map Prod.fst).Nodup :=
      nodup_map_fst_alRemove hI1 e
    have hm'get : ∀ k, k ≠ e →
        alGet (alRemove a.indexByEntity e) k = alGet a.indexByEntity k :=
      fun k hk => alGet_alRemove_ne _ _ _ (fun hc => hk hc.symm)
    have hm'gete : alGet (alRemove a.indexByEntity e) e = none :=
      alGet_alRemove_self hI1 e
    have hrem : a.removeEntity e = some
        { a with
          entityIds := removedIds a.entityIds idx,
          indexByEntity := alRemove a.indexByEntity e,
          stores := a.stores.map
            (fun p => (p.1, (p.2.swapRemove (idx : ℤ)).1)) } := by
      have hss' : swapRemoveStores (a.entityIds.length - 1) a.stores =
          some (a.stores.map
            (fun p => (p.1, (p.2.swapRemove (idx : ℤ)).1))) := by
        rw [← hlast]
        exact hss
      rw [Archetype.removeEntity, hget]
      show (if idx ≠ a.entityIds.length - 1 then
          (swapRemoveStores idx a.stores).map (fun ss =>
            { a with
              entityIds := (a.entityIds.set idx
                (a.entityIds.getD (a.entityIds.length - 1) 0)).dropLast,
              indexByEntity := alSet (alRemove a.indexByEntity e)
                (a.entityIds.getD (a.entityIds.length - 1) 0) idx,
              stores := ss })
        else
          (swapRemoveStores (a.entityIds.length - 1) a.stores).map (fun ss =>
            { a with
              entityIds := (a.entityIds.set idx
                (a.entityIds.getD (a.entityIds.length - 1) 0)).dropLast,
              indexByEntity := alRemove a.indexByEntity e,
              stores := ss })) = _
      rw [if_neg (not_not.2 hlast), hss']
      rfl
    refine ⟨_, hrem, ?_, rfl, rfl, rfl, removedIds_length _ _, ?_, ?_⟩
    · refine ⟨hty, hsorted, htyn, removedIds_nodup hidxlt hidsn, hm'n,
        ?_, ?_, hstores'keys, ?_, hstores'schema⟩
      · intro p hp
        have hpg : alGet (alRemove a.indexByEntity e) p.1 = some p.2 :=
          alGet_eq_some_of_mem hm'n hp
        have hpe : p.1 ≠ e := by
          intro hc
          rw [hc, hm'gete] at hpg
          exact Option.noConfusion hpg
        rw [hm'get p.1 hpe] at hpg
        obtain ⟨hplt0, hpval0⟩ := hI2 (p.1, p.2) (mem_of_alGet_eq_some hpg)
        have hplt : p.2 < a.entityIds.length := hplt0
        have hpval : a.entityIds.getD p.2 0 = p.1 := hpval0
        have hpidx : p.2 ≠ idx := by
          intro hc
          exact hpe (by rw [← hpval, hc, hgetD_idx])
        show p.2 < (removedIds a.entityIds idx).length ∧
          (removedIds a.entityIds idx).getD p.2 0 = p.1
        rw [removedIds_length]
        refine ⟨by omega, ?_⟩
        rw [removedIds_getD _ _ _ (by omega),
          if_neg (fun hc => hpidx hc.symm)]
        exact hpval
      · intro q hq
        obtain ⟨hqlt, hqval⟩ := List.mem_enum hq
        have hq1 : q.1 < a.entityIds.length - 1 := by
          rw [removedIds_length] at hqlt
          exact hqlt
        have hq2 : q.2 = a.entityIds.getD q.1 0 := by
          rw [hqval, ← List.getD_eq_getElem _ 0 hqlt,
            removedIds_getD _ _ _ hq1, if_neg (by omega)]
        have hq2e : q.2 ≠ e := by
          intro hc
          have := hinj (by omega) hidxlt
            ((hq2.symm.trans hc).trans hgetD_idx.symm)
          omega
        show alGet (alRemove a.indexByEntity e) q.2 = some q.1
        rw [hm'get q.2 hq2e, hq2]
        exact hIget q.1 (by omega)
      · intro p hp
        obtain ⟨hw, hs⟩ := hstores'WF p hp
        refine ⟨hw, ?_⟩
        show p.2.size = (removedIds a.entityIds idx).length
        rw [removedIds_length]
        exact hs
    · intro r
      show r ∈ removedIds a.entityIds idx ↔ _
      rw [removedIds_mem hidxlt hidsn r, hgetD_idx]
    · intro r i hr hgi
      obtain ⟨hilt0, hival0⟩ := hI2 (r, i) (mem_of_alGet_eq_some hgi)
      have hilt : i < a.entityIds.length := hilt0
      have hival : a.entityIds.getD i 0 = r := hival0
      have hine : i ≠ idx := by
        intro hc
        exact hr (by rw [← hival, hc, hgetD_idx])
      have hile : i ≠ a.entityIds.length - 1 := by
        rw [← hlast]
        exact hine
      constructor
      · rw [if_neg hile]
        show alGet (alRemove a.indexByEntity e) r = some i
        rw [hm'get r hr]
        exact hgi
      · intro c hc
        exact hvalgoal i hilt hine c hc
  · -- interior removal: the moved last entity's index is rewritten
    have hlastlt : a.entityIds.length - 1 < a.entityIds.length := by omega
    have hlastE_ne : a.entityIds.getD (a.entityIds.length - 1) 0 ≠ e := by
      intro hc
      exact hlast (hinj hidxlt hlastlt (hgetD_idx.trans hc.symm))
    have hm'n : ((alSet (alRemove a.indexByEntity e)
        (a.entityIds.getD (a.entityIds.length - 1) 0) idx).map
          Prod.fst).Nodup :=
      nodup_map_fst_alSet (nodup_map_fst_alRemove hI1 e) _ _
    have hm'lastE : alGet (alSet (alRemove a.indexByEntity e)
        (a.entityIds.getD (a.entityIds.length - 1) 0) idx)
        (a.entityIds.getD (a.entityIds.length - 1) 0) = some idx :=
      alGet_alSet_self _ _ _
    have hm'else : ∀ k, k ≠ a.entityIds.getD (a.entityIds.length - 1) 0 →
        k ≠ e →
        alGet (alSet (alRemove a.indexByEntity e)
          (a.entityIds.getD (a.entityIds.length - 1) 0) idx) k =
        alGet a.indexByEntity k := by
      intro k h1 h2
      rw [alGet_alSet_ne _ _ _ _ (fun hc => h1 hc.symm),
        alGet_alRemove_ne _ _ _ (fun hc => h2 hc.symm)]
    have hm'e : alGet (alSet (alRemove a.indexByEntity e)
        (a.entityIds.getD (a.entityIds.length - 1) 0) idx) e = none := by
      rw [alGet_alSet_ne _ _ _ _ hlastE_ne]
      exact alGet_alRemove_self hI1 e
    have hrem : a.removeEntity e = some
        { a with
          entityIds := removedIds a.entityIds idx,
          indexByEntity := alSet (alRemove a.indexByEntity e)
            (a.entityIds.getD (a.entityIds.length - 1) 0) idx,
          stores := a.stores.map
            (fun p => (p.1, (p.2.swapRemove (idx : ℤ)).1)) } := by
      rw [Archetype.removeEntity, hget]
      show (if idx ≠ a.entityIds.length - 1 then
          (swapRemoveStores idx a.stores).map (fun ss =>
            { a with
              entityIds := (a.entityIds.set idx
                (a.entityIds.getD (a.entityIds.length - 1) 0)).dropLast,
              indexByEntity := alSet (alRemove a.indexByEntity e)
                (a.entityIds.getD (a.entityIds.length - 1) 0) idx,
              stores := ss })
        else
          (swapRemoveStores (a.entityIds.length - 1) a.stores).map (fun ss =>
            { a with
              entityIds := (a.entityIds.set idx
                (a.entityIds.getD (a.entityIds.length - 1) 0)).dropLast,
              indexByEntity := alRemove a.indexByEntity e,
              stores := ss })) = _
      rw [if_pos hlast, hss]
      rfl
    refine ⟨_, hrem, ?_, rfl, rfl, rfl, removedIds_length _ _, ?_, ?_⟩
    · refine ⟨hty, hsorted, htyn, removedIds_nodup hidxlt hidsn, hm'n,
        ?_, ?_, hstores'keys, ?_, hstores'schema⟩
      · intro p hp
        have hpg : alGet (alSet (alRemove a.indexByEntity e)
            (a.entityIds.getD (a.entityIds.length - 1) 0) idx) p.1 =
            some p.2 := alGet_eq_some_of_mem hm'n hp
        show p.2 < (removedIds a.entityIds idx).length ∧
          (removedIds a.entityIds idx).getD p.2 0 = p.1
        rw [removedIds_length]
        by_cases hpl : p.1 = a.entityIds.getD (a.entityIds.length - 1) 0
        · rw [hpl, hm'lastE] at hpg
          injection hpg with hpg
          refine ⟨by omega, ?_⟩
          rw [removedIds_getD _ _ _ (by omega), if_pos hpg]
          exact hpl.symm
        · have hpe : p.1 ≠ e := by
            intro hc
            rw [hc, hm'e] at hpg
            exact Option.noConfusion hpg
          rw [hm'else p.1 hpl hpe] at hpg
          obtain ⟨hplt0, hpval0⟩ := hI2 (p.1, p.2) (mem_of_alGet_eq_some hpg)
          have hplt : p.2 < a.entityIds.length := hplt0
          have hpval : a.entityIds.getD p.2 0 = p.1 := hpval0
          have hpidx : p.2 ≠ idx := by
            intro hc
            exact hpe (by rw [← hpval, hc, hgetD_idx])
          have hplast : p.2 ≠ a.entityIds.length - 1 := by
            intro hc
            exact hpl (by rw [← hpval, hc])
          refine ⟨by omega, ?_⟩
          rw [removedIds_getD _ _ _ (by omega),
            if_neg (fun hc => hpidx hc.symm)]
          exact hpval
      · intro q hq
        obtain ⟨hqlt, hqval⟩ := List.mem_enum hq
        have hq1 : q.1 < a.entityIds.length - 1 := by
          rw [removedIds_length] at hqlt
          exact hqlt
        show alGet (alSet (alRemove a.indexByEntity e)
          (a.entityIds.getD (a.entityIds.length - 1) 0) idx) q.2 = some q.1
        by_cases hiq : idx = q.1
        · have hq2 : q.2 = a.entityIds.getD (a.entityIds.length - 1) 0 := by
            rw [hqval, ← List.getD_eq_getElem _ 0 hqlt,
              removedIds_getD _ _ _ hq1, if_pos hiq]
          rw [hq2, hm'lastE]
          exact congrArg some hiq
        · have hq2 : q.2 = a.entityIds.getD q.1 0 := by
            rw [hqval, ← List.getD_eq_getElem _ 0 hqlt,
              removedIds_getD _ _ _ hq1, if_neg hiq]
          have hq2l : q.2 ≠ a.entityIds.getD (a.entityIds.length - 1) 0 := by
            intro hc
            have := hinj (by omega) hlastlt (hq2.symm.trans hc)
            omega
          have hq2e : q.2 ≠ e := by
            intro hc
            have := hinj (by omega) hidxlt
              ((hq2.symm.trans hc).trans hgetD_idx.symm)
            omega
          rw [hm'else q.2 hq2l hq2e, hq2]
          exact hIget q.1 (by omega)
      · intro p hp
        obtain ⟨hw, hs⟩ := hstores'WF p hp
        refine ⟨hw, ?_⟩
        show p.2.size = (removedIds a.entityIds idx).length
        rw [removedIds_length]
        exact hs
    · intro r
      show r ∈ removedIds a.entityIds idx ↔ _
      rw [removedIds_mem hidxlt hidsn r, hgetD_idx]
    · intro r i hr hgi
      obtain ⟨hilt0, hival0⟩ := hI2 (r, i) (mem_of_alGet_eq_some hgi)
      have hilt : i < a.entityIds.length := hilt0
      have hival : a.entityIds.getD i 0 = r := hival0
      have hine : i ≠ idx := by
        intro hc
        exact hr (by rw [← hival, hc, hgetD_idx])
      constructor
      · by_cases hil : i = a.entityIds.length - 1
        · rw [if_pos hil]
          have hr_lastE : a.entityIds.getD (a.entityIds.length - 1) 0 = r :=
            hil ▸ hival
          show alGet (alSet (alRemove a.indexByEntity e)
            (a.entityIds.getD (a.entityIds.length - 1) 0) idx) r = some idx
          rw [← hr_lastE]
          exact hm'lastE
        · rw [if_neg hil]
          have hrne : r ≠ a.entityIds.getD (a.entityIds.length - 1) 0 := by
            intro hc
            exact hil (hinj hilt hlastlt (hival.trans hc))
          show alGet (alSet (alRemove a.indexByEntity e)
            (a.entityIds.getD (a.entityIds.length - 1) 0) idx) r = some i
          rw [hm'else r hrne hr]
          exact hgi
      · intro c hc
        exact hvalgoal i hilt hine c hc

/- copyEntityTo and the query pipeline. -/

theorem foldl_alSet_preserve {α κ β : Type} [DecidableEq κ] (key : α → κ)
    (f : α → β) :
    ∀ (l : List α) (init : List (κ × β)) (k : κ), (∀ c ∈ l, key c ≠ k) →
      alGet (l.foldl (fun m c => alSet m (key c) (f c)) init) k =
        alGet init k := by
  intro l
  induction l with
  | nil => intro init k _; rfl
  | cons c t ih =>
    intro init k h
    show alGet (t.foldl _ (alSet init (key c) (f c))) k = _
    rw [ih _ _ (fun d hd => h d (List.mem_cons_of_mem _ hd)),
      alGet_alSet_ne _ _ _ _ (h c (List.mem_cons_self _ _))]

theorem foldl_alSet_get {α κ β : Type} [DecidableEq κ] (key : α → κ)
    (f : α → β) :
    ∀ (l : List α) (init : List (κ × β)) (x : α), x ∈ l →
      (l.map key).Nodup →
      alGet (l.foldl (fun m c => alSet m (key c) (f c)) init) (key x) =
        some (f x) := by
  intro l
  induction l with
  | nil => intro _ x hx _; exact absurd hx (List.not_mem_nil x)
  | cons c t ih =>
    intro init x hx hn
    simp only [List.map_cons, List.nodup_cons] at hn
    rcases List.mem_cons.1 hx with rfl | hx'
    · show alGet (t.foldl _ (alSet init (key x) (f x))) (key x) = _
      refine Eq.trans (foldl_alSet_preserve key f t _ _ ?_)
        (alGet_alSet_self _ _ _)
      intro d hd hc
      rw [← hc] at hn
      exact hn.1 (List.mem_map_of_mem key hd)
    · exact ih _ x hx' hn.2

theorem copyEntityTo_eq (a : Archetype) (indexSrc : ℤ) (target : Archetype) :
    a.copyEntityTo indexSrc target =
      target.ctors.foldl
        (fun out c => alSet out c.typeId (copyVal a indexSrc c)) [] := by
  show target.ctors.foldl _ [] = _
  congr 1
  funext out c
  show (match alGet a.stores c.typeId with
    | none => alSet out c.typeId c.defaultVal
    | some st => alSet out c.typeId (st.get indexSrc)) = _
  cases h : alGet a.stores c.typeId with
  | none =>
    show alSet out c.typeId c.defaultVal = _
    rw [copyVal, h]
  | some st =>
    show alSet out c.typeId (st.get indexSrc) = _
    rw [copyVal, h]

theorem copyEntityTo_get {a target : Archetype} (indexSrc : ℤ)
    (hn : (target.ctors.map Ctor.typeId).Nodup) {c : Ctor}
    (hc : c ∈ target.ctors) :
    alGet (a.copyEntityTo indexSrc target) c.typeId =
      some (copyVal a indexSrc c) := by
  rw [copyEntityTo_eq]
  exact foldl_alSet_get Ctor.typeId (copyVal a indexSrc) _ _ c hc hn

theorem valFor_copyEntityTo {a target : Archetype} (indexSrc : ℤ)
    (hn : (target.ctors.map Ctor.typeId).Nodup) {c : Ctor}
    (hc : c ∈ target.ctors) :
    valFor (a.copyEntityTo indexSrc target) c = copyVal a indexSrc c := by
  have h := @copyEntityTo_get a target indexSrc hn c hc
  rw [valFor, h]

theorem mapM_option_eq_some_map {α β : Type} (f : α → Option β) (g : α → β) :
    ∀ l : List α, (∀ x ∈ l, f x = some (g x)) →
      l.mapM f = some (l.map g) := by
  intro l
  induction l with
  | nil => intro _; rfl
  | cons x t ih =>
    intro h
    rw [List.mapM_cons, h x (List.mem_cons_self _ _),
      ih (fun y hy => h y (List.mem_cons_of_mem _ hy))]
    rfl

theorem getComponentAt_eq_compAtD {a : Archetype} {c : Ctor}
    (h : c.typeId ∈ a.stores.map Prod.fst) (i : ℤ) :
    a.getComponentAt c i = some (compAtD a c i) := by
  obtain ⟨st, hst⟩ := Option.isSome_iff_exists.1 ((alGet_isSome_iff _ _).2 h)
  rw [Archetype.getComponentAt, compAtD, Archetype.getComponentAt, hst]
  rfl

theorem queryArch_eq {a : Archetype} (ctors : List Ctor)
    (h : ∀ c ∈ ctors, c.typeId ∈ a.stores.map Prod.fst) :
    queryArch ctors a = some (queryRowsArch ctors a) := by
  exact mapM_option_eq_some_map _ _ _ (fun ie _ => by
    rw [mapM_option_eq_some_map (fun c => a.getComponentAt c (ie.1 : ℤ))
      (fun c => compAtD a c (ie.1 : ℤ)) ctors
      (fun c hc => getComponentAt_eq_compAtD (h c hc) _)]
    rfl)

theorem containsTypeId_iff (a : Archetype) (t : String) :
    a.containsTypeId t = true ↔ t ∈ a.typeIds := by
  rw [Archetype.containsTypeId, List.any_eq_true]
  constructor
  · intro ⟨u, hu, hue⟩
    exact (of_decide_eq_true hue) ▸ hu
  · intro ht
    exact ⟨t, ht, by simp⟩

theorem query_eq {w : World} (hWF : w.WF) (ctors : List Ctor) :
    w.query ctors = some (queryRows w ctors) := by
  have hper : ∀ p ∈ w.archetypeBySignature,
      (if (sortStrings (ctors.map Ctor.typeId)).all
          (fun s => p.2.containsTypeId s)
        then queryArch ctors p.2 else some []) =
      some (if (sortStrings (ctors.map Ctor.typeId)).all
          (fun s => p.2.containsTypeId s)
        then queryRowsArch ctors p.2 else []) := by
    intro p hp
    by_cases hm : (sortStrings (ctors.map Ctor.typeId)).all
        (fun s => p.2.containsTypeId s) = true
    · rw [if_pos hm, if_pos hm]
      apply queryArch_eq
      intro c hc
      have harch := (hWF.2.2.1 p hp).1
      have hkeys : p.2.stores.map Prod.fst = p.2.typeIds :=
        harch.2.2.2.2.2.2.2.1
      rw [hkeys]
      have hcin : c.typeId ∈ sortStrings (ctors.map Ctor.typeId) :=
        (sortStrings_perm _).mem_iff.2 (List.mem_map_of_mem Ctor.typeId hc)
      exact (containsTypeId_iff p.2 c.typeId).1 (List.all_eq_true.1 hm _ hcin)
    · rw [if_neg hm, if_neg hm]
  show (w.archetypeBySignature.mapM (fun p =>
    if (sortStrings (ctors.map Ctor.typeId)).all
        (fun s => p.2.containsTypeId s)
      then queryArch ctors p.2 else some [])).map List.flatten = _
  rw [mapM_option_eq_some_map _ _ _ hper]
  rfl

theorem queryRowsArch_fst (ctors : List Ctor) (a : Archetype) :
    (queryRowsArch ctors a).map Prod.fst = a.entityIds := by
  rw [queryRowsArch, List.map_map]
  have : (Prod.fst ∘ fun ie : ℕ × Entity =>
      (ie.2, ctors.map (fun c => compAtD a c (ie.1 : ℤ)))) = Prod.snd := rfl
  rw [this, List.enum_map_snd]

theorem queryRows_fst (w : World) (ctors : List Ctor) :
    (queryRows w ctors).map Prod.fst =
      (w.archetypeBySignature.map (fun p =>
        if (sortStrings (ctors.map Ctor.typeId)).all
            (fun s => p.2.containsTypeId s)
          then p.2.entityIds else [])).flatten := by
  rw [queryRows, List.map_flatten, List.map_map]
  congr 1
  apply List.map_congr_left
  intro p _
  show (if _ then queryRowsArch ctors p.2 else []).map Prod.fst = _
  by_cases hm : (sortStrings (ctors.map Ctor.typeId)).all
      (fun s => p.2.containsTypeId s) = true
  · rw [if_pos hm, if_pos hm, queryRowsArch_fst]
  · rw [if_neg hm, if_neg hm]
    rfl

theorem queryRows_fst_nodup {w : World} (hWF : w.WF) (ctors : List Ctor) :
    ((queryRows w ctors).map Prod.fst).Nodup := by
  rw [queryRows_fst, List.nodup_flatten]
  constructor
  · intro l hl
    rw [List.mem_map] at hl
    obtain ⟨p, hp, rfl⟩ := hl
    by_cases hm : (sortStrings (ctors.map Ctor.typeId)).all
        (fun s => p.2.containsTypeId s) = true
    · rw [if_pos hm]
      exact ((hWF.2.2.1 p hp).1).2.2.2.1
    · rw [if_neg hm]
      exact List.nodup_nil
  · rw [List.pairwise_map]
    have hkeysn := hWF.2.1
    have hpw : w.archetypeBySignature.Pairwise (fun p q => p.1 ≠ q.1) :=
      List.pairwise_map.1 hkeysn
    refine hpw.imp_of_mem ?_
    intro p q hp hq hne
    intro e hep heq
    have hep' : e ∈ p.2.entityIds := by
      by_cases hm : (sortStrings (ctors.map Ctor.typeId)).all
          (fun s => p.2.containsTypeId s) = true
      · rw [if_pos hm] at hep
        exact hep
      · rw [if_neg hm] at hep
        exact absurd hep (List.not_mem_nil e)
    have heq' : e ∈ q.2.entityIds := by
      by_cases hm : (sortStrings (ctors.map Ctor.typeId)).all
          (fun s => q.2.containsTypeId s) = true
      · rw [if_pos hm] at heq
        exact heq
      · rw [if_neg hm] at heq
        exact absurd heq (List.not_mem_nil e)
    have h1 := hWF.2.2.2.2 p hp e hep'
    have h2 := hWF.2.2.2.2 q hq e heq'
    rw [h1] at h2
    exact hne (Option.some.inj h2)

theorem mem_queryRows_fst {w : World} (ctors : List Ctor) (e : Entity) :
    e ∈ (queryRows w ctors).map Prod.fst ↔
      ∃ p ∈ w.archetypeBySignature,
        (sortStrings (ctors.map Ctor.typeId)).all
          (fun s => p.2.containsTypeId s) = true ∧ e ∈ p.2.entityIds := by
  rw [queryRows_fst, List.mem_flatten]
  constructor
  · intro ⟨l, hl, hel⟩
    rw [List.mem_map] at hl
    obtain ⟨p, hp, rfl⟩ := hl
    by_cases hm : (sortStrings (ctors.map Ctor.typeId)).all
        (fun s => p.2.containsTypeId s) = true
    · rw [if_pos hm] at hel
      exact ⟨p, hp, hm, hel⟩
    · rw [if_neg hm] at hel
      exact absurd hel (List.not_mem_nil e)
  · intro ⟨p, hp, hm, he⟩
    refine ⟨p.2.entityIds, ?_, he⟩
    rw [List.mem_map]
    refine ⟨p, hp, ?_⟩
    rw [if_pos hm]

/- World.getOrCreateArchetype. -/

theorem sortCtors_idem (l : List Ctor) :
    sortCtors (sortCtors l) = sortCtors l :=
  List.Sorted.insertionSort_eq (sortCtors_sorted l)

theorem getOrCreate_cached {w : World} {cs : List Ctor} {arch : Archetype}
    (h : alGet w.archetypeBySignature (sigOf cs) = some arch) :
    w.getOrCreateArchetype cs = (sigOf cs, w) := by
  show (match alGet w.archetypeBySignature (sigOf cs) with
    | some _ => (sigOf cs, w)
    | none =>
      (sigOf cs, { w with
        archetypeBySignature := alSet w.archetypeBySignature (sigOf cs)
          (Archetype.init (sortCtors cs)) })) = _
  rw [h]

theorem getOrCreate_new {w : World} {cs : List Ctor}
    (h : alGet w.archetypeBySignature (sigOf cs) = none) :
    w.getOrCreateArchetype cs = (sigOf cs,
      { w with
        archetypeBySignature := alSet w.archetypeBySignature (sigOf cs)
          (Archetype.init (sortCtors cs)) }) := by
  show (match alGet w.archetypeBySignature (sigOf cs) with
    | some _ => (sigOf cs, w)
    | none =>
      (sigOf cs, { w with
        archetypeBySignature := alSet w.archetypeBySignature (sigOf cs)
          (Archetype.init (sortCtors cs)) })) = _
  rw [h]

theorem getOrCreate_fst (w : World) (cs : List Ctor) :
    (w.getOrCreateArchetype cs).1 = sigOf cs := by
  cases h : alGet w.archetypeBySignature (sigOf cs) with
  | some arch => rw [getOrCreate_cached h]
  | none => rw [getOrCreate_new h]

theorem getOrCreate_entityArchetype (w : World) (cs : List Ctor) :
    (w.getOrCreateArchetype cs).2.entityArchetype = w.entityArchetype := by
  cases h : alGet w.archetypeBySignature (sigOf cs) with
  | some arch => rw [getOrCreate_cached h]
  | none => rw [getOrCreate_new h]

theorem getOrCreate_lookup_ne (w : World) (cs : List Ctor) (k : String)
    (hk : k ≠ sigOf cs) :
    alGet (w.getOrCreateArchetype cs).2.archetypeBySignature k =
      alGet w.archetypeBySignature k := by
  cases h : alGet w.archetypeBySignature (sigOf cs) with
  | some arch => rw [getOrCreate_cached h]
  | none =>
    rw [getOrCreate_new h]
    exact alGet_alSet_ne _ _ _ _ (fun hc => hk hc.symm)

theorem getOrCreate_lookup (w : World) (cs : List Ctor) :
    ∃ A, alGet (w.getOrCreateArchetype cs).2.archetypeBySignature
        (sigOf cs) = some A ∧
      (alGet w.archetypeBySignature (sigOf cs) = some A ∨
        (alGet w.archetypeBySignature (sigOf cs) = none ∧
          A = Archetype.init (sortCtors cs))) := by
  cases h : alGet w.archetypeBySignature (sigOf cs) with
  | some arch =>
    rw [getOrCreate_cached h]
    exact ⟨arch, h, Or.inl rfl⟩
  | none =>
    rw [getOrCreate_new h]
    refine ⟨Archetype.init (sortCtors cs), ?_, Or.inr ⟨rfl, rfl⟩⟩
    show alGet (alSet w.archetypeBySignature (sigOf cs)
      (Archetype.init (sortCtors cs))) (sigOf cs) = _
    rw [alGet_alSet_self]

theorem init_signature (cs : List Ctor) :
    (Archetype.init (sortCtors cs)).signature = sigOf cs := by
  show joinBar ((sortCtors (sortCtors cs)).map Ctor.typeId) =
    joinBar ((sortCtors cs).map Ctor.typeId)
  rw [sortCtors_idem]

theorem getOrCreate_WF {w : World} {cs : List Ctor} (hWF : w.WF)
    (hn : (cs.map Ctor.typeId).Nodup)
    (hsch : ∀ c ∈ cs, (c.schema.map Prod.fst).Nodup) :
    (w.getOrCreateArchetype cs).2.WF := by
  cases h : alGet w.archetypeBySignature (sigOf cs) with
  | some arch =>
    rw [getOrCreate_cached h]
    exact hWF
  | none =>
    rw [getOrCreate_new h]
    obtain ⟨h1, h2, h3, h4, h5⟩ := hWF
    have hnot : sigOf cs ∉ w.archetypeBySignature.map Prod.fst :=
      (alGet_eq_none_iff _ _).1 h
    have happ := alSet_not_mem_eq_append hnot
      (Archetype.init (sortCtors cs))
    have hn' : ((sortCtors cs).map Ctor.typeId).Nodup :=
      ((sortCtors_perm cs).map Ctor.typeId).nodup_iff.2 hn
    have hsch' : ∀ c ∈ sortCtors cs, (c.schema.map Prod.fst).Nodup :=
      fun c hc => hsch c ((sortCtors_perm cs).mem_iff.1 hc)
    refine ⟨h1, nodup_map_fst_alSet h2 _ _, ?_, ?_, ?_⟩
    · intro p hp
      rw [happ] at hp
      rcases List.mem_append.1 hp with hp | hp
      · exact h3 p hp
      · simp only [List.mem_singleton] at hp
        subst hp
        exact ⟨init_WF hn' hsch', init_signature cs⟩
    · intro q hq
      obtain ⟨p, hp, hpq, hmem⟩ := h4 q hq
      refine ⟨p, ?_, hpq, hmem⟩
      rw [happ]
      exact List.mem_append_left _ hp
    · intro p hp e he
      rw [happ] at hp
      rcases List.mem_append.1 hp with hp | hp
      · exact h5 p hp e he
      · simp only [List.mem_singleton] at hp
        subst hp
        exact absurd he (List.not_mem_nil e)

theorem getOrCreate_PipeFree {w : World} {cs : List Ctor}
    (hpf : w.PipeFree) (hcs : ∀ c ∈ cs, pipeFreeT c.typeId) :
    (w.getOrCreateArchetype cs).2.PipeFree := by
  cases h : alGet w.archetypeBySignature (sigOf cs) with
  | some arch =>
    rw [getOrCreate_cached h]
    exact hpf
  | none =>
    rw [getOrCreate_new h]
    intro p hp t ht
    have hnot : sigOf cs ∉ w.archetypeBySignature.map Prod.fst :=
      (alGet_eq_none_iff _ _).1 h
    rw [alSet_not_mem_eq_append hnot] at hp
    rcases List.mem_append.1 hp with hp | hp
    · exact hpf p hp t ht
    · simp only [List.mem_singleton] at hp
      subst hp
      have ht' : t ∈ (sortCtors (sortCtors cs)).map Ctor.typeId := ht
      rw [sortCtors_idem] at ht'
      simp only [List.mem_map] at ht'
      obtain ⟨c, hc, rfl⟩ := ht'
      exact hcs c ((sortCtors_perm cs).mem_iff.1 hc)

theorem mem_allCtors {w : World} {p : String × Archetype}
    (hp : p ∈ w.archetypeBySignature) {c : Ctor} (hc : c ∈ p.2.ctors) :
    c ∈ w.allCtors := by
  rw [World.allCtors, List.mem_flatten]
  exact ⟨p.2.ctors, List.mem_map_of_mem _ hp, hc⟩

theorem ctors_eq_of_map_typeId {pool : List Ctor}
    (hco : CtorsCoherent pool) :
    ∀ {l₁ l₂ : List Ctor}, (∀ c ∈ l₁, c ∈ pool) → (∀ c ∈ l₂, c ∈ pool) →
      l₁.map Ctor.typeId = l₂.map Ctor.typeId → l₁ = l₂ := by
  intro l₁
  induction l₁ with
  | nil =>
    intro l₂ _ _ h
    cases l₂ with
    | nil => rfl
    | cons c t => exact absurd h (by simp)
  | cons c t ih =>
    intro l₂ h₁ h₂ h
    cases l₂ with
    | nil => exact absurd h (by simp)
    | cons c' t' =>
      simp only [List.map_cons, List.cons_eq_cons] at h
      have hc : c = c' := hco c (h₁ c (List.mem_cons_self _ _)) c'
        (h₂ c' (List.mem_cons_self _ _)) h.1
      rw [hc, ih (fun d hd => h₁ d (List.mem_cons_of_mem _ hd))
        (fun d hd => h₂ d (List.mem_cons_of_mem _ hd)) h.2]

theorem getOrCreate_ctors {w : World} {cs : List Ctor} {A : Archetype}
    (hWF : w.WF) (hpf : w.PipeFree)
    (hcs : ∀ c ∈ cs, pipeFreeT c.typeId)
    (hco : CtorsCoherent (w.allCtors ++ cs))
    (hA : alGet (w.getOrCreateArchetype cs).2.archetypeBySignature
      (sigOf cs) = some A) :
    A.ctors = sortCtors cs := by
  obtain ⟨A', hA', hcase⟩ := getOrCreate_lookup w cs
  rw [hA'] at hA
  injection hA with hA
  rw [hA] at hcase
  rcases hcase with hold | ⟨_, rfl⟩
  · -- the signature was already cached: pipe-freeness decomposes it
    have hmem := mem_of_alGet_eq_some hold
    obtain ⟨hAWF, hAsig⟩ := hWF.2.2.1 _ hmem
    have hApf : ∀ t ∈ A.typeIds, pipeFreeT t := hpf _ hmem
    have hcspf : ∀ t ∈ (sortCtors cs).map Ctor.typeId, pipeFreeT t := by
      intro t ht
      simp only [List.mem_map] at ht
      obtain ⟨c, hc, rfl⟩ := ht
      exact hcs c ((sortCtors_perm cs).mem_iff.1 hc)
    have htyeq : A.typeIds = (sortCtors cs).map Ctor.typeId :=
      joinBar_inj hApf hcspf hAsig
    have hmapa : A.ctors.map Ctor.typeId = (sortCtors cs).map Ctor.typeId :=
      by rw [← hAWF.1, htyeq]
    apply ctors_eq_of_map_typeId hco _ _ hmapa
    · intro d hd
      exact List.mem_append_left _ (mem_allCtors hmem hd)
    · intro d hd
      exact List.mem_append_right _ ((sortCtors_perm cs).mem_iff.1 hd)
  · show sortCtors (sortCtors cs) = sortCtors cs
    exact sortCtors_idem cs

/- World.destroyEntity. -/

theorem mem_alSet_self {κ β : Type} [DecidableEq κ]
    (m : List (κ × β)) (k : κ) (v : β) : (k, v) ∈ alSet m k v := by
  induction m with
  | nil => exact List.mem_singleton.2 rfl
  | cons p t ih =>
    by_cases hp : p.1 = k
    · rw [alSet, if_pos hp]
      exact List.mem_cons_self _ _
    · rw [alSet, if_neg hp]
      exact List.mem_cons_of_mem _ ih

theorem mem_alSet_of_ne {κ β : Type} [DecidableEq κ]
    {m : List (κ × β)} {p : κ × β} (hp : p ∈ m) (k : κ) (v : β)
    (hne : p.1 ≠ k) : p ∈ alSet m k v := by
  induction m with
  | nil => exact absurd hp (List.not_mem_nil p)
  | cons q t ih =>
    by_cases hq : q.1 = k
    · rw [alSet, if_pos hq]
      rcases List.mem_cons.1 hp with rfl | hp'
      · exact absurd hq hne
      · exact List.mem_cons_of_mem _ hp'
    · rw [alSet, if_neg hq]
      rcases List.mem_cons.1 hp with rfl | hp'
      · exact List.mem_cons_self _ _
      · exact List.mem_cons_of_mem _ (ih hp')

theorem mem_alSet_nodup {κ β : Type} [DecidableEq κ]
    {m : List (κ × β)} (hn : (m.map Prod.fst).Nodup) (k : κ) (v : β)
    {p : κ × β} (hp : p ∈ alSet m k v) :
    p = (k, v) ∨ (p ∈ m ∧ p.1 ≠ k) := by
  have hg : alGet (alSet m k v) p.1 = some p.2 :=
    alGet_eq_some_of_mem (nodup_map_fst_alSet hn k v) hp
  by_cases hpk : p.1 = k
  · rw [hpk, alGet_alSet_self] at hg
    injection hg with hg
    left
    calc p = (p.1, p.2) := rfl
    _ = (k, v) := by rw [hpk, hg]
  · rw [alGet_alSet_ne _ _ _ _ (fun hc => hpk hc.symm)] at hg
    exact Or.inr ⟨mem_of_alGet_eq_some hg, hpk⟩

theorem mem_alRemove_nodup {κ β : Type} [DecidableEq κ]
    {m : List (κ × β)} (hn : (m.map Prod.fst).Nodup) (k : κ)
    {p : κ × β} (hp : p ∈ alRemove m k) : p ∈ m ∧ p.1 ≠ k := by
  refine ⟨(alRemove_sublist m k).subset hp, ?_⟩
  intro hc
  have hg : alGet (alRemove m k) p.1 = some p.2 :=
    alGet_eq_some_of_mem (nodup_map_fst_alRemove hn k) hp
  rw [hc, alGet_alRemove_self hn] at hg
  exact Option.noConfusion hg

theorem entry_eq_of_fst_eq {κ β : Type} [DecidableEq κ]
    {m : List (κ × β)} (hn : (m.map Prod.fst).Nodup)
    {p q : κ × β} (hp : p ∈ m) (hq : q ∈ m) (h : p.1 = q.1) : p = q := by
  have h1 : alGet m p.1 = some p.2 := alGet_eq_some_of_mem hn hp
  have h2 : alGet m q.1 = some q.2 := alGet_eq_some_of_mem hn hq
  rw [h, h2] at h1
  injection h1 with h1
  calc p = (p.1, p.2) := rfl
  _ = (q.1, q.2) := by rw [h, h1]
  _ = q := rfl

theorem getComponent_absent {w : World} {e : Entity}
    (h : alGet w.entityArchetype e = none) (c : Ctor) :
    w.getComponent e c = none := by
  rw [World.getComponent, h]

theorem destroyEntity_char {w : World} (hWF : w.WF) {e : Entity}
    {sig : String} (hsig : alGet w.entityArchetype e = some sig) :
    ∃ w', w.destroyEntity e = some w' ∧ w'.WF ∧
      alGet w'.entityArchetype e = none ∧
      (∀ c : Ctor, w'.getComponent e c = none) ∧
      (∀ p ∈ w'.archetypeBySignature, e ∉ p.2.entityIds) ∧
      (∀ r, r ≠ e → alGet w'.entityArchetype r = alGet w.entityArchetype r) := by
  obtain ⟨hW1, hW2, hW3, hW4, hW5⟩ := hWF
  obtain ⟨p, hp, hps0, hpe0⟩ := hW4 (e, sig) (mem_of_alGet_eq_some hsig)
  have hps : p.1 = sig := hps0
  have hpe : e ∈ p.2.entityIds := hpe0
  have hcur : alGet w.archetypeBySignature sig = some p.2 := by
    rw [← hps]
    exact alGet_eq_some_of_mem hW2 hp
  obtain ⟨hpWF, hpsig⟩ := hW3 p hp
  have hex : ∃ idx, p.2.indexOf e = some idx := by
    rw [List.mem_iff_getElem] at hpe
    obtain ⟨i, hi, hie⟩ := hpe
    exact ⟨i, (indexOf_eq_some_iff hpWF e i).2 ⟨hi, hie⟩⟩
  obtain ⟨idx, hidx⟩ := hex
  obtain ⟨cur', hrem, hcWF, hctors, htyids, hstores, hlen, hmem, hmap⟩ :=
    removeEntity_char hpWF hidx
  have hres : w.destroyEntity e = some
      { w with
        entityArchetype := alRemove w.entityArchetype e,
        archetypeBySignature := alSet w.archetypeBySignature sig cur' } := by
    rw [World.destroyEntity, hsig]
    show (match alGet w.archetypeBySignature sig with
      | none => none
      | some current =>
        (current.removeEntity e).map (fun current' =>
          { w with
            entityArchetype := alRemove w.entityArchetype e,
            archetypeBySignature :=
              alSet w.archetypeBySignature sig current' })) = _
    rw [hcur]
    show (p.2.removeEntity e).map (fun current' =>
        { w with
          entityArchetype := alRemove w.entityArchetype e,
          archetypeBySignature :=
            alSet w.archetypeBySignature sig current' }) = _
    rw [hrem]
    rfl
  have habsent : alGet (alRemove w.entityArchetype e) e = none :=
    alGet_alRemove_self hW1 e
  refine ⟨_, hres, ?_, habsent, fun c => getComponent_absent habsent c,
    ?_, ?_⟩
  · refine ⟨nodup_map_fst_alRemove hW1 e, nodup_map_fst_alSet hW2 _ _,
      ?_, ?_, ?_⟩
    · intro q hq
      rcases mem_alSet_nodup hW2 sig cur' hq with rfl | ⟨hq', hqs⟩
      · refine ⟨hcWF, ?_⟩
        show joinBar cur'.typeIds = sig
        rw [htyids]
        exact hps ▸ hpsig
      · exact hW3 q hq'
    · intro q hq
      obtain ⟨hq', hqe⟩ := mem_alRemove_nodup hW1 e hq
      obtain ⟨p', hp', hp's, hp'mem⟩ := hW4 q hq'
      by_cases hsigp : p'.1 = sig
      · have hpp : p' = p := entry_eq_of_fst_eq hW2 hp' hp (hsigp.trans hps.symm)
        refine ⟨(sig, cur'), mem_alSet_self _ _ _,
          (hsigp.symm.trans hp's : sig = q.2), ?_⟩
        show q.1 ∈ cur'.entityIds
        rw [hmem q.1]
        exact ⟨hpp ▸ hp'mem, hqe⟩
      · exact ⟨p', mem_alSet_of_ne hp' sig cur' hsigp, hp's, hp'mem⟩
    · intro q hq r hr
      rcases mem_alSet_nodup hW2 sig cur' hq with rfl | ⟨hq', hqs⟩
      · have hr' : r ∈ p.2.entityIds ∧ r ≠ e := (hmem r).1 hr
        have hold : alGet w.entityArchetype r = some p.1 :=
          hW5 p hp r hr'.1
        show alGet (alRemove w.entityArchetype e) r = some sig
        rw [alGet_alRemove_ne _ _ _ (fun hc => hr'.2 hc.symm), hold,
          hps]
      · have hre : r ≠ e := by
          intro hc
          have := hW5 q hq' r hr
          rw [hc, hsig] at this
          exact hqs (Option.some.inj this).symm
        show alGet (alRemove w.entityArchetype e) r = some q.1
        rw [alGet_alRemove_ne _ _ _ (fun hc => hre hc.symm)]
        exact hW5 q hq' r hr
  · intro q hq
    rcases mem_alSet_nodup hW2 sig cur' hq with rfl | ⟨hq', hqs⟩
    · intro he
      exact ((hmem e).1 he).2 rfl
    · intro he
      have := hW5 q hq' e he
      rw [hsig] at this
      exact hqs (Option.some.inj this).symm
  · intro r hr
    exact alGet_alRemove_ne _ _ _ (fun hc => hr hc.symm)

/- World.addComponent / removeComponent: evaluation lemmas. -/

theorem addComponent_eval {w : World} {e : Entity} {c : Ctor}
    {value : JsRecord} {curSig : String} {current : Archetype}
    {A target₂ current' t' : Archetype} {idx : ℕ}
    (h1 : alGet w.entityArchetype e = some curSig)
    (h2 : alGet w.archetypeBySignature curSig = some current)
    (hNC : (if current.copyConstructorList.any
        (fun d => d.typeId = c.typeId)
      then current.copyConstructorList
      else current.copyConstructorList ++ [c]) = current.ctors ++ [c])
    (h4 : alGet (w.getOrCreateArchetype
        (current.ctors ++ [c])).2.archetypeBySignature
        (w.getOrCreateArchetype (current.ctors ++ [c])).1 = some A)
    (h5 : alGet current.indexByEntity e = some idx)
    (h6 : current.removeEntity e = some current')
    (h7 : alGet (alSet (w.getOrCreateArchetype
          (current.ctors ++ [c])).2.archetypeBySignature curSig current')
        (w.getOrCreateArchetype (current.ctors ++ [c])).1 = some target₂)
    (h8 : target₂.addEntity e
        (alSet (current.copyEntityTo (idx : ℤ) A) c.typeId value) =
        some t') :
    w.addComponent e c value = some
      { (w.getOrCreateArchetype (current.ctors ++ [c])).2 with
        archetypeBySignature := alSet
          (alSet (w.getOrCreateArchetype
            (current.ctors ++ [c])).2.archetypeBySignature curSig current')
          (w.getOrCreateArchetype (current.ctors ++ [c])).1 t',
        entityArchetype := alSet
          (w.getOrCreateArchetype (current.ctors ++ [c])).2.entityArchetype
          e (w.getOrCreateArchetype (current.ctors ++ [c])).1 } := by
  simp only [World.addComponent, World.updateArchetype, h1, h2, hNC, h4, h5,
    h6, h7, h8, Option.map_some']

theorem removeComponent_eval {w : World} {e : Entity} {c : Ctor}
    {curSig : String} {current : Archetype}
    {A target₂ current' t' : Archetype} {idx : ℕ}
    (h1 : alGet w.entityArchetype e = some curSig)
    (h2 : alGet w.archetypeBySignature curSig = some current)
    (hcont : current.containsTypeId c.typeId = true)
    (h5 : alGet current.indexByEntity e = some idx)
    (h4 : alGet (w.getOrCreateArchetype
        (current.copyConstructorList.filter
          (fun d => ¬ d.typeId = c.typeId))).2.archetypeBySignature
        (w.getOrCreateArchetype (current.copyConstructorList.filter
          (fun d => ¬ d.typeId = c.typeId))).1 = some A)
    (h6 : current.removeEntity e = some current')
    (h7 : alGet (alSet (w.getOrCreateArchetype
          (current.copyConstructorList.filter
            (fun d => ¬ d.typeId = c.typeId))).2.archetypeBySignature
          curSig current')
        (w.getOrCreateArchetype (current.copyConstructorList.filter
          (fun d => ¬ d.typeId = c.typeId))).1 = some target₂)
    (h8 : target₂.addEntity e (current.copyEntityTo (idx : ℤ) A) =
        some t') :
    w.removeComponent e c = some
      { (w.getOrCreateArchetype (current.copyConstructorList.filter
          (fun d => ¬ d.typeId = c.typeId))).2 with
        archetypeBySignature := alSet
          (alSet (w.getOrCreateArchetype
            (current.copyConstructorList.filter
              (fun d => ¬ d.typeId = c.typeId))).2.archetypeBySignature
            curSig current')
          (w.getOrCreateArchetype (current.copyConstructorList.filter
            (fun d => ¬ d.typeId = c.typeId))).1 t',
        entityArchetype := alSet
          (w.getOrCreateArchetype (current.copyConstructorList.filter
            (fun d => ¬ d.typeId = c.typeId))).2.entityArchetype
          e (w.getOrCreateArchetype (current.copyConstructorList.filter
            (fun d => ¬ d.typeId = c.typeId))).1 } := by
  simp only [World.removeComponent, World.updateArchetype, h1, h2, hcont,
    eq_self_iff_true, not_true, if_false, h5, h4, h6, h7, h8,
    Option.map_some']

theorem getComponent_eval {w : World} {e : Entity} (c : Ctor)
    {sig : String} {arch : Archetype} {idx : ℕ}
    (h1 : alGet w.entityArchetype e = some sig)
    (h2 : alGet w.archetypeBySignature sig = some arch)
    (h3 : alGet arch.indexByEntity e = some idx) :
    w.getComponent e c =
      if arch.containsTypeId c.typeId then arch.getComponentAt c (idx : ℤ)
      else none := by
  simp only [World.getComponent, h1, h2, h3]

theorem coherent_subset {pool pool' : List Ctor}
    (hco : CtorsCoherent pool) (hsub : ∀ x ∈ pool', x ∈ pool) :
    CtorsCoherent pool' :=
  fun c₁ h₁ c₂ h₂ h => hco c₁ (hsub c₁ h₁) c₂ (hsub c₂ h₂) h

theorem store_facts {a : Archetype} (hWF : a.WF) {c : Ctor}
    (hc : c ∈ a.ctors) :
    ∃ st, alGet a.stores c.typeId = some st ∧ st.schema = c.schema ∧
      st.WF ∧ st.size = a.entityIds.length := by
  obtain ⟨st, hst, hsch⟩ := hWF.2.2.2.2.2.2.2.2.2 c hc
  obtain ⟨h1, h2⟩ := hWF.2.2.2.2.2.2.2.2.1 _ (mem_of_alGet_eq_some hst)
  exact ⟨st, hst, hsch, h1, h2⟩

theorem ctor_schema_nodup {a : Archetype} (hWF : a.WF) {c : Ctor}
    (hc : c ∈ a.ctors) : (c.schema.map Prod.fst).Nodup := by
  obtain ⟨st, _, hsch, hstWF, _⟩ := store_facts hWF hc
  have h : (st.fields.map SField.name).Nodup := hstWF.2.2.1
  rw [← hsch]
  show ((st.fields.map (fun f => (f.name, f.ftype))).map Prod.fst).Nodup
  rw [List.map_map]
  exact h

theorem mem_typeIds_of_ctor {a : Archetype} (hWF : a.WF) {c : Ctor}
    (hc : c ∈ a.ctors) : c.typeId ∈ a.typeIds := by
  rw [hWF.1]
  exact List.mem_map_of_mem Ctor.typeId hc

theorem indexOf_of_mem {a : Archetype} (hWF : a.WF) {e : Entity}
    (he : e ∈ a.entityIds) : ∃ idx, a.indexOf e = some idx := by
  rw [List.mem_iff_getElem] at he
  obtain ⟨i, hi, hie⟩ := he
  exact ⟨i, (indexOf_eq_some_iff hWF e i).2 ⟨hi, hie⟩⟩

theorem backing_archetype {w : World} (hWF : w.WF) {e : Entity}
    {sig : String} (hsig : alGet w.entityArchetype e = some sig)
    {arch : Archetype} (harch : alGet w.archetypeBySignature sig = some arch) :
    e ∈ arch.entityIds := by
  obtain ⟨p, hp, hps, hpe⟩ := hWF.2.2.2.1 (e, sig) (mem_of_alGet_eq_some hsig)
  have hps' : p.1 = sig := hps
  have hget : alGet w.archetypeBySignature p.1 = some p.2 :=
    alGet_eq_some_of_mem hWF.2.1 hp
  rw [hps', harch] at hget
  have harchp : arch = p.2 := Option.some.inj hget
  rw [harchp]
  exact hpe

theorem World.WF_intro {w : World}
    (h1 : (w.entityArchetype.map Prod.fst).Nodup)
    (h2 : (w.archetypeBySignature.map Prod.fst).Nodup)
    (h3 : ∀ p ∈ w.archetypeBySignature, p.2.WF ∧ p.2.signature = p.1)
    (h4 : ∀ q ∈ w.entityArchetype, ∃ p ∈ w.archetypeBySignature,
      p.1 = q.2 ∧ q.1 ∈ p.2.entityIds)
    (h5 : ∀ p ∈ w.archetypeBySignature, ∀ e ∈ p.2.entityIds,
      alGet w.entityArchetype e = some p.1) : w.WF :=
  ⟨h1, h2, h3, h4, h5⟩

theorem getOrCreate_allCtors {w : World} {cs : List Ctor} :
    ∀ d ∈ (w.getOrCreateArchetype cs).2.allCtors,
      d ∈ w.allCtors ∨ d ∈ cs := by
  cases h : alGet w.archetypeBySignature (sigOf cs) with
  | some arch =>
    rw [getOrCreate_cached h]
    intro d hd
    exact Or.inl hd
  | none =>
    rw [getOrCreate_new h]
    intro d hd
    have hnot : sigOf cs ∉ w.archetypeBySignature.map Prod.fst :=
      (alGet_eq_none_iff _ _).1 h
    have hd' : d ∈ ((alSet w.archetypeBySignature (sigOf cs)
        (Archetype.init (sortCtors cs))).map
          (fun p => p.2.ctors)).flatten := hd
    rw [alSet_not_mem_eq_append hnot, List.map_append,
      List.flatten_append] at hd'
    rcases List.mem_append.1 hd' with hd' | hd'
    · exact Or.inl hd'
    · simp only [List.map_singleton, List.flatten_cons,
        List.flatten_nil, List.append_nil] at hd'
      have : d ∈ sortCtors (sortCtors cs) := hd'
      rw [sortCtors_idem] at this
      exact Or.inr ((sortCtors_perm cs).mem_iff.1 this)

theorem addComponent_newtype_char {w : World} {e : Entity} {c : Ctor}
    {value : JsRecord} {curSig : String} {current : Archetype}
    (hWF : w.WF) (hpf : w.PipeFree)
    (hco : CtorsCoherent (w.allCtors ++ [c]))
    (hcpf : pipeFreeT c.typeId)
    (hcsch : (c.schema.map Prod.fst).Nodup)
    (hsig : alGet w.entityArchetype e = some curSig)
    (hcur : alGet w.archetypeBySignature curSig = some current)
    (hnotin : c.typeId ∉ current.typeIds)
    (hval : ∀ kt ∈ c.schema, ∃ el,
      writeVal kt.2 (recGet value kt.1) = .ok el) :
    ∃ w₁, w.addComponent e c value = some w₁ ∧ w₁.WF ∧ w₁.PipeFree ∧
      (∀ d ∈ w₁.allCtors, d ∈ w.allCtors ++ [c]) ∧
      alGet w₁.entityArchetype e = some (sigOf (current.ctors ++ [c])) ∧
      (∃ t', alGet w₁.archetypeBySignature (sigOf (current.ctors ++ [c])) =
          some t' ∧ t'.ctors = sortCtors (current.ctors ++ [c]) ∧
        t'.typeIds = (sortCtors (current.ctors ++ [c])).map Ctor.typeId ∧
        e ∈ t'.entityIds) ∧
      (∀ d ∈ current.ctors, w₁.getComponent e d = w.getComponent e d) := by
  have hWF0 := hWF
  obtain ⟨hW1, hW2, hW3, hW4, hW5⟩ := hWF0
  have hcurmem : (curSig, current) ∈ w.archetypeBySignature :=
    mem_of_alGet_eq_some hcur
  have hcWF : current.WF := (hW3 _ hcurmem).1
  have hcsig : current.signature = curSig := (hW3 _ hcurmem).2
  have he_mem : e ∈ current.entityIds := backing_archetype hWF hsig hcur
  obtain ⟨idx, hidx⟩ := indexOf_of_mem hcWF he_mem
  have htyids : current.typeIds = current.ctors.map Ctor.typeId := hcWF.1
  have htyn : current.typeIds.Nodup := hcWF.2.2.1
  have hnotin' : c.typeId ∉ current.ctors.map Ctor.typeId := htyids ▸ hnotin
  have hNCnodup : ((current.ctors ++ [c]).map Ctor.typeId).Nodup := by
    rw [List.map_append, List.nodup_append]
    refine ⟨htyids ▸ htyn, List.nodup_singleton _, ?_⟩
    intro t ht hts
    simp only [List.map_singleton, List.mem_singleton] at hts
    rw [hts] at ht
    exact hnotin' ht
  have hNCschema : ∀ d ∈ current.ctors ++ [c],
      (d.schema.map Prod.fst).Nodup := by
    intro d hd
    rcases List.mem_append.1 hd with hd | hd
    · exact ctor_schema_nodup hcWF hd
    · simp only [List.mem_singleton] at hd
      exact hd ▸ hcsch
  have hNCpf : ∀ d ∈ current.ctors ++ [c], pipeFreeT d.typeId := by
    intro d hd
    rcases List.mem_append.1 hd with hd | hd
    · exact hpf _ hcurmem d.typeId
        (htyids ▸ List.mem_map_of_mem Ctor.typeId hd)
    · simp only [List.mem_singleton] at hd
      exact hd ▸ hcpf
  have hany : current.ctors.any (fun d => d.typeId = c.typeId) = false := by
    rw [List.any_eq_false]
    intro d hd
    simp only [decide_eq_true_eq]
    intro hdc
    exact hnotin' (hdc ▸ List.mem_map_of_mem Ctor.typeId hd)
  have hNC : (if current.copyConstructorList.any
        (fun d => d.typeId = c.typeId)
      then current.copyConstructorList
      else current.copyConstructorList ++ [c]) = current.ctors ++ [c] := by
    show (if current.ctors.any (fun d => d.typeId = c.typeId)
      then current.ctors else current.ctors ++ [c]) = _
    rw [hany]
    rfl
  have hgWF := getOrCreate_WF hWF hNCnodup hNCschema
  have hgpf := getOrCreate_PipeFree hpf hNCpf
  obtain ⟨A, hA, hAcase⟩ := getOrCreate_lookup w (current.ctors ++ [c])
  have hco' : CtorsCoherent (w.allCtors ++ (current.ctors ++ [c])) := by
    refine coherent_subset hco ?_
    intro x hx
    rcases List.mem_append.1 hx with hx | hx
    · exact List.mem_append_left _ hx
    · rcases List.mem_append.1 hx with hx | hx
      · exact List.mem_append_left _ (mem_allCtors hcurmem hx)
      · exact List.mem_append_right _ hx
  have hActors : A.ctors = sortCtors (current.ctors ++ [c]) :=
    getOrCreate_ctors hWF hpf hNCpf hco' hA
  have hAmem := mem_of_alGet_eq_some hA
  have hAWF : A.WF := (hgWF.2.2.1 _ hAmem).1
  have hAsig : A.signature = sigOf (current.ctors ++ [c]) :=
    (hgWF.2.2.1 _ hAmem).2
  have hAtyids : A.typeIds = (sortCtors (current.ctors ++ [c])).map
      Ctor.typeId := by
    rw [hAWF.1, hActors]
  have hsigne : curSig ≠ sigOf (current.ctors ++ [c]) := by
    intro hciq
    have h1 : joinBar current.typeIds =
        joinBar ((sortCtors (current.ctors ++ [c])).map Ctor.typeId) :=
      hcsig.trans hciq
    have hpfl : ∀ t ∈ current.typeIds, pipeFreeT t := hpf _ hcurmem
    have hpfr : ∀ t ∈ (sortCtors (current.ctors ++ [c])).map Ctor.typeId,
        pipeFreeT t := by
      intro t ht
      simp only [List.mem_map] at ht
      obtain ⟨d, hd, rfl⟩ := ht
      exact hNCpf d ((sortCtors_perm _).mem_iff.1 hd)
    have h2 := joinBar_inj hpfl hpfr h1
    have h3 := congrArg List.length h2
    rw [htyids, List.length_map, List.length_map,
      (sortCtors_perm (current.ctors ++ [c])).length_eq,
      List.length_append] at h3
    simp at h3
  obtain ⟨current', hrem, hcur'WF, hcur'ctors, hcur'tyids, hcur'stores,
    hcur'len, hcur'mem, hcur'map⟩ := removeEntity_char hcWF hidx
  have hres1 : (w.getOrCreateArchetype (current.ctors ++ [c])).1 =
      sigOf (current.ctors ++ [c]) := getOrCreate_fst w _
  have hresEA : (w.getOrCreateArchetype
      (current.ctors ++ [c])).2.entityArchetype = w.entityArchetype :=
    getOrCreate_entityArchetype w _
  have h4' : alGet (w.getOrCreateArchetype
      (current.ctors ++ [c])).2.archetypeBySignature
      (w.getOrCreateArchetype (current.ctors ++ [c])).1 = some A := by
    rw [hres1]
    exact hA
  have h7' : alGet (alSet (w.getOrCreateArchetype
        (current.ctors ++ [c])).2.archetypeBySignature curSig current')
      (w.getOrCreateArchetype (current.ctors ++ [c])).1 = some A := by
    rw [hres1, alGet_alSet_ne _ _ _ _ hsigne]
    exact hA
  have hAnew : e ∉ A.entityIds := by
    intro hc
    have h := hgWF.2.2.2.2 _ hAmem e hc
    rw [hresEA, hsig] at h
    exact hsigne (Option.some.inj h)
  have hAnodup : (A.ctors.map Ctor.typeId).Nodup := by
    rw [hActors]
    exact ((sortCtors_perm _).map Ctor.typeId).nodup_iff.2 hNCnodup
  have hkey : ∀ d ∈ A.ctors, ∀ st, alGet A.stores d.typeId = some st →
      (st.set (A.size : ℤ) (valFor
        (alSet (current.copyEntityTo (idx : ℤ) A) c.typeId value) d)).2 =
        none ∧
      (∀ stc, alGet current.stores d.typeId = some stc → d ≠ c →
        (st.set (A.size : ℤ) (valFor
          (alSet (current.copyEntityTo (idx : ℤ) A) c.typeId value)
            d)).1.get (A.size : ℤ) = stc.get (idx : ℤ)) := by
    intro d hd st hst
    have hstw : st.WF := (hAWF.2.2.2.2.2.2.2.2.1 _
      (mem_of_alGet_eq_some hst)).1
    obtain ⟨st₀, hst₀, hsch₀⟩ := hAWF.2.2.2.2.2.2.2.2.2 d hd
    rw [hst] at hst₀
    have hstsch : st.schema = d.schema := (Option.some.inj hst₀) ▸ hsch₀
    have hdNC : d ∈ current.ctors ++ [c] :=
      (sortCtors_perm _).mem_iff.1 (hActors ▸ hd)
    by_cases hdc : d.typeId = c.typeId
    · have hdeq : d = c := by
        rcases List.mem_append.1 hdNC with hdm | hdm
        · exact absurd (hdc ▸ List.mem_map_of_mem Ctor.typeId hdm) hnotin'
        · simp only [List.mem_singleton] at hdm
          exact hdm
      subst hdeq
      have hvF : valFor
          (alSet (current.copyEntityTo (idx : ℤ) A) d.typeId value) d =
          value := by
        rw [valFor, alGet_alSet_self]
      rw [hvF]
      refine ⟨set_ok_of A.size value ?_, ?_⟩
      · intro kt hkt
        rw [hstsch] at hkt
        exact hval kt hkt
      · intro stc hstc hne
        exact absurd rfl hne
    · have hdcur : d ∈ current.ctors := by
        rcases List.mem_append.1 hdNC with hdm | hdm
        · exact hdm
        · simp only [List.mem_singleton] at hdm
          exact absurd (hdm ▸ rfl) hdc
      have h1 : alGet (alSet (current.copyEntityTo (idx : ℤ) A) c.typeId
          value) d.typeId = alGet (current.copyEntityTo (idx : ℤ) A)
          d.typeId := alGet_alSet_ne _ _ _ _ (fun hcq => hdc hcq.symm)
      have h2 : alGet (current.copyEntityTo (idx : ℤ) A) d.typeId =
          some (copyVal current (idx : ℤ) d) :=
        copyEntityTo_get (idx : ℤ) hAnodup hd
      have hvF : valFor
          (alSet (current.copyEntityTo (idx : ℤ) A) c.typeId value) d =
          copyVal current (idx : ℤ) d := by
        rw [valFor, h1, h2]
      obtain ⟨stc, hstc, hstcsch, hstcWF, _⟩ := store_facts hcWF hdcur
      have hcv : copyVal current (idx : ℤ) d = stc.get (idx : ℤ) := by
        rw [copyVal, hstc]
      have hschEq : st.schema = stc.schema := hstsch.trans hstcsch.symm
      have hrt := set_get_roundtrip hstcWF hstw hschEq idx A.size
      rw [hvF, hcv]
      refine ⟨hrt.1, ?_⟩
      intro stc' hstc' _
      rw [hstc] at hstc'
      rw [← Option.some.inj hstc']
      exact hrt.2
  obtain ⟨t', haddE, ht'WF, ht'ctors, ht'tyids, ht'ids, ht'idxOf,
    ht'idxPres, ht'stores⟩ := addEntity_char hAWF e
    (alSet (current.copyEntityTo (idx : ℤ) A) c.typeId value) hAnew
    (fun d hd st hst => (hkey d hd st hst).1)
  have heval := addComponent_eval hsig hcur hNC h4' hidx hrem h7' haddE
  have habsn : ((alSet (w.getOrCreateArchetype
      (current.ctors ++ [c])).2.archetypeBySignature curSig
        current').map Prod.fst).Nodup :=
    nodup_map_fst_alSet hgWF.2.1 _ _
  have hcurke : curSig ≠ (w.getOrCreateArchetype (current.ctors ++ [c])).1 := by
    rw [hres1]
    exact hsigne
  have hrescur : alGet (w.getOrCreateArchetype
      (current.ctors ++ [c])).2.archetypeBySignature curSig =
      some current := by
    rw [getOrCreate_lookup_ne w _ curSig hsigne]
    exact hcur
  have hdir_e : alGet (alSet (w.getOrCreateArchetype
      (current.ctors ++ [c])).2.entityArchetype e
      (w.getOrCreateArchetype (current.ctors ++ [c])).1) e =
      some (w.getOrCreateArchetype (current.ctors ++ [c])).1 :=
    alGet_alSet_self _ _ _
  have habs_new : alGet (alSet (alSet (w.getOrCreateArchetype
      (current.ctors ++ [c])).2.archetypeBySignature curSig current')
      (w.getOrCreateArchetype (current.ctors ++ [c])).1 t')
      (w.getOrCreateArchetype (current.ctors ++ [c])).1 = some t' :=
    alGet_alSet_self _ _ _
  have hcontT : t'.containsTypeId c.typeId = true := by
    rw [containsTypeId_iff, ht'tyids, hAtyids]
    refine List.mem_map.2 ⟨c, ?_, rfl⟩
    exact (sortCtors_perm _).mem_iff.2
      (List.mem_append_right _ (List.mem_singleton.2 rfl))
  refine ⟨{ (w.getOrCreateArchetype (current.ctors ++ [c])).2 with
      archetypeBySignature := alSet
        (alSet (w.getOrCreateArchetype
          (current.ctors ++ [c])).2.archetypeBySignature curSig current')
        (w.getOrCreateArchetype (current.ctors ++ [c])).1 t',
      entityArchetype := alSet
        (w.getOrCreateArchetype (current.ctors ++ [c])).2.entityArchetype
        e (w.getOrCreateArchetype (current.ctors ++ [c])).1 },
    heval, ?_, ?_, ?_, ?_, ?_, ?_⟩
  · -- World.WF of the result
    apply World.WF_intro
    · exact nodup_map_fst_alSet hgWF.1 _ _
    · exact nodup_map_fst_alSet habsn _ _
    · intro p hp
      rcases mem_alSet_nodup habsn _ _ hp with rfl | ⟨hp', hpne⟩
      · refine ⟨ht'WF, ?_⟩
        show joinBar t'.typeIds = (w.getOrCreateArchetype
          (current.ctors ++ [c])).1
        rw [ht'tyids, hres1]
        exact hAsig
      · rcases mem_alSet_nodup hgWF.2.1 _ _ hp' with rfl | ⟨hp'', hpne'⟩
        · refine ⟨hcur'WF, ?_⟩
          show joinBar current'.typeIds = curSig
          rw [hcur'tyids]
          exact hcsig
        · exact hgWF.2.2.1 p hp''
    · intro q hq
      rcases mem_alSet_nodup hgWF.1 _ _ hq with rfl | ⟨hq', hqne⟩
      · refine ⟨((w.getOrCreateArchetype (current.ctors ++ [c])).1, t'),
          mem_alSet_self _ _ _, rfl, ?_⟩
        show e ∈ t'.entityIds
        rw [ht'ids]
        exact List.mem_append_right _ (List.mem_singleton.2 rfl)
      · obtain ⟨p, hp, hpq, hpmem⟩ := hgWF.2.2.2.1 q hq'
        by_cases hp1 : p.1 = curSig
        · have hpcur : p.2 = current := by
            have hg := alGet_eq_some_of_mem hgWF.2.1 hp
            rw [hp1, hrescur] at hg
            exact (Option.some.inj hg).symm
          refine ⟨(curSig, current'), ?_, hp1 ▸ hpq, ?_⟩
          · exact mem_alSet_of_ne (mem_alSet_self _ _ _) _ _ hcurke
          · show q.1 ∈ current'.entityIds
            rw [hcur'mem]
            exact ⟨hpcur ▸ hpmem, hqne⟩
        · by_cases hp2 : p.1 = (w.getOrCreateArchetype
              (current.ctors ++ [c])).1
          · have hpA : p.2 = A := by
              have hg := alGet_eq_some_of_mem hgWF.2.1 hp
              rw [hp2, h4'] at hg
              exact (Option.some.inj hg).symm
            refine ⟨((w.getOrCreateArchetype (current.ctors ++ [c])).1, t'),
              mem_alSet_self _ _ _, hp2 ▸ hpq, ?_⟩
            show q.1 ∈ t'.entityIds
            rw [ht'ids]
            exact List.mem_append_left _ (hpA ▸ hpmem)
          · refine ⟨p, ?_, hpq, hpmem⟩
            exact mem_alSet_of_ne (mem_alSet_of_ne hp _ _ hp1) _ _ hp2
    · intro p hp r hr
      rcases mem_alSet_nodup habsn _ _ hp with rfl | ⟨hp', hpne⟩
      · have hr' : r ∈ t'.entityIds := hr
        rw [ht'ids] at hr'
        rcases List.mem_append.1 hr' with hrA | hre
        · have hrne : r ≠ e := fun hc => hAnew (hc ▸ hrA)
          show alGet (alSet (w.getOrCreateArchetype
            (current.ctors ++ [c])).2.entityArchetype e
            (w.getOrCreateArchetype (current.ctors ++ [c])).1) r = _
          rw [alGet_alSet_ne _ _ _ _ (fun hc => hrne hc.symm)]
          have h := hgWF.2.2.2.2 _ hAmem r hrA
          rw [h, ← hres1]
        · simp only [List.mem_singleton] at hre
          subst hre
          exact hdir_e
      · rcases mem_alSet_nodup hgWF.2.1 _ _ hp' with rfl | ⟨hp'', hpne'⟩
        · have hr' := (hcur'mem r).1 hr
          show alGet (alSet (w.getOrCreateArchetype
            (current.ctors ++ [c])).2.entityArchetype e
            (w.getOrCreateArchetype (current.ctors ++ [c])).1) r =
            some curSig
          rw [alGet_alSet_ne _ _ _ _ (fun hc => hr'.2 hc.symm), hresEA]
          exact hW5 _ hcurmem r hr'.1
        · have hold := hgWF.2.2.2.2 p hp'' r hr
          have hrne : r ≠ e := by
            intro hc
            rw [hc, hresEA, hsig] at hold
            exact hpne' (Option.some.inj hold).symm
          show alGet (alSet (w.getOrCreateArchetype
            (current.ctors ++ [c])).2.entityArchetype e
            (w.getOrCreateArchetype (current.ctors ++ [c])).1) r =
            some p.1
          rw [alGet_alSet_ne _ _ _ _ (fun hc => hrne hc.symm)]
          exact hold
  · -- PipeFree
    intro p hp
    rcases mem_alSet_nodup habsn _ _ hp with rfl | ⟨hp', hpne⟩
    · show ∀ t ∈ t'.typeIds, pipeFreeT t
      rw [ht'tyids]
      exact hgpf _ hAmem
    · rcases mem_alSet_nodup hgWF.2.1 _ _ hp' with rfl | ⟨hp'', hpne'⟩
      · show ∀ t ∈ current'.typeIds, pipeFreeT t
        rw [hcur'tyids]
        exact hpf _ hcurmem
      · exact hgpf p hp''
  · -- allCtors containment
    intro d hd
    rw [World.allCtors, List.mem_flatten] at hd
    obtain ⟨l, hl, hdl⟩ := hd
    simp only [List.mem_map] at hl
    obtain ⟨p, hp, rfl⟩ := hl
    rcases mem_alSet_nodup habsn _ _ hp with rfl | ⟨hp', hpne⟩
    · have hd' : d ∈ A.ctors := ht'ctors ▸ hdl
      rw [hActors] at hd'
      rcases List.mem_append.1 ((sortCtors_perm _).mem_iff.1 hd') with h | h
      · exact List.mem_append_left _ (mem_allCtors hcurmem h)
      · exact List.mem_append_right _ h
    · rcases mem_alSet_nodup hgWF.2.1 _ _ hp' with rfl | ⟨hp'', hpne'⟩
      · have hd' : d ∈ current.ctors := hcur'ctors ▸ hdl
        exact List.mem_append_left _ (mem_allCtors hcurmem hd')
      · have hres2 := @getOrCreate_allCtors w
          (current.ctors ++ [c]) d (mem_allCtors hp'' hdl)
        rcases hres2 with h | h
        · exact List.mem_append_left _ h
        · rcases List.mem_append.1 h with h | h
          · exact List.mem_append_left _ (mem_allCtors hcurmem h)
          · exact List.mem_append_right _ h
  · -- directory points at the new signature
    show alGet (alSet (w.getOrCreateArchetype
      (current.ctors ++ [c])).2.entityArchetype e
      (w.getOrCreateArchetype (current.ctors ++ [c])).1) e = _
    rw [hdir_e, hres1]
  · -- the new archetype
    refine ⟨t', ?_, ht'ctors.trans hActors, ht'tyids.trans hAtyids, ?_⟩
    · show alGet (alSet (alSet (w.getOrCreateArchetype
        (current.ctors ++ [c])).2.archetypeBySignature curSig current')
        (w.getOrCreateArchetype (current.ctors ++ [c])).1 t')
        (sigOf (current.ctors ++ [c])) = some t'
      rw [← hres1]
      exact habs_new
    · rw [ht'ids]
      exact List.mem_append_right _ (List.mem_singleton.2 rfl)
  · -- values of the existing components survive the migration
    intro d hd
    have hdne : d.typeId ≠ c.typeId := by
      intro hdc
      exact hnotin' (hdc ▸ List.mem_map_of_mem Ctor.typeId hd)
    have hdA : d ∈ A.ctors := by
      rw [hActors]
      exact (sortCtors_perm _).mem_iff.2 (List.mem_append_left _ hd)
    obtain ⟨stc, hstc, _, _, _⟩ := store_facts hcWF hd
    obtain ⟨stA, hstA, _, _, _⟩ := store_facts hAWF hdA
    have hgetA := ht'stores d hdA stA hstA
    have hcontR : current.containsTypeId d.typeId = true :=
      (containsTypeId_iff _ _).2 (mem_typeIds_of_ctor hcWF hd)
    have hcontT' : t'.containsTypeId d.typeId = true := by
      rw [containsTypeId_iff, ht'tyids]
      exact mem_typeIds_of_ctor hAWF hdA
    have hval_eq := (hkey d hdA stA hstA).2 stc hstc
      (fun hdc => hdne (hdc ▸ rfl))
    have hRHS : w.getComponent e d = some (stc.get (idx : ℤ)) := by
      rw [getComponent_eval d hsig hcur hidx, if_pos hcontR]
      show (alGet current.stores d.typeId).map _ = _
      rw [hstc]
      rfl
    have hidxT : alGet t'.indexByEntity e = some A.size := ht'idxOf
    have hLHS : World.getComponent
        { (w.getOrCreateArchetype (current.ctors ++ [c])).2 with
          archetypeBySignature := alSet
            (alSet (w.getOrCreateArchetype
              (current.ctors ++ [c])).2.archetypeBySignature curSig
              current')
            (w.getOrCreateArchetype (current.ctors ++ [c])).1 t',
          entityArchetype := alSet
            (w.getOrCreateArchetype
              (current.ctors ++ [c])).2.entityArchetype
            e (w.getOrCreateArchetype (current.ctors ++ [c])).1 } e d =
        some ((stA.set (A.size : ℤ) (valFor
          (alSet (current.copyEntityTo (idx : ℤ) A) c.typeId value)
            d)).1.get (A.size : ℤ)) := by
      rw [getComponent_eval d hdir_e habs_new hidxT, if_pos hcontT']
      show (alGet t'.stores d.typeId).map _ = _
      rw [hgetA]
      rfl
    rw [hLHS, hRHS, hval_eq]

theorem removeComponent_present_char {w : World} {e : Entity} {c : Ctor}
    {curSig : String} {current : Archetype}
    (hWF : w.WF) (hpf : w.PipeFree)
    (hco : CtorsCoherent w.allCtors)
    (hsig : alGet w.entityArchetype e = some curSig)
    (hcur : alGet w.archetypeBySignature curSig = some current)
    (hin : c.typeId ∈ current.typeIds) :
    ∃ w₂, w.removeComponent e c = some w₂ ∧ w₂.WF ∧ w₂.PipeFree ∧
      (∀ d ∈ w₂.allCtors, d ∈ w.allCtors) ∧
      w₂.getComponent e c = none ∧
      (∀ d ∈ current.ctors, d.typeId ≠ c.typeId →
        w₂.getComponent e d = w.getComponent e d) := by
  have hWF0 := hWF
  obtain ⟨hW1, hW2, hW3, hW4, hW5⟩ := hWF0
  have hcurmem : (curSig, current) ∈ w.archetypeBySignature :=
    mem_of_alGet_eq_some hcur
  have hcWF : current.WF := (hW3 _ hcurmem).1
  have hcsig : current.signature = curSig := (hW3 _ hcurmem).2
  have he_mem : e ∈ current.entityIds := backing_archetype hWF hsig hcur
  obtain ⟨idx, hidx⟩ := indexOf_of_mem hcWF he_mem
  have htyids : current.typeIds = current.ctors.map Ctor.typeId := hcWF.1
  have htyn : current.typeIds.Nodup := hcWF.2.2.1
  have hcont : current.containsTypeId c.typeId = true :=
    (containsTypeId_iff _ _).2 hin
  have hfil : ∀ d, d ∈ current.ctors.filter
      (fun d => ¬ d.typeId = c.typeId) ↔
      (d ∈ current.ctors ∧ d.typeId ≠ c.typeId) := by
    intro d
    rw [List.mem_filter]
    simp only [decide_not, Bool.not_eq_true', decide_eq_false_iff_not]
  have hNCnodup : ((current.ctors.filter
      (fun d => ¬ d.typeId = c.typeId)).map Ctor.typeId).Nodup :=
    ((List.filter_sublist current.ctors).map Ctor.typeId).nodup
      (htyids ▸ htyn)
  have hNCschema : ∀ d ∈ current.ctors.filter
      (fun d => ¬ d.typeId = c.typeId), (d.schema.map Prod.fst).Nodup :=
    fun d hd => ctor_schema_nodup hcWF ((hfil d).1 hd).1
  have hNCpf : ∀ d ∈ current.ctors.filter
      (fun d => ¬ d.typeId = c.typeId), pipeFreeT d.typeId :=
    fun d hd => hpf _ hcurmem d.typeId
      (htyids ▸ List.mem_map_of_mem Ctor.typeId ((hfil d).1 hd).1)
  have hgWF := getOrCreate_WF hWF hNCnodup hNCschema
  have hgpf := getOrCreate_PipeFree hpf hNCpf
  obtain ⟨A, hA, hAcase⟩ := getOrCreate_lookup w
    (current.ctors.filter (fun d => ¬ d.typeId = c.typeId))
  have hco' : CtorsCoherent (w.allCtors ++ current.ctors.filter
      (fun d => ¬ d.typeId = c.typeId)) := by
    refine coherent_subset hco ?_
    intro x hx
    rcases List.mem_append.1 hx with hx | hx
    · exact hx
    · exact mem_allCtors hcurmem ((hfil x).1 hx).1
  have hActors : A.ctors = sortCtors (current.ctors.filter
      (fun d => ¬ d.typeId = c.typeId)) :=
    getOrCreate_ctors hWF hpf hNCpf hco' hA
  have hAmem := mem_of_alGet_eq_some hA
  have hAWF : A.WF := (hgWF.2.2.1 _ hAmem).1
  have hAsig : A.signature = sigOf (current.ctors.filter
      (fun d => ¬ d.typeId = c.typeId)) := (hgWF.2.2.1 _ hAmem).2
  have hAtyids : A.typeIds = (sortCtors (current.ctors.filter
      (fun d => ¬ d.typeId = c.typeId))).map Ctor.typeId := by
    rw [hAWF.1, hActors]
  have hcnotA : c.typeId ∉ A.typeIds := by
    rw [hAtyids]
    intro hc
    simp only [List.mem_map] at hc
    obtain ⟨d, hd, hdc⟩ := hc
    exact ((hfil d).1 ((sortCtors_perm _).mem_iff.1 hd)).2 hdc
  have hsigne : curSig ≠ sigOf (current.ctors.filter
      (fun d => ¬ d.typeId = c.typeId)) := by
    intro hciq
    have h1 : joinBar current.typeIds =
        joinBar ((sortCtors (current.ctors.filter
          (fun d => ¬ d.typeId = c.typeId))).map Ctor.typeId) :=
      hcsig.trans hciq
    have hpfl : ∀ t ∈ current.typeIds, pipeFreeT t := hpf _ hcurmem
    have hpfr : ∀ t ∈ (sortCtors (current.ctors.filter
        (fun d => ¬ d.typeId = c.typeId))).map Ctor.typeId,
        pipeFreeT t := by
      intro t ht
      simp only [List.mem_map] at ht
      obtain ⟨d, hd, rfl⟩ := ht
      exact hNCpf d ((sortCtors_perm _).mem_iff.1 hd)
    have h2 := joinBar_inj hpfl hpfr h1
    rw [← hAtyids] at h2
    exact hcnotA (h2 ▸ hin)
  obtain ⟨current', hrem, hcur'WF, hcur'ctors, hcur'tyids, hcur'stores,
    hcur'len, hcur'mem, hcur'map⟩ := removeEntity_char hcWF hidx
  have hres1 : (w.getOrCreateArchetype (current.ctors.filter
      (fun d => ¬ d.typeId = c.typeId))).1 =
      sigOf (current.ctors.filter (fun d => ¬ d.typeId = c.typeId)) :=
    getOrCreate_fst w _
  have hresEA : (w.getOrCreateArchetype (current.ctors.filter
      (fun d => ¬ d.typeId = c.typeId))).2.entityArchetype =
      w.entityArchetype := getOrCreate_entityArchetype w _
  have h4' : alGet (w.getOrCreateArchetype (current.ctors.filter
      (fun d => ¬ d.typeId = c.typeId))).2.archetypeBySignature
      (w.getOrCreateArchetype (current.ctors.filter
        (fun d => ¬ d.typeId = c.typeId))).1 = some A := by
    rw [hres1]
    exact hA
  have h7' : alGet (alSet (w.getOrCreateArchetype (current.ctors.filter
        (fun d => ¬ d.typeId = c.typeId))).2.archetypeBySignature curSig
        current')
      (w.getOrCreateArchetype (current.ctors.filter
        (fun d => ¬ d.typeId = c.typeId))).1 = some A := by
    rw [hres1, alGet_alSet_ne _ _ _ _ hsigne]
    exact hA
  have hAnew : e ∉ A.entityIds := by
    intro hc
    have h := hgWF.2.2.2.2 _ hAmem e hc
    rw [hresEA, hsig] at h
    exact hsigne (Option.some.inj h)
  have hAnodup : (A.ctors.map Ctor.typeId).Nodup := by
    rw [hActors]
    exact ((sortCtors_perm _).map Ctor.typeId).nodup_iff.2 hNCnodup
  have hkey : ∀ d ∈ A.ctors, ∀ st, alGet A.stores d.typeId = some st →
      (st.set (A.size : ℤ) (valFor
        (current.copyEntityTo (idx : ℤ) A) d)).2 = none ∧
      (∀ stc, alGet current.stores d.typeId = some stc →
        (st.set (A.size : ℤ) (valFor
          (current.copyEntityTo (idx : ℤ) A) d)).1.get (A.size : ℤ) =
          stc.get (idx : ℤ)) := by
    intro d hd st hst
    have hstw : st.WF := (hAWF.2.2.2.2.2.2.2.2.1 _
      (mem_of_alGet_eq_some hst)).1
    obtain ⟨st₀, hst₀, hsch₀⟩ := hAWF.2.2.2.2.2.2.2.2.2 d hd
    rw [hst] at hst₀
    have hstsch : st.schema = d.schema := (Option.some.inj hst₀) ▸ hsch₀
    have hdcur : d ∈ current.ctors :=
      ((hfil d).1 ((sortCtors_perm _).mem_iff.1 (hActors ▸ hd))).1
    have hvF : valFor (current.copyEntityTo (idx : ℤ) A) d =
        copyVal current (idx : ℤ) d :=
      valFor_copyEntityTo (idx : ℤ) hAnodup hd
    obtain ⟨stc, hstc, hstcsch, hstcWF, _⟩ := store_facts hcWF hdcur
    have hcv : copyVal current (idx : ℤ) d = stc.get (idx : ℤ) := by
      rw [copyVal, hstc]
    have hschEq : st.schema = stc.schema := hstsch.trans hstcsch.symm
    have hrt := set_get_roundtrip hstcWF hstw hschEq idx A.size
    rw [hvF, hcv]
    refine ⟨hrt.1, ?_⟩
    intro stc' hstc'
    rw [hstc] at hstc'
    rw [← Option.some.inj hstc']
    exact hrt.2
  obtain ⟨t', haddE, ht'WF, ht'ctors, ht'tyids, ht'ids, ht'idxOf,
    ht'idxPres, ht'stores⟩ := addEntity_char hAWF e
    (current.copyEntityTo (idx : ℤ) A) hAnew
    (fun d hd st hst => (hkey d hd st hst).1)
  have heval := removeComponent_eval hsig hcur hcont hidx h4' hrem h7' haddE
  have habsn : ((alSet (w.getOrCreateArchetype (current.ctors.filter
      (fun d => ¬ d.typeId = c.typeId))).2.archetypeBySignature curSig
        current').map Prod.fst).Nodup :=
    nodup_map_fst_alSet hgWF.2.1 _ _
  have hcurke : curSig ≠ (w.getOrCreateArchetype (current.ctors.filter
      (fun d => ¬ d.typeId = c.typeId))).1 := by
    rw [hres1]
    exact hsigne
  have hrescur : alGet (w.getOrCreateArchetype (current.ctors.filter
      (fun d => ¬ d.typeId = c.typeId))).2.archetypeBySignature curSig =
      some current := by
    rw [getOrCreate_lookup_ne w _ curSig hsigne]
    exact hcur
  have hdir_e : alGet (alSet (w.getOrCreateArchetype
      (current.ctors.filter
        (fun d => ¬ d.typeId = c.typeId))).2.entityArchetype e
      (w.getOrCreateArchetype (current.ctors.filter
        (fun d => ¬ d.typeId = c.typeId))).1) e =
      some (w.getOrCreateArchetype (current.ctors.filter
        (fun d => ¬ d.typeId = c.typeId))).1 :=
    alGet_alSet_self _ _ _
  have habs_new : alGet (alSet (alSet (w.getOrCreateArchetype
      (current.ctors.filter
        (fun d => ¬ d.typeId = c.typeId))).2.archetypeBySignature curSig
        current')
      (w.getOrCreateArchetype (current.ctors.filter
        (fun d => ¬ d.typeId = c.typeId))).1 t')
      (w.getOrCreateArchetype (current.ctors.filter
        (fun d => ¬ d.typeId = c.typeId))).1 = some t' :=
    alGet_alSet_self _ _ _
  refine ⟨{ (w.getOrCreateArchetype (current.ctors.filter
        (fun d => ¬ d.typeId = c.typeId))).2 with
      archetypeBySignature := alSet
        (alSet (w.getOrCreateArchetype (current.ctors.filter
          (fun d => ¬ d.typeId = c.typeId))).2.archetypeBySignature curSig
          current')
        (w.getOrCreateArchetype (current.ctors.filter
          (fun d => ¬ d.typeId = c.typeId))).1 t',
      entityArchetype := alSet
        (w.getOrCreateArchetype (current.ctors.filter
          (fun d => ¬ d.typeId = c.typeId))).2.entityArchetype
        e (w.getOrCreateArchetype (current.ctors.filter
          (fun d => ¬ d.typeId = c.typeId))).1 },
    heval, ?_, ?_, ?_, ?_, ?_⟩
  · -- World.WF of the result
    apply World.WF_intro
    · exact nodup_map_fst_alSet hgWF.1 _ _
    · exact nodup_map_fst_alSet habsn _ _
    · intro p hp
      rcases mem_alSet_nodup habsn _ _ hp with rfl | ⟨hp', hpne⟩
      · refine ⟨ht'WF, ?_⟩
        show joinBar t'.typeIds = (w.getOrCreateArchetype
          (current.ctors.filter (fun d => ¬ d.typeId = c.typeId))).1
        rw [ht'tyids, hres1]
        exact hAsig
      · rcases mem_alSet_nodup hgWF.2.1 _ _ hp' with rfl | ⟨hp'', hpne'⟩
        · refine ⟨hcur'WF, ?_⟩
          show joinBar current'.typeIds = curSig
          rw [hcur'tyids]
          exact hcsig
        · exact hgWF.2.2.1 p hp''
    · intro q hq
      rcases mem_alSet_nodup hgWF.1 _ _ hq with rfl | ⟨hq', hqne⟩
      · refine ⟨((w.getOrCreateArchetype (current.ctors.filter
            (fun d => ¬ d.typeId = c.typeId))).1, t'),
          mem_alSet_self _ _ _, rfl, ?_⟩
        show e ∈ t'.entityIds
        rw [ht'ids]
        exact List.mem_append_right _ (List.mem_singleton.2 rfl)
      · obtain ⟨p, hp, hpq, hpmem⟩ := hgWF.2.2.2.1 q hq'
        by_cases hp1 : p.1 = curSig
        · have hpcur : p.2 = current := by
            have hg := alGet_eq_some_of_mem hgWF.2.1 hp
            rw [hp1, hrescur] at hg
            exact (Option.some.inj hg).symm
          refine ⟨(curSig, current'), ?_, hp1 ▸ hpq, ?_⟩
          · exact mem_alSet_of_ne (mem_alSet_self _ _ _) _ _ hcurke
          · show q.1 ∈ current'.entityIds
            rw [hcur'mem]
            exact ⟨hpcur ▸ hpmem, hqne⟩
        · by_cases hp2 : p.1 = (w.getOrCreateArchetype
              (current.ctors.filter (fun d => ¬ d.typeId = c.typeId))).1
          · have hpA : p.2 = A := by
              have hg := alGet_eq_some_of_mem hgWF.2.1 hp
              rw [hp2, h4'] at hg
              exact (Option.some.inj hg).symm
            refine ⟨((w.getOrCreateArchetype (current.ctors.filter
                (fun d => ¬ d.typeId = c.typeId))).1, t'),
              mem_alSet_self _ _ _, hp2 ▸ hpq, ?_⟩
            show q.1 ∈ t'.entityIds
            rw [ht'ids]
            exact List.mem_append_left _ (hpA ▸ hpmem)
          · refine ⟨p, ?_, hpq, hpmem⟩
            exact mem_alSet_of_ne (mem_alSet_of_ne hp _ _ hp1) _ _ hp2
    · intro p hp r hr
      rcases mem_alSet_nodup habsn _ _ hp with rfl | ⟨hp', hpne⟩
      · have hr' : r ∈ t'.entityIds := hr
        rw [ht'ids] at hr'
        rcases List.mem_append.1 hr' with hrA | hre
        · have hrne : r ≠ e := fun hc => hAnew (hc ▸ hrA)
          show alGet (alSet (w.getOrCreateArchetype
            (current.ctors.filter
              (fun d => ¬ d.typeId = c.typeId))).2.entityArchetype e
            (w.getOrCreateArchetype (current.ctors.filter
              (fun d => ¬ d.typeId = c.typeId))).1) r = _
          rw [alGet_alSet_ne _ _ _ _ (fun hc => hrne hc.symm)]
          have h := hgWF.2.2.2.2 _ hAmem r hrA
          rw [h, ← hres1]
        · simp only [List.mem_singleton] at hre
          subst hre
          exact hdir_e
      · rcases mem_alSet_nodup hgWF.2.1 _ _ hp' with rfl | ⟨hp'', hpne'⟩
        · have hr' := (hcur'mem r).1 hr
          show alGet (alSet (w.getOrCreateArchetype
            (current.ctors.filter
              (fun d => ¬ d.typeId = c.typeId))).2.entityArchetype e
            (w.getOrCreateArchetype (current.ctors.filter
              (fun d => ¬ d.typeId = c.typeId))).1) r = some curSig
          rw [alGet_alSet_ne _ _ _ _ (fun hc => hr'.2 hc.symm), hresEA]
          exact hW5 _ hcurmem r hr'.1
        · have hold := hgWF.2.2.2.2 p hp'' r hr
          have hrne : r ≠ e := by
            intro hc
            rw [hc, hresEA, hsig] at hold
            exact hpne' (Option.some.inj hold).symm
          show alGet (alSet (w.getOrCreateArchetype
            (current.ctors.filter
              (fun d => ¬ d.typeId = c.typeId))).2.entityArchetype e
            (w.getOrCreateArchetype (current.ctors.filter
              (fun d => ¬ d.typeId = c.typeId))).1) r = some p.1
          rw [alGet_alSet_ne _ _ _ _ (fun hc => hrne hc.symm)]
          exact hold
  · -- PipeFree
    intro p hp
    rcases mem_alSet_nodup habsn _ _ hp with rfl | ⟨hp', hpne⟩
    · show ∀ t ∈ t'.typeIds, pipeFreeT t
      rw [ht'tyids]
      exact hgpf _ hAmem
    · rcases mem_alSet_nodup hgWF.2.1 _ _ hp' with rfl | ⟨hp'', hpne'⟩
      · show ∀ t ∈ current'.typeIds, pipeFreeT t
        rw [hcur'tyids]
        exact hpf _ hcurmem
      · exact hgpf p hp''
  · -- allCtors containment
    intro d hd
    rw [World.allCtors, List.mem_flatten] at hd
    obtain ⟨l, hl, hdl⟩ := hd
    simp only [List.mem_map] at hl
    obtain ⟨p, hp, rfl⟩ := hl
    rcases mem_alSet_nodup habsn _ _ hp with rfl | ⟨hp', hpne⟩
    · have hd' : d ∈ A.ctors := ht'ctors ▸ hdl
      rw [hActors] at hd'
      exact mem_allCtors hcurmem
        ((hfil d).1 ((sortCtors_perm _).mem_iff.1 hd')).1
    · rcases mem_alSet_nodup hgWF.2.1 _ _ hp' with rfl | ⟨hp'', hpne'⟩
      · have hd' : d ∈ current.ctors := hcur'ctors ▸ hdl
        exact mem_allCtors hcurmem hd'
      · have hres2 := @getOrCreate_allCtors w
          (current.ctors.filter (fun d => ¬ d.typeId = c.typeId)) d
          (mem_allCtors hp'' hdl)
        rcases hres2 with h | h
        · exact h
        · exact mem_allCtors hcurmem ((hfil d).1 h).1
  · -- the removed component now reads as absent
    have hcontF : ¬ (t'.containsTypeId c.typeId = true) := by
      rw [containsTypeId_iff, ht'tyids]
      exact hcnotA
    rw [getComponent_eval c hdir_e habs_new ht'idxOf, if_neg hcontF]
  · -- remaining component values survive
    intro d hd hdne
    have hdfil : d ∈ current.ctors.filter
        (fun d => ¬ d.typeId = c.typeId) := (hfil d).2 ⟨hd, hdne⟩
    have hdA : d ∈ A.ctors := by
      rw [hActors]
      exact (sortCtors_perm _).mem_iff.2 hdfil
    obtain ⟨stc, hstc, _, _, _⟩ := store_facts hcWF hd
    obtain ⟨stA, hstA, _, _, _⟩ := store_facts hAWF hdA
    have hgetA := ht'stores d hdA stA hstA
    have hcontR : current.containsTypeId d.typeId = true :=
      (containsTypeId_iff _ _).2 (mem_typeIds_of_ctor hcWF hd)
    have hcontT' : t'.containsTypeId d.typeId = true := by
      rw [containsTypeId_iff, ht'tyids]
      exact mem_typeIds_of_ctor hAWF hdA
    have hval_eq := (hkey d hdA stA hstA).2 stc hstc
    have hRHS : w.getComponent e d = some (stc.get (idx : ℤ)) := by
      rw [getComponent_eval d hsig hcur hidx, if_pos hcontR]
      show (alGet current.stores d.typeId).map _ = _
      rw [hstc]
      rfl
    have hidxT : alGet t'.indexByEntity e = some A.size := ht'idxOf
    have hLHS : World.getComponent
        { (w.getOrCreateArchetype (current.ctors.filter
            (fun d => ¬ d.typeId = c.typeId))).2 with
          archetypeBySignature := alSet
            (alSet (w.getOrCreateArchetype (current.ctors.filter
              (fun d => ¬ d.typeId = c.typeId))).2.archetypeBySignature
              curSig current')
            (w.getOrCreateArchetype (current.ctors.filter
              (fun d => ¬ d.typeId = c.typeId))).1 t',
          entityArchetype := alSet
            (w.getOrCreateArchetype (current.ctors.filter
              (fun d => ¬ d.typeId = c.typeId))).2.entityArchetype
            e (w.getOrCreateArchetype (current.ctors.filter
              (fun d => ¬ d.typeId = c.typeId))).1 } e d =
        some ((stA.set (A.size : ℤ) (valFor
          (current.copyEntityTo (idx : ℤ) A) d)).1.get (A.size : ℤ)) := by
      rw [getComponent_eval d hdir_e habs_new hidxT, if_pos hcontT']
      show (alGet t'.stores d.typeId).map _ = _
      rw [hgetA]
      rfl
    rw [hLHS, hRHS, hval_eq]

/-- C5 (amended): on a well-formed world whose type ids are pipe-free and
globally coherent, for an entity `e` currently in archetype `current` and a
new component type `c` not on `e` whose value writes cleanly,
`addComponent(e, c, value)` followed by `removeComponent(e, c)` preserves
`getComponent(e, d)` for every component type `d` the entity already had,
and leaves `getComponent(e, c)` reporting absence. -/
theorem claim_C5_migration {w : World} {e : Entity} {c : Ctor}
    {value : JsRecord} {curSig : String} {current : Archetype}
    (hWF : w.WF) (hpf : w.PipeFree)
    (hco : CtorsCoherent (w.allCtors ++ [c]))
    (hcpf : pipeFreeT c.typeId)
    (hcsch : (c.schema.map Prod.fst).Nodup)
    (hsig : alGet w.entityArchetype e = some curSig)
    (hcur : alGet w.archetypeBySignature curSig = some current)
    (hnotin : c.typeId ∉ current.typeIds)
    (hval : ∀ kt ∈ c.schema, ∃ el,
      writeVal kt.2 (recGet value kt.1) = .ok el) :
    ∃ w₁ w₂, w.addComponent e c value = some w₁ ∧
      w₁.removeComponent e c = some w₂ ∧
      (∀ d ∈ current.ctors, w₂.getComponent e d = w.getComponent e d) ∧
      w₂.getComponent e c = none := by
  obtain ⟨w₁, hadd, h₁WF, h₁pf, h₁sub, h₁dir, ⟨t', h₁look, ht'ctors,
    ht'tyids, h₁mem⟩, h₁pres⟩ :=
    addComponent_newtype_char hWF hpf hco hcpf hcsch hsig hcur hnotin hval
  have h₁co : CtorsCoherent w₁.allCtors := coherent_subset hco h₁sub
  have hin : c.typeId ∈ t'.typeIds := by
    rw [ht'tyids]
    refine List.mem_map.2 ⟨c, ?_, rfl⟩
    exact (sortCtors_perm _).mem_iff.2
      (List.mem_append_right _ (List.mem_singleton.2 rfl))
  obtain ⟨w₂, hrem, h₂WF, h₂pf, h₂sub, h₂none, h₂pres⟩ :=
    removeComponent_present_char h₁WF h₁pf h₁co h₁dir h₁look hin
  refine ⟨w₁, w₂, hadd, hrem, ?_, h₂none⟩
  intro d hd
  have hcWF : current.WF := (hWF.2.2.1 _ (mem_of_alGet_eq_some hcur)).1
  have hdne : d.typeId ≠ c.typeId := by
    intro hdc
    refine hnotin ?_
    rw [hcWF.1]
    exact hdc ▸ List.mem_map_of_mem Ctor.typeId hd
  have hdt' : d ∈ t'.ctors := by
    rw [ht'ctors]
    exact (sortCtors_perm _).mem_iff.2 (List.mem_append_left _ hd)
  exact (h₂pres d hdt' hdne).trans (h₁pres d hd)

/-- Witness for C5 on a concrete world: entity 1 holding
`{Position, Velocity}` keeps both values across adding and removing
`Health`. -/
theorem claim_C5_witness :
    ∃ w₁ w₂, wPV.addComponent 1 cHp vHp = some w₁ ∧
      w₁.removeComponent 1 cHp = some w₂ ∧
      (∀ d ∈ archPV.ctors, w₂.getComponent 1 d = wPV.getComponent 1 d) ∧
      w₂.getComponent 1 cHp = none :=
  @claim_C5_migration wPV 1 cHp vHp "Position|Velocity" archPV
    (by decide) (by decide) (by decide) (by decide) (by decide)
    (by decide) (by decide) (by decide)
    (fun kt hkt => by
      have h := List.mem_singleton.1 hkt
      subst h
      exact ⟨.num (.fin 80), by decide⟩)

/-- Counterexample to C5 as stated: in `wColl` entity 2 holds `{a, b}` with
`b = 7`; because the type id `"b|c"` makes the signature of `{a, b, c}`
collide with the cached `{a, b|c}` archetype, adding component `c` and
removing it again loses the entity's `b` value entirely. -/
theorem claim_C5_counterexample :
    wColl.getComponent 2 cA = some [("x", .num (.fin 3))] ∧
    wColl.getComponent 2 cB = some [("y", .num (.fin 7))] ∧
    ((wColl.addComponent 2 cC vC).bind
      (fun w₁ => w₁.removeComponent 2 cC)).map
      (fun w₂ => w₂.getComponent 2 cB) = some none := by
  refine ⟨by decide, by decide, by decide⟩

/- Supporting lemmas for the remaining claims. -/

theorem ensureCapacity_capacity_of_lt {s : ColumnStore} {m : ℕ}
    (h : s.capacity < m) :
    (s.ensureCapacity m).capacity = growCap s.capacity m := by
  rw [ColumnStore.ensureCapacity, if_neg (by omega)]

theorem set_capacity (s : ColumnStore) (i : ℕ) (v : JsRecord) :
    (s.set (i : ℤ) v).1.capacity = (preGrow s (i : ℤ)).capacity := by
  rw [set_eq_preGrow]
  cases (setFieldsAux i v (preGrow s (i : ℤ)).fields).2 <;> rfl

theorem preGrow_capacity_big {s : ColumnStore} {i : ℕ}
    (hbig : s.capacity ≤ i) :
    (preGrow s (i : ℤ)).capacity = growCap s.capacity (i + 1) := by
  rw [preGrow, if_pos (by exact_mod_cast hbig)]
  rw [show ((i : ℤ)).toNat = i from Int.toNat_natCast i]
  exact ensureCapacity_capacity_of_lt (by omega)

theorem eq_of_perm_of_map_eq {α β : Type} (f : α → β) :
    ∀ {l₁ l₂ : List α}, l₁.Perm l₂ → l₁.map f = l₂.map f →
      (l₁.map f).Nodup → l₁ = l₂ := by
  intro l₁
  induction l₁ with
  | nil =>
    intro l₂ hp _ _
    exact (hp.symm.eq_nil).symm
  | cons x t ih =>
    intro l₂ hp hm hn
    cases l₂ with
    | nil => simpa using hp.length_eq
    | cons y t₂ =>
      simp only [List.map_cons, List.cons.injEq] at hm
      have hxy : x = y := by
        have hy : y ∈ x :: t := hp.mem_iff.2 (List.mem_cons_self _ _)
        rcases List.mem_cons.1 hy with h | h
        · exact h.symm
        · exfalso
          simp only [List.map_cons, List.nodup_cons] at hn
          exact hn.1 (hm.1 ▸ List.mem_map_of_mem f h)
      subst hxy
      have hp' : t.Perm t₂ := hp.cons_inv
      simp only [List.map_cons, List.nodup_cons] at hn
      rw [ih hp' hm.2 hn.2]

theorem sortCtors_eq_of_perm_nodup {l₁ l₂ : List Ctor} (hp : l₁.Perm l₂)
    (hn : (l₁.map Ctor.typeId).Nodup) : sortCtors l₁ = sortCtors l₂ :=
  eq_of_perm_of_map_eq Ctor.typeId
    ((sortCtors_perm l₁).trans (hp.trans (sortCtors_perm l₂).symm))
    (sortCtors_map_eq_of_perm hp)
    (((sortCtors_perm l₁).map Ctor.typeId).nodup_iff.2 hn)

theorem all_contains_iff (ctors : List Ctor) (a : Archetype) :
    (sortStrings (ctors.map Ctor.typeId)).all
      (fun s => a.containsTypeId s) = true ↔
    ∀ c ∈ ctors, c.typeId ∈ a.typeIds := by
  rw [List.all_eq_true]
  constructor
  · intro h c hc
    exact (containsTypeId_iff _ _).1 (h _ ((sortStrings_perm _).mem_iff.2
      (List.mem_map_of_mem Ctor.typeId hc)))
  · intro h s hs
    have hs' := (sortStrings_perm _).mem_iff.1 hs
    simp only [List.mem_map] at hs'
    obtain ⟨c, hc, rfl⟩ := hs'
    exact (containsTypeId_iff _ _).2 (h c hc)

theorem queryRows_fst_perm {w : World} {ctors₁ ctors₂ : List Ctor}
    (hp : ctors₁.Perm ctors₂) :
    (queryRows w ctors₁).map Prod.fst =
      (queryRows w ctors₂).map Prod.fst := by
  rw [queryRows_fst, queryRows_fst]
  congr 1
  apply List.map_congr_left
  intro p _
  rw [sortStrings_eq_of_perm (hp.map Ctor.typeId)]

theorem queryRows_row_mem {w : World} {ctors : List Ctor}
    {p : String × Archetype} (hp : p ∈ w.archetypeBySignature)
    (hm : (sortStrings (ctors.map Ctor.typeId)).all
      (fun s => p.2.containsTypeId s) = true)
    {q : ℕ × Entity} (hq : q ∈ p.2.entityIds.enum) :
    (q.2, ctors.map (fun c => compAtD p.2 c (q.1 : ℤ))) ∈
      queryRows w ctors := by
  rw [queryRows, List.mem_flatten]
  refine ⟨queryRowsArch ctors p.2, ?_, ?_⟩
  · refine List.mem_map.2 ⟨p, hp, ?_⟩
    rw [if_pos hm]
  · exact List.mem_map.2 ⟨q, hq, rfl⟩

/- The claims. -/

/-- C1: for a well-formed archetype holding entity `e`, `removeEntity(e)`
succeeds, shrinks the archetype by exactly one row, and for every remaining
entity `r`, `indexOf r` is the unique row holding `r` and every owned
component type reads the same record as before the removal. -/
theorem claim_C1_swap_remove {a : Archetype} (hWF : a.WF) {e : Entity}
    (he : e ∈ a.entityIds) :
    ∃ a', a.removeEntity e = some a' ∧
      1 ≤ a.size ∧ a'.size = a.size - 1 ∧
      ∀ r ∈ a.entityIds, r ≠ e →
        ∃ i i', a.indexOf r = some i ∧ a'.indexOf r = some i' ∧
          (∃ hu : i' < a'.entityIds.length, a'.entityIds[i'] = r ∧
            ∀ j (hj : j < a'.entityIds.length),
              a'.entityIds[j] = r → j = i') ∧
          ∀ c ∈ a.ctors,
            a'.getComponentAt c (i' : ℤ) = a.getComponentAt c (i : ℤ) := by
  obtain ⟨idx, hidx⟩ := indexOf_of_mem hWF he
  obtain ⟨a', hrem, hWF', _, _, _, hlen, hmem, hmap⟩ :=
    removeEntity_char hWF hidx
  refine ⟨a', hrem, List.length_pos.2 (List.ne_nil_of_mem he), hlen, ?_⟩
  intro r hr hre
  obtain ⟨i, hi⟩ := indexOf_of_mem hWF hr
  obtain ⟨hidx', hvals⟩ := hmap r i hre hi
  refine ⟨i, _, hi, hidx', ?_, hvals⟩
  obtain ⟨hi'lt, hi'val⟩ := (indexOf_eq_some_iff hWF' r _).1 hidx'
  refine ⟨hi'lt, hi'val, ?_⟩
  intro j hj hjval
  exact (List.Nodup.getElem_inj_iff hWF'.2.2.2.1).1 (hjval.trans hi'val.symm)

/-- Witness for C1: removing entity 1 from the concrete
`{Position, Velocity}` archetype. -/
theorem claim_C1_witness :
    (1 : ℤ) ∈ archPV.entityIds ∧
    ∃ a', archPV.removeEntity 1 = some a' ∧
      1 ≤ archPV.size ∧ a'.size = archPV.size - 1 ∧
      ∀ r ∈ archPV.entityIds, r ≠ 1 →
        ∃ i i', archPV.indexOf r = some i ∧ a'.indexOf r = some i' ∧
          (∃ hu : i' < a'.entityIds.length, a'.entityIds[i'] = r ∧
            ∀ j (hj : j < a'.entityIds.length),
              a'.entityIds[j] = r → j = i') ∧
          ∀ c ∈ archPV.ctors,
            a'.getComponentAt c (i' : ℤ) = archPV.getComponentAt c (i : ℤ) :=
  ⟨by decide, claim_C1_swap_remove (by decide) (by decide)⟩

/-- C2: sorting canonicalizes the constructor list, so any permutation of a
duplicate-free component-type list yields the same ordered type list and
signature, and `getOrCreateArchetype` behaves identically on both orders,
returning the same signature key and cached archetype. -/
theorem claim_C2_canonicalization {cs₁ cs₂ : List Ctor}
    (hperm : cs₁.Perm cs₂) (hn : (cs₁.map Ctor.typeId).Nodup) (w : World) :
    (Archetype.init cs₁).typeIds = (Archetype.init cs₂).typeIds ∧
    (Archetype.init cs₁).signature = (Archetype.init cs₂).signature ∧
    w.getOrCreateArchetype cs₁ = w.getOrCreateArchetype cs₂ ∧
    alGet (w.getOrCreateArchetype cs₁).2.archetypeBySignature
        (w.getOrCreateArchetype cs₁).1 =
      alGet (w.getOrCreateArchetype cs₂).2.archetypeBySignature
        (w.getOrCreateArchetype cs₂).1 := by
  have hsort : sortCtors cs₁ = sortCtors cs₂ :=
    sortCtors_eq_of_perm_nodup hperm hn
  have h1 : (Archetype.init cs₁).typeIds = (Archetype.init cs₂).typeIds := by
    show (sortCtors cs₁).map Ctor.typeId = (sortCtors cs₂).map Ctor.typeId
    rw [hsort]
  have h3 : w.getOrCreateArchetype cs₁ = w.getOrCreateArchetype cs₂ := by
    simp only [World.getOrCreateArchetype, hsort]
  refine ⟨h1, ?_, h3, by rw [h3]⟩
  show joinBar (Archetype.init cs₁).typeIds =
    joinBar (Archetype.init cs₂).typeIds
  rw [h1]

/-- Witness for C2 on the two orders of `[Position, Velocity]`. -/
theorem claim_C2_witness :
    (Archetype.init [cPos, cVel]).typeIds =
      (Archetype.init [cVel, cPos]).typeIds ∧
    (Archetype.init [cPos, cVel]).signature =
      (Archetype.init [cVel, cPos]).signature ∧
    World.init.getOrCreateArchetype [cPos, cVel] =
      World.init.getOrCreateArchetype [cVel, cPos] ∧
    alGet (World.init.getOrCreateArchetype
        [cPos, cVel]).2.archetypeBySignature
        (World.init.getOrCreateArchetype [cPos, cVel]).1 =
      alGet (World.init.getOrCreateArchetype
        [cVel, cPos]).2.archetypeBySignature
        (World.init.getOrCreateArchetype [cVel, cPos]).1 :=
  claim_C2_canonicalization (by decide) (by decide) World.init

/-- C3: a successful `set` at an index at or beyond the capacity grows every
field buffer to the smallest power-of-two multiple of the current capacity
strictly greater than the index, preserves every row below the old size,
and sets `size` to `max(old size, index + 1)`. -/
theorem claim_C3_growth {s : ColumnStore} (hWF : s.WF) (i : ℕ)
    (v : JsRecord) (hbig : s.capacity ≤ i)
    (hok : (s.set (i : ℤ) v).2 = none) :
    (∃ k, (s.set (i : ℤ) v).1.capacity = s.capacity * 2 ^ k ∧
      i < s.capacity * 2 ^ k ∧
      ∀ j, i < s.capacity * 2 ^ j →
        s.capacity * 2 ^ k ≤ s.capacity * 2 ^ j) ∧
    (∀ f ∈ (s.set (i : ℤ) v).1.fields,
      f.buf.length = (s.set (i : ℤ) v).1.capacity) ∧
    (∀ j : ℕ, j < s.size →
      (s.set (i : ℤ) v).1.get (j : ℤ) = s.get (j : ℤ)) ∧
    (s.set (i : ℤ) v).1.size = max s.size (i + 1) := by
  obtain ⟨hsch, hWF', hsize, hpres, hrow⟩ := set_ok_char hWF i v hok
  obtain ⟨k, hk, hmin, hleast⟩ := @growCap_spec s.capacity (i + 1)
    hWF.1
  have hcapeq : (s.set (i : ℤ) v).1.capacity =
      growCap s.capacity (i + 1) := by
    rw [set_capacity, preGrow_capacity_big hbig]
  refine ⟨⟨k, by rw [hcapeq, hk], by omega, fun j hj => hleast j (by omega)⟩,
    ?_, ?_, hsize⟩
  · intro f hf
    exact (hWF'.2.2.2 f hf).1
  · intro j hj
    have hszcap : s.size ≤ s.capacity := hWF.2.1
    exact hpres j hj (by omega)

/-- Witness for C3: writing row 8 of an 8-capacity store doubles it to 16.
-/
theorem claim_C3_witness :
    (mixStore.set ((8 : ℕ) : ℤ) mixVal).2 = none ∧
    ((∃ k, (mixStore.set ((8 : ℕ) : ℤ) mixVal).1.capacity =
        mixStore.capacity * 2 ^ k ∧
      8 < mixStore.capacity * 2 ^ k ∧
      ∀ j, 8 < mixStore.capacity * 2 ^ j →
        mixStore.capacity * 2 ^ k ≤ mixStore.capacity * 2 ^ j) ∧
    (∀ f ∈ (mixStore.set ((8 : ℕ) : ℤ) mixVal).1.fields,
      f.buf.length = (mixStore.set ((8 : ℕ) : ℤ) mixVal).1.capacity) ∧
    (∀ j : ℕ, j < mixStore.size →
      (mixStore.set ((8 : ℕ) : ℤ) mixVal).1.get (j : ℤ) =
        mixStore.get (j : ℤ)) ∧
    (mixStore.set ((8 : ℕ) : ℤ) mixVal).1.size =
      max mixStore.size (8 + 1)) :=
  ⟨by decide, claim_C3_growth (by decide) 8 mixVal (by decide) (by decide)⟩

/-- C4: after a successful `set`, `get` at the written row returns, for
every field of the schema, exactly the value prescribed by that field
kind's write-then-decode coercion; concretely, a boolean `true` round-trips
as `true`, the 64-bit integer `1234n` round-trips exactly, the numeric
string `"3.5"` round-trips through an `f64` field as the float `3.5`, the
string `"42"` round-trips through an `i32` field as the integer `42`, and
the exponent marker alone sends `"12e1"` down the floating-point parse to
`120`. -/
theorem claim_C4_roundtrip :
    (∀ (s : ColumnStore), s.WF → ∀ (i : ℕ) (v : JsRecord),
      (s.set (i : ℤ) v).2 = none →
      (s.set (i : ℤ) v).1.get (i : ℤ) =
        s.schema.map (fun kt =>
          (kt.1, decodeElem kt.2 (writeValD kt.2 (recGet v kt.1))))) ∧
    (mixStore.set (0 : ℤ) mixVal).2 = none ∧
    (mixStore.set (0 : ℤ) mixVal).1.get (0 : ℤ) =
      [("b", .bool true), ("n", .big 1234),
       ("f", .num (.fin (mkRat 7 2))), ("i", .num (.fin 42))] ∧
    (expStore.set (0 : ℤ) expVal).2 = none ∧
    (expStore.set (0 : ℤ) expVal).1.get (0 : ℤ) =
      [("f", .num (.fin 120))] := by
  refine ⟨?_, by decide, by decide, by decide, by decide⟩
  intro s hWF i v hok
  exact (set_ok_char hWF i v hok).2.2.2.2

/-- Witness for C4's universally quantified conjunct at the concrete
mixed-kind store. -/
theorem claim_C4_witness :
    (mixStore.set ((0 : ℕ) : ℤ) mixVal).1.get ((0 : ℕ) : ℤ) =
      mixStore.schema.map (fun kt =>
        (kt.1, decodeElem kt.2 (writeValD kt.2 (recGet mixVal kt.1)))) :=
  claim_C4_roundtrip.1 mixStore (by decide) 0 mixVal (by decide)

/-- C6 (amended): on a well-formed world, `query` succeeds, returns one
result per occupied row of each archetype whose type-id set contains every
requested id, lists each stored entity at most once, pairs each entity with
the component tuple in the order the types were passed, and returns the
same entity list for any permutation of the requested types. -/
theorem claim_C6_query {w : World} (hWF : w.WF) {ctors₁ ctors₂ : List Ctor}
    (hperm : ctors₁.Perm ctors₂) :
    w.query ctors₁ = some (queryRows w ctors₁) ∧
    w.query ctors₂ = some (queryRows w ctors₂) ∧
    ((queryRows w ctors₁).map Prod.fst).Nodup ∧
    (queryRows w ctors₁).map Prod.fst =
      (queryRows w ctors₂).map Prod.fst ∧
    (∀ e, e ∈ (queryRows w ctors₁).map Prod.fst ↔
      ∃ p ∈ w.archetypeBySignature,
        (∀ c ∈ ctors₁, c.typeId ∈ p.2.typeIds) ∧ e ∈ p.2.entityIds) ∧
    (∀ p ∈ w.archetypeBySignature,
      (∀ c ∈ ctors₁, c.typeId ∈ p.2.typeIds) →
      ∀ q ∈ p.2.entityIds.enum,
        (q.2, ctors₁.map (fun c => compAtD p.2 c (q.1 : ℤ))) ∈
          queryRows w ctors₁) := by
  refine ⟨query_eq hWF ctors₁, query_eq hWF ctors₂,
    queryRows_fst_nodup hWF ctors₁, queryRows_fst_perm hperm, ?_, ?_⟩
  · intro e
    rw [mem_queryRows_fst]
    constructor
    · intro ⟨p, hp, hall, he⟩
      exact ⟨p, hp, (all_contains_iff _ _).1 hall, he⟩
    · intro ⟨p, hp, hsup, he⟩
      exact ⟨p, hp, (all_contains_iff _ _).2 hsup, he⟩
  · intro p hp hsup q hq
    exact queryRows_row_mem hp ((all_contains_iff _ _).2 hsup) hq

/-- Witness for C6 on `wPV` with the two orders of
`[Position, Velocity]`. -/
theorem claim_C6_witness :
    wPV.query [cPos, cVel] = some (queryRows wPV [cPos, cVel]) ∧
    wPV.query [cVel, cPos] = some (queryRows wPV [cVel, cPos]) ∧
    ((queryRows wPV [cPos, cVel]).map Prod.fst).Nodup ∧
    (queryRows wPV [cPos, cVel]).map Prod.fst =
      (queryRows wPV [cVel, cPos]).map Prod.fst ∧
    (∀ e, e ∈ (queryRows wPV [cPos, cVel]).map Prod.fst ↔
      ∃ p ∈ wPV.archetypeBySignature,
        (∀ c ∈ [cPos, cVel], c.typeId ∈ p.2.typeIds) ∧
        e ∈ p.2.entityIds) ∧
    (∀ p ∈ wPV.archetypeBySignature,
      (∀ c ∈ [cPos, cVel], c.typeId ∈ p.2.typeIds) →
      ∀ q ∈ p.2.entityIds.enum,
        (q.2, [cPos, cVel].map (fun c => compAtD p.2 c (q.1 : ℤ))) ∈
          queryRows wPV [cPos, cVel]) :=
  claim_C6_query (by decide) (by decide)

/-- Counterexample to C6 as stated: after inserting the same entity id
twice, `query(Position)` returns two results for the one entity 1. -/
theorem claim_C6_counterexample :
    (wDup.query [cPos]).map (List.map Prod.fst) = some [1, 1] := by decide

/-- C7 (amended): on a well-formed world, after `destroyEntity(e)` of a
present entity, `getComponent(e, ·)` reports absence for every component
type and no `query` result carries entity `e`. -/
theorem claim_C7_destroy {w : World} (hWF : w.WF) {e : Entity}
    {sig : String} (hsig : alGet w.entityArchetype e = some sig) :
    ∃ w', w.destroyEntity e = some w' ∧
      (∀ c : Ctor, w'.getComponent e c = none) ∧
      (∀ ctors : List Ctor, ∃ rs, w'.query ctors = some rs ∧
        ∀ r ∈ rs, r.1 ≠ e) := by
  obtain ⟨w', hres, hWF', habs, hgc, hnotin, _⟩ := destroyEntity_char hWF hsig
  refine ⟨w', hres, hgc, ?_⟩
  intro ctors
  refine ⟨queryRows w' ctors, query_eq hWF' ctors, ?_⟩
  intro r hr hre
  have hmm : r.1 ∈ (queryRows w' ctors).map Prod.fst :=
    List.mem_map_of_mem Prod.fst hr
  rw [mem_queryRows_fst] at hmm
  obtain ⟨p, hp, _, hep⟩ := hmm
  exact hnotin p hp (hre ▸ hep)

/-- Witness for C7: destroying entity 1 of `wPV`. -/
theorem claim_C7_witness :
    ∃ w', wPV.destroyEntity 1 = some w' ∧
      (∀ c : Ctor, w'.getComponent 1 c = none) ∧
      (∀ ctors : List Ctor, ∃ rs, w'.query ctors = some rs ∧
        ∀ r ∈ rs, r.1 ≠ 1) :=
  @claim_C7_destroy wPV (by decide) 1 "Position|Velocity" (by decide)

/-- Counterexample to C7 as stated: with entity 1 double-inserted,
`destroyEntity(1)` leaves a row behind, so `getComponent` reports absence
while `query(Position)` still returns entity 1. -/
theorem claim_C7_counterexample :
    (wDup.destroyEntity 1).map (fun w' =>
      (w'.getComponent 1 cPos,
       (w'.query [cPos]).map (List.map Prod.fst))) =
    some (none, some [1]) := by decide

/-- C9 (amended): on a well-formed world, `query()` with no component types
matches every archetype vacuously and returns exactly one result per
stored entity, pairing it with the empty component tuple. -/
theorem claim_C9_query_empty {w : World} (hWF : w.WF) :
    w.query [] = some (w.storedEntities.map
      (fun e => (e, ([] : List JsRecord)))) ∧
    w.storedEntities.Nodup := by
  have h1 : queryRows w [] = w.storedEntities.map
      (fun e => (e, ([] : List JsRecord))) := by
    rw [queryRows, World.storedEntities, List.map_flatten, List.map_map]
    congr 1
    apply List.map_congr_left
    intro p _
    show (if _ then queryRowsArch [] p.2 else []) = _
    rw [if_pos (show ((sortStrings (List.map Ctor.typeId [])).all
      fun s => p.2.containsTypeId s) = true from rfl), queryRowsArch]
    show p.2.entityIds.enum.map
      ((fun e => (e, ([] : List JsRecord))) ∘ Prod.snd) = _
    rw [← List.map_map, List.enum_map_snd]
    rfl
  have h2 := queryRows_fst_nodup hWF []
  rw [h1, List.map_map] at h2
  refine ⟨by rw [query_eq hWF, h1], ?_⟩
  have h3 : (Prod.fst ∘ fun e : Entity =>
      (e, ([] : List JsRecord))) = fun e => e := rfl
  rw [h3, List.map_id'] at h2
  exact h2

/-- Witness for C9 on `wPV`. -/
theorem claim_C9_witness :
    wPV.query [] = some (wPV.storedEntities.map
      (fun e => (e, ([] : List JsRecord)))) ∧
    wPV.storedEntities.Nodup :=
  claim_C9_query_empty (by decide)

/-- Counterexample to C9 as stated: with entity 1 double-inserted,
`query()` returns two results for the single stored entity id. -/
theorem claim_C9_counterexample :
    wDup.query [] = some [(1, []), (1, [])] ∧
    wDup.storedEntities = [1, 1] := by
  refine ⟨by decide, by decide⟩

/-- C8: `copyFrom` fails with the out-of-range error exactly when the
source index lies outside `[0, other.size)`, and on that failure the
destination's size and every readable row are unchanged. -/
theorem claim_C8_copyFrom {s other : ColumnStore} (hs : s.WF)
    (ho : other.WF) (hsch : s.schema = other.schema) (it : ℕ) (is : ℤ) :
    ((s.copyFrom other (it : ℤ) is).2 = some .rangeErr ↔
      ¬ (0 ≤ is ∧ is < (other.size : ℤ))) ∧
    (¬ (0 ≤ is ∧ is < (other.size : ℤ)) →
      (s.copyFrom other (it : ℤ) is).1.size = s.size ∧
      ∀ j : ℤ, (s.copyFrom other (it : ℤ) is).1.get j = s.get j) := by
  obtain ⟨h1, h2⟩ := copyFrom_char hs ho hsch it is
  constructor
  · rw [h1]
    omega
  · intro h
    exact h2 (by omega)

/-- Witness for C8: copying from row 5 of an empty store rejects without
mutating. -/
theorem claim_C8_witness :
    ((mixStore.copyFrom mixStore ((0 : ℕ) : ℤ) 5).2 = some .rangeErr ↔
      ¬ (0 ≤ (5 : ℤ) ∧ (5 : ℤ) < (mixStore.size : ℤ))) ∧
    (¬ (0 ≤ (5 : ℤ) ∧ (5 : ℤ) < (mixStore.size : ℤ)) →
      (mixStore.copyFrom mixStore ((0 : ℕ) : ℤ) 5).1.size =
        mixStore.size ∧
      ∀ j : ℤ, (mixStore.copyFrom mixStore ((0 : ℕ) : ℤ) 5).1.get j =
        mixStore.get j) :=
  claim_C8_copyFrom (by decide) (by decide) rfl 0 5

/-- C10: `addEntityWithComponents` checks nothing, so adding entity 1 with
`Position` twice leaves the id on two rows — the dense entity list holds
it twice while the index map points at the later row — and
`query(Position)` then returns two results for that one entity. -/
theorem claim_C10_duplicate :
    (World.init.addEntityWithComponents 1 [(cPos, vPos)]).bind
      (fun w => w.addEntityWithComponents 1 [(cPos, vPos)]) = some wDup ∧
    archDup.entityIds = [1, 1] ∧
    alGet archDup.indexByEntity 1 = some 1 ∧
    (wDup.query [cPos]).map (List.map Prod.fst) = some [1, 1] := by
  refine ⟨by decide, by decide, by decide, by decide⟩
